import Mathlib

/-!
# Blast file transfer: wire codec, sender and receiver

A shallow embedding of `protocol.h`, `sender.cpp` and `receiver.cpp`.

* Bytes and machine integers are natural numbers; 32-bit arithmetic is written
  with an explicit `% 4294967296`.
* A caller-supplied buffer is the list of bytes written so far, so the running
  `offset` of a serialiser is the length of that list.
* Loops whose C++ condition compares 32-bit counters take a `fuel` argument: they
  may run for ever when the counter wraps around.
* An access outside an array or a vector is undefined behaviour in C++; the
  embedding stops with `Outcome.fault` there.
-/

namespace BlastFT

/-! ## Outcomes -/

/-- What running a piece of the program yields: a value, an access outside an
array or vector (`fault`), or a loop still running when the fuel is used up. -/
inductive Outcome (α : Type) where
  | ok (a : α)
  | fault
  | noFuel
  deriving DecidableEq, Repr

/-- Sequencing of two steps: the second runs on the value of the first. -/
def Outcome.bind {α β : Type} (x : Outcome α) (f : α → Outcome β) : Outcome β :=
  match x with
  | .ok a => f a
  | .fault => .fault
  | .noFuel => .noFuel

/-! ## Constants of `protocol.h` -/

def MAX_RECORDS_PER_PACKET : Nat := 16
def MAX_FILENAME_LEN : Nat := 256
def MAX_MISSING_SEGMENTS : Nat := 1000
def MAX_UDP_PAYLOAD : Nat := 65000

def FILE_HDR : Nat := 1
def FILE_HDR_ACK : Nat := 2
def DATA : Nat := 3
def IS_BLAST_OVER : Nat := 4
def REC_MISS : Nat := 5
def DISCONNECT : Nat := 6

/-! ## Raw integer copies (`memcpy` of an integer, little-endian host) -/

/-- The `n` bytes of `v`, least significant first. -/
def le_bytes : Nat → Nat → List Nat
  | 0, _ => []
  | n + 1, v => (v % 256) :: le_bytes n (v / 256)

/-- The integer whose little-endian bytes are given. -/
def le_value : List Nat → Nat
  | [] => 0
  | b :: bs => b + 256 * le_value bs

/-- The integer read by `memcpy(&x, buffer + offset, n)`. -/
def read_le (buffer : List Nat) (offset n : Nat) : Nat :=
  le_value ((buffer.drop offset).take n)

/-! ## Segments -/

structure Segment where
  start_record : Nat
  end_record : Nat
  deriving DecidableEq, Repr

/-! ## FILE_HDR -/

structure FileHeaderPacket where
  type : Nat
  file_size : Nat
  record_size : Nat
  blast_size : Nat
  filename : List Nat
  deriving DecidableEq, Repr

/-- The constructor `FileHeaderPacket()`. -/
def FileHeaderPacket.init : FileHeaderPacket :=
  { type := FILE_HDR, file_size := 0, record_size := 0, blast_size := 0,
    filename := List.replicate MAX_FILENAME_LEN 0 }

/-- `FileHeaderPacket::serialize`: the returned offset and the bytes written. -/
def FileHeaderPacket.serialize (p : FileHeaderPacket) : Nat × List Nat :=
  let out := [p.type]
  let out := out ++ le_bytes 8 p.file_size
  let out := out ++ le_bytes 2 p.record_size
  let out := out ++ le_bytes 4 p.blast_size
  let out := out ++ p.filename.take MAX_FILENAME_LEN
  (1 + 8 + 2 + 4 + MAX_FILENAME_LEN, out)

/-- `FileHeaderPacket::deserialize`: the returned offset and the packet read.
No length is checked by the source; `buffer` stands for the caller's array. -/
def FileHeaderPacket.deserialize (buffer : List Nat) : Nat × FileHeaderPacket :=
  (1 + 8 + 2 + 4 + MAX_FILENAME_LEN,
   { type := buffer.getD 0 0,
     file_size := read_le buffer 1 8,
     record_size := read_le buffer 9 2,
     blast_size := read_le buffer 11 4,
     filename := (buffer.drop 15).take MAX_FILENAME_LEN })

/-! ## FILE_HDR_ACK and DISCONNECT -/

/-- `FileHeaderAckPacket::serialize` on a default-constructed packet. -/
def FileHeaderAckPacket.serialize : Nat × List Nat := (1, [FILE_HDR_ACK])

/-- `DisconnectPacket::serialize` on a default-constructed packet. -/
def DisconnectPacket.serialize : Nat × List Nat := (1, [DISCONNECT])

/-! ## DATA -/

structure DataPacket where
  type : Nat
  num_segments : Nat
  segments : List Segment
  data : List Nat
  deriving DecidableEq, Repr

/-- The constructor `DataPacket()`: sixteen default segments, no data. -/
def DataPacket.init : DataPacket :=
  { type := DATA, num_segments := 0,
    segments := List.replicate MAX_RECORDS_PER_PACKET ⟨0, 0⟩, data := [] }

/-- The segment loop of `DataPacket::serialize` with `n` iterations left at
index `i`; `false` stands for the early `return 0`. -/
def DataPacket.serialize_segments (segments : List Segment) (buffer_size : Nat) :
    Nat → Nat → List Nat → Outcome (Bool × List Nat)
  | 0, _, out => .ok (true, out)
  | n + 1, i, out =>
    if out.length + 4 * 2 > buffer_size then .ok (false, out)
    else
      match segments.get? i with
      | none => .fault
      | some sg =>
        serialize_segments segments buffer_size n (i + 1)
          (out ++ le_bytes 4 sg.start_record ++ le_bytes 4 sg.end_record)

/-- `DataPacket::serialize`: the returned length and the bytes written. -/
def DataPacket.serialize (p : DataPacket) (buffer_size : Nat) : Outcome (Nat × List Nat) :=
  if 0 + 1 > buffer_size then .ok (0, [])
  else
    let out := [p.type]
    if out.length + 1 > buffer_size then .ok (0, out)
    else
      let out := out ++ [p.num_segments]
      (DataPacket.serialize_segments p.segments buffer_size p.num_segments 0 out).bind
        fun r =>
          if r.1 = false then .ok (0, r.2)
          else if r.2.length + p.data.length > buffer_size then .ok (0, r.2)
          else .ok (r.2.length + p.data.length, r.2 ++ p.data)

/-- The segment loop of `DataPacket::deserialize` with `n` iterations left at
index `i`; `false` stands for the early `return 0`. -/
def DataPacket.deserialize_segments (buffer : List Nat) :
    Nat → Nat → Nat → List Segment → Outcome (Bool × Nat × List Segment)
  | 0, _, offset, segments => .ok (true, offset, segments)
  | n + 1, i, offset, segments =>
    if offset + 4 * 2 > buffer.length then .ok (false, offset, segments)
    else if i < segments.length then
      deserialize_segments buffer n (i + 1) (offset + 4 + 4)
        (segments.set i ⟨read_le buffer offset 4, read_le buffer (offset + 4) 4⟩)
    else .fault

/-- `DataPacket::deserialize` of a datagram of `buffer.length` bytes into `p`:
the returned length and the packet as the call leaves it. -/
def DataPacket.deserialize (p : DataPacket) (buffer : List Nat) : Outcome (Nat × DataPacket) :=
  let buffer_size := buffer.length
  if 0 + 1 > buffer_size then .ok (0, p)
  else
    let p := { p with type := buffer.getD 0 0 }
    if 1 + 1 > buffer_size then .ok (0, p)
    else
      let p := { p with num_segments := buffer.getD 1 0 }
      (DataPacket.deserialize_segments buffer p.num_segments 0 2 p.segments).bind
        fun r =>
          let p := { p with segments := r.2.2 }
          if r.1 = false then .ok (0, p)
          else if buffer_size > r.2.1 then .ok (buffer_size, { p with data := buffer.drop r.2.1 })
          else .ok (r.2.1, p)

/-! ## IS_BLAST_OVER -/

structure BlastOverPacket where
  type : Nat
  start_record : Nat
  end_record : Nat
  deriving DecidableEq, Repr

/-- The constructor `BlastOverPacket(s, e)`. -/
def BlastOverPacket.mk2 (s e : Nat) : BlastOverPacket :=
  { type := IS_BLAST_OVER, start_record := s, end_record := e }

/-- `BlastOverPacket::serialize`. -/
def BlastOverPacket.serialize (p : BlastOverPacket) : Nat × List Nat :=
  let out := [p.type]
  let out := out ++ le_bytes 4 p.start_record
  let out := out ++ le_bytes 4 p.end_record
  (1 + 4 + 4, out)

/-- `BlastOverPacket::deserialize`; no length is checked by the source. -/
def BlastOverPacket.deserialize (buffer : List Nat) : Nat × BlastOverPacket :=
  (1 + 4 + 4,
   { type := buffer.getD 0 0,
     start_record := read_le buffer 1 4,
     end_record := read_le buffer 5 4 })

/-! ## REC_MISS -/

structure RecMissPacket where
  type : Nat
  num_missing : Nat
  missing : List Segment
  deriving DecidableEq, Repr

/-- The constructor `RecMissPacket()`: a thousand default segments. -/
def RecMissPacket.init : RecMissPacket :=
  { type := REC_MISS, num_missing := 0,
    missing := List.replicate MAX_MISSING_SEGMENTS ⟨0, 0⟩ }

/-- `RecMissPacket::serialize`: the segment loop is the one of the DATA frame. -/
def RecMissPacket.serialize (p : RecMissPacket) (buffer_size : Nat) : Outcome (Nat × List Nat) :=
  if 0 + 1 > buffer_size then .ok (0, [])
  else
    let out := [p.type]
    if out.length + 2 > buffer_size then .ok (0, out)
    else
      let out := out ++ le_bytes 2 p.num_missing
      (DataPacket.serialize_segments p.missing buffer_size p.num_missing 0 out).bind
        fun r => if r.1 = false then .ok (0, r.2) else .ok (r.2.length, r.2)

/-- The segment loop of `RecMissPacket::deserialize`, which also stops at
`MAX_MISSING_SEGMENTS`. -/
def RecMissPacket.deserialize_segments (buffer : List Nat) :
    Nat → Nat → Nat → List Segment → Outcome (Bool × Nat × List Segment)
  | 0, _, offset, missing => .ok (true, offset, missing)
  | n + 1, i, offset, missing =>
    if i < MAX_MISSING_SEGMENTS then
      if offset + 4 * 2 > buffer.length then .ok (false, offset, missing)
      else if i < missing.length then
        deserialize_segments buffer n (i + 1) (offset + 4 + 4)
          (missing.set i ⟨read_le buffer offset 4, read_le buffer (offset + 4) 4⟩)
      else .fault
    else .ok (true, offset, missing)

/-- `RecMissPacket::deserialize` of a datagram of `buffer.length` bytes into `p`. -/
def RecMissPacket.deserialize (p : RecMissPacket) (buffer : List Nat) :
    Outcome (Nat × RecMissPacket) :=
  let buffer_size := buffer.length
  if 0 + 1 > buffer_size then .ok (0, p)
  else
    let p := { p with type := buffer.getD 0 0 }
    if 1 + 2 > buffer_size then .ok (0, p)
    else
      let p := { p with num_missing := read_le buffer 1 2 }
      (RecMissPacket.deserialize_segments buffer p.num_missing 0 3 p.missing).bind
        fun r =>
          let p := { p with missing := r.2.2 }
          if r.1 = false then .ok (0, p) else .ok (r.2.1, p)

/-! ## Vectors -/

/-- The elements of `v` after `v.resize(n, x)`. -/
def resize {α : Type} (v : List α) (n : Nat) (x : α) : List α :=
  v.take n ++ List.replicate (n - v.length) x

/-- The 32-bit record count `(file_size + record_size - 1) / record_size`: the
sum is formed in 64 bits and the quotient is stored in a `uint32_t`. -/
def record_count (file_size record_size : Nat) : Nat :=
  ((file_size + record_size + 18446744073709551616 - 1) % 18446744073709551616
      / record_size) % 4294967296

/-- The characters of the C string held in a `char` array: those before the
first NUL. -/
def c_string (field : List Nat) : List Nat :=
  field.takeWhile (fun c => c != 0)

/-! ## Receiver (`receiver.cpp`) -/

structure FileReceiver where
  file_size : Nat
  record_size : Nat
  blast_size : Nat
  total_records : Nat
  output_filename : List Nat
  received_records : List Bool
  record_buffer : List (List Nat)
  deriving DecidableEq, Repr

/-- The receiver as constructed: both vectors empty. -/
def FileReceiver.init : FileReceiver :=
  { file_size := 0, record_size := 0, blast_size := 0, total_records := 0,
    output_filename := [], received_records := [], record_buffer := [] }

/-- `FileReceiver::send_file_hdr_ack`: the datagram sent. -/
def FileReceiver.send_file_hdr_ack : List Nat :=
  FileHeaderAckPacket.serialize.2.take FileHeaderAckPacket.serialize.1

/-- `FileReceiver::process_file_hdr`: the new state and the datagrams sent.
Dividing by a zero record size and a filename field without NUL are faults. -/
def FileReceiver.process_file_hdr (st : FileReceiver) (buffer : List Nat) :
    Outcome (FileReceiver × List (List Nat)) :=
  let hdr := (FileHeaderPacket.deserialize buffer).2
  if hdr.filename.all (fun c => c != 0) then .fault
  else if hdr.record_size = 0 then .fault
  else
    let total_records := record_count hdr.file_size hdr.record_size
    .ok ({ file_size := hdr.file_size,
           record_size := hdr.record_size,
           blast_size := hdr.blast_size,
           total_records := total_records,
           output_filename := c_string hdr.filename,
           received_records :=
             resize st.received_records ((total_records + 1) % 4294967296) false,
           record_buffer :=
             resize st.record_buffer ((total_records + 1) % 4294967296) [] },
         [FileReceiver.send_file_hdr_ack])

/-- The record loop `for (rec = start; rec <= end; rec++)` of
`process_data_packet` over the payload `data`: the state and `data_offset`
when the loop is left. -/
def FileReceiver.absorb_records (data : List Nat) (end_rec : Nat) :
    Nat → FileReceiver → Nat → Nat → Outcome (FileReceiver × Nat)
  | 0, _, _, _ => .noFuel
  | fuel + 1, st, rec, data_offset =>
    if rec ≤ end_rec then
      if 1 ≤ rec ∧ rec ≤ st.total_records then
        if rec < st.record_buffer.length ∧ rec < st.received_records.length
            ∧ data_offset + st.record_size ≤ data.length then
          absorb_records data end_rec fuel
            { st with
              record_buffer :=
                st.record_buffer.set rec ((data.drop data_offset).take st.record_size),
              received_records := st.received_records.set rec true }
            ((rec + 1) % 4294967296) (data_offset + st.record_size)
        else .fault
      else absorb_records data end_rec fuel st ((rec + 1) % 4294967296) data_offset
    else .ok (st, data_offset)

/-- The segment loop of `process_data_packet` with `n` iterations left at
index `i`. -/
def FileReceiver.absorb_segments (pkt : DataPacket) (fuel : Nat) :
    Nat → Nat → FileReceiver → Nat → Outcome FileReceiver
  | 0, _, st, _ => .ok st
  | n + 1, i, st, data_offset =>
    match pkt.segments.get? i with
    | none => .fault
    | some sg =>
      (FileReceiver.absorb_records pkt.data sg.end_record fuel st sg.start_record
          data_offset).bind
        fun r => absorb_segments pkt fuel n (i + 1) r.1 r.2

/-- `FileReceiver::process_data_packet` on a datagram of `buffer.length` bytes;
the value returned by `deserialize` is not looked at. -/
def FileReceiver.process_data_packet (fuel : Nat) (st : FileReceiver) (buffer : List Nat) :
    Outcome FileReceiver :=
  (DataPacket.deserialize DataPacket.init buffer).bind
    fun r => FileReceiver.absorb_segments r.2 fuel r.2.num_segments 0 st 0

/-- The loop of `find_missing_records`: `segment_start`, `in_segment` and
`missing` when the loop is left. -/
def FileReceiver.find_missing_loop (received_records : List Bool) (end_rec : Nat) :
    Nat → Nat → Nat → Bool → List Segment → Outcome (Nat × Bool × List Segment)
  | 0, _, _, _, _ => .noFuel
  | fuel + 1, rec, segment_start, in_segment, missing =>
    if rec ≤ end_rec then
      match received_records.get? rec with
      | none => .fault
      | some false =>
        if in_segment = false then
          find_missing_loop received_records end_rec fuel ((rec + 1) % 4294967296)
            rec true missing
        else
          find_missing_loop received_records end_rec fuel ((rec + 1) % 4294967296)
            segment_start in_segment missing
      | some true =>
        if in_segment = true then
          find_missing_loop received_records end_rec fuel ((rec + 1) % 4294967296)
            segment_start false
            (missing ++ [⟨segment_start, (rec + 4294967296 - 1) % 4294967296⟩])
        else
          find_missing_loop received_records end_rec fuel ((rec + 1) % 4294967296)
            segment_start in_segment missing
    else .ok (segment_start, in_segment, missing)

/-- `FileReceiver::find_missing_records(start_rec, end_rec)`. -/
def FileReceiver.find_missing_records (fuel : Nat) (st : FileReceiver)
    (start_rec end_rec : Nat) : Outcome (List Segment) :=
  (FileReceiver.find_missing_loop st.received_records end_rec fuel start_rec 0 false []).bind
    fun r =>
      if r.2.1 = true then .ok (r.2.2 ++ [⟨r.1, end_rec⟩]) else .ok r.2.2

/-- The record loop of `write_file_to_disk`: the returned flag and the bytes
written to `output`. -/
def FileReceiver.write_records (st : FileReceiver) :
    Nat → Nat → List Nat → Outcome (Bool × List Nat)
  | 0, _, _ => .noFuel
  | fuel + 1, rec, output =>
    if rec ≤ st.total_records then
      match st.received_records.get? rec with
      | none => .fault
      | some false => .ok (false, output)
      | some true =>
        if rec = st.total_records ∧ st.record_size = 0 then .fault
        else
          let bytes_to_write :=
            if rec = st.total_records then
              let remaining := st.file_size % st.record_size
              if remaining ≠ 0 then remaining else st.record_size
            else st.record_size
          match st.record_buffer.get? rec with
          | none => .fault
          | some r =>
            if bytes_to_write ≤ r.length then
              write_records st fuel ((rec + 1) % 4294967296) (output ++ r.take bytes_to_write)
            else .fault
    else .ok (true, output)

/-- `FileReceiver::write_file_to_disk`; `dir_created` and `file_opened` tell
whether the directory and the output stream could be made. -/
def FileReceiver.write_file_to_disk (dir_created file_opened : Bool) (fuel : Nat)
    (st : FileReceiver) : Outcome (Bool × List Nat) :=
  if dir_created = false then .ok (false, [])
  else if file_opened = false then .ok (false, [])
  else FileReceiver.write_records st fuel 1 []

/-! ## Sender (`sender.cpp`) -/

structure Statistics where
  total_packets_sent : Nat
  total_data_packets_sent : Nat
  total_packets_lost : Nat
  retransmissions : Nat
  total_blasts : Nat
  deriving DecidableEq, Repr

structure FileSender where
  output_filename : List Nat
  record_size : Nat
  blast_size : Nat
  file_size : Nat
  total_records : Nat
  file_records : List (List Nat)
  stats : Statistics
  deriving DecidableEq, Repr

/-- The sender as constructed from the command line. -/
def FileSender.init (output_fname : List Nat) (rec_size b_size : Nat) : FileSender :=
  { output_filename := output_fname, record_size := rec_size, blast_size := b_size,
    file_size := 0, total_records := 0, file_records := [],
    stats := ⟨0, 0, 0, 0, 0⟩ }

/-- The read loop of `load_file` with `n` iterations left at index `i`; `pos`
is the position of the input stream in `content`. -/
def FileSender.load_records (content : List Nat) (record_size file_size total_records : Nat) :
    Nat → Nat → Nat → List (List Nat) → List (List Nat)
  | 0, _, _, file_records => file_records
  | n + 1, i, pos, file_records =>
    let bytes_to_read :=
      if i = (total_records + 4294967296 - 1) % 4294967296 then
        let remaining := file_size % record_size
        if remaining ≠ 0 then remaining else record_size
      else record_size
    let got := (content.drop pos).take bytes_to_read
    load_records content record_size file_size total_records n (i + 1) (pos + got.length)
      (file_records.set i (got ++ List.replicate (record_size - got.length) 0))

/-- `FileSender::load_file` on a file that opens and holds `content`. -/
def FileSender.load_file (s : FileSender) (content : List Nat) : Outcome FileSender :=
  if s.record_size = 0 then .fault
  else
    let file_size := content.length
    let total_records := record_count file_size s.record_size
    .ok { s with
          file_size := file_size,
          total_records := total_records,
          file_records :=
            FileSender.load_records content s.record_size file_size total_records
              total_records 0 0 (resize s.file_records total_records []) }

/-- The filename field after `memset`, `strncpy(.., MAX_FILENAME_LEN - 1)` and
the final terminator. -/
def filename_field (name : List Nat) : List Nat :=
  let src := (c_string name).take (MAX_FILENAME_LEN - 1)
  src ++ List.replicate (MAX_FILENAME_LEN - src.length) 0

/-- The FILE_HDR built by `send_file_header`. -/
def FileSender.file_header (s : FileSender) : FileHeaderPacket :=
  { FileHeaderPacket.init with
    file_size := s.file_size,
    record_size := s.record_size,
    blast_size := s.blast_size,
    filename := filename_field s.output_filename }

/-- The inner loop of `create_data_packets` with `k` records still allowed in
the packet: `current_rec` and the packet data when the loop is left. -/
def FileSender.pack_records (file_records : List (List Nat)) (end_rec : Nat) :
    Nat → Nat → List Nat → Outcome (Nat × List Nat)
  | 0, current_rec, data => .ok (current_rec, data)
  | k + 1, current_rec, data =>
    if current_rec ≤ end_rec then
      match file_records.get? ((current_rec + 4294967296 - 1) % 4294967296) with
      | none => .fault
      | some r =>
        pack_records file_records end_rec k ((current_rec + 1) % 4294967296) (data ++ r)
    else .ok (current_rec, data)

/-- The outer loop of `create_data_packets`. -/
def FileSender.create_loop (file_records : List (List Nat)) (end_rec : Nat) :
    Nat → Nat → List DataPacket → Outcome (List DataPacket)
  | 0, _, _ => .noFuel
  | fuel + 1, current_rec, packets =>
    if current_rec ≤ end_rec then
      (FileSender.pack_records file_records end_rec MAX_RECORDS_PER_PACKET current_rec []).bind
        fun r =>
          let pkt : DataPacket :=
            { DataPacket.init with
              num_segments := 1,
              segments :=
                DataPacket.init.segments.set 0
                  ⟨current_rec, (r.1 + 4294967296 - 1) % 4294967296⟩,
              data := r.2 }
          create_loop file_records end_rec fuel r.1 (packets ++ [pkt])
    else .ok packets

/-- `FileSender::create_data_packets(start_rec, end_rec)`. -/
def FileSender.create_data_packets (fuel : Nat) (s : FileSender) (start_rec end_rec : Nat) :
    Outcome (List DataPacket) :=
  FileSender.create_loop s.file_records end_rec fuel start_rec []

/-- The blasts `(current_rec, blast_end)` for which the loop of
`FileSender::run` calls `process_blast_cycle`, every cycle succeeding. -/
def FileSender.run_blasts (total_records blast_size : Nat) :
    Nat → Nat → Outcome (List (Nat × Nat))
  | 0, _ => .noFuel
  | fuel + 1, current_rec =>
    if current_rec ≤ total_records then
      let blast_end :=
        min ((current_rec + blast_size + 4294967296 - 1) % 4294967296) total_records
      (run_blasts total_records blast_size fuel ((blast_end + 1) % 4294967296)).bind
        fun rest => .ok ((current_rec, blast_end) :: rest)
    else .ok []

/-! ## A transfer over a transport that loses nothing -/

/-- The datagrams `send_blast` hands to `send_packet` for the given packets:
each packet serialised into `MAX_UDP_PAYLOAD` bytes, those of size 0 left out. -/
def FileSender.blast_datagrams : List DataPacket → Outcome (List (List Nat))
  | [] => .ok []
  | pkt :: rest =>
    (pkt.serialize MAX_UDP_PAYLOAD).bind fun r =>
      (blast_datagrams rest).bind fun ds =>
        .ok (if r.1 > 0 then r.2.take r.1 :: ds else ds)

/-- The receiver absorbing the datagrams one after the other. -/
def FileReceiver.absorb_datagrams (fuel : Nat) :
    FileReceiver → List (List Nat) → Outcome FileReceiver
  | st, [] => .ok st
  | st, d :: ds =>
    (FileReceiver.process_data_packet fuel st d).bind fun st1 => absorb_datagrams fuel st1 ds

/-- The receiver absorbing, blast after blast, every DATA frame that
`create_data_packets` builds for the blast. -/
def absorb_blasts (fuel : Nat) (s : FileSender) :
    FileReceiver → List (Nat × Nat) → Outcome FileReceiver
  | st, [] => .ok st
  | st, b :: bs =>
    (s.create_data_packets fuel b.1 b.2).bind fun pkts =>
      (FileSender.blast_datagrams pkts).bind fun ds =>
        (FileReceiver.absorb_datagrams fuel st ds).bind fun st1 =>
          absorb_blasts fuel s st1 bs

/-- A whole transfer of `content` without loss: the sender loads the file, the
receiver is set up from the sender's FILE_HDR, absorbs the DATA frames of the
successive blasts and writes the file. -/
def lossless_transfer (fuel : Nat) (content name : List Nat) (record_size blast_size : Nat) :
    Outcome (Bool × List Nat) :=
  ((FileSender.init name record_size blast_size).load_file content).bind fun s =>
    (FileReceiver.init.process_file_hdr s.file_header.serialize.2).bind fun r0 =>
      (FileSender.run_blasts s.total_records s.blast_size fuel 1).bind fun blasts =>
        (absorb_blasts fuel s r0.1 blasts).bind fun st =>
          st.write_file_to_disk true true fuel

/-! ## Receiver: negative acknowledgement and the blast loop -/

/-- The copy loop `rec_miss.missing[i] = missing[i]` of `send_rec_miss` with `n`
iterations left at index `i`. -/
def FileReceiver.copy_missing (missing : List Segment) :
    Nat → Nat → List Segment → Outcome (List Segment)
  | 0, _, dst => .ok dst
  | n + 1, i, dst =>
    match missing.get? i with
    | none => .fault
    | some sg =>
      if i < dst.length then copy_missing missing n (i + 1) (dst.set i sg) else .fault

/-- `FileReceiver::send_rec_miss(start_rec, end_rec)`: the packet built and the
datagram sent. `(int)missing.size()` is the size itself, a list of segments
over 32-bit indices holding fewer than 2^31 of them. -/
def FileReceiver.send_rec_miss (fuel : Nat) (st : FileReceiver) (start_rec end_rec : Nat) :
    Outcome (RecMissPacket × List Nat) :=
  (st.find_missing_records fuel start_rec end_rec).bind fun missing =>
    let num_missing := min missing.length MAX_MISSING_SEGMENTS
    (FileReceiver.copy_missing missing num_missing 0 RecMissPacket.init.missing).bind fun dst =>
      let rec_miss : RecMissPacket :=
        { RecMissPacket.init with num_missing := num_missing, missing := dst }
      (rec_miss.serialize MAX_UDP_PAYLOAD).bind fun r => .ok (rec_miss, r.2.take r.1)

/-- The variables of `FileReceiver::run` during the data phase, and the
datagrams sent so far. -/
structure ReceiverRun where
  st : FileReceiver
  expected_blast_start : Nat
  connection_active : Bool
  sent : List (List Nat)
  deriving DecidableEq, Repr

/-- The body of the inner `while (true)` of `FileReceiver::run` once
`recv_packet_timeout` has stored a datagram of `size` bytes in `buffer` (the
bytes of `buffer` from `size` on are what earlier datagrams left there): the
new variables and whether the body ends in `break`. -/
def FileReceiver.blast_loop_body (fuel : Nat) (r : ReceiverRun) (buffer : List Nat)
    (size : Nat) : Outcome (ReceiverRun × Bool) :=
  let type := buffer.getD 0 0
  if type = DATA then
    (FileReceiver.process_data_packet fuel r.st (buffer.take size)).bind fun st =>
      .ok ({ r with st := st }, false)
  else if type = IS_BLAST_OVER then
    let blast_over := (BlastOverPacket.deserialize buffer).2
    (r.st.send_rec_miss fuel blast_over.start_record blast_over.end_record).bind fun m =>
      (r.st.find_missing_records fuel blast_over.start_record blast_over.end_record).bind
        fun missing =>
          if missing.isEmpty = true then
            if blast_over.end_record ≥ r.st.total_records then
              .ok ({ r with
                     sent := r.sent ++ [m.2],
                     expected_blast_start := (blast_over.end_record + 1) % 4294967296 }, true)
            else
              .ok ({ r with
                     sent := r.sent ++ [m.2],
                     expected_blast_start := (blast_over.end_record + 1) % 4294967296 }, false)
          else .ok ({ r with sent := r.sent ++ [m.2] }, false)
  else if type = DISCONNECT then .ok ({ r with connection_active := false }, true)
  else if type = FILE_HDR then
    .ok ({ r with sent := r.sent ++ [FileReceiver.send_file_hdr_ack] }, false)
  else .ok (r, false)

/-- One datagram handled in the data phase of `FileReceiver::run`: the inner
loop body and, after a `break`, the test
`!connection_active || expected_blast_start > total_records` of the outer
loop. The flag tells whether the data phase is left for LINGER. -/
def FileReceiver.blast_phase_datagram (fuel : Nat) (r : ReceiverRun) (buffer : List Nat)
    (size : Nat) : Outcome (ReceiverRun × Bool) :=
  (FileReceiver.blast_loop_body fuel r buffer size).bind fun x =>
    if x.2 = true then
      .ok (x.1, !x.1.connection_active
                  || decide (x.1.expected_blast_start > x.1.st.total_records))
    else .ok (x.1, false)

/-- The receive buffer after `recvfrom` stored `datagram` in it. -/
def recv_into (buffer datagram : List Nat) : List Nat :=
  datagram.take MAX_UDP_PAYLOAD ++ buffer.drop (datagram.take MAX_UDP_PAYLOAD).length

/-! ## Sender: datagram exchange and the blast cycle -/

/-- What the sender's surroundings decide, call after call: the outcome of the
`k`-th `recvfrom` (`none` for a timeout or an error), the byte the receive
array holds at index 0 when that datagram is empty (the array is not
initialised), the answer of the `k`-th `should_drop_packet`, and whether the
`k`-th `sendto` succeeds. -/
structure SenderEnv where
  recv : Nat → Option (List Nat)
  stale : Nat → Nat
  drop : Nat → Bool
  sendto_ok : Nat → Bool

/-- What the sender does that can be seen from outside, in order: the line
`Sending blast: records s-e` printed by `send_blast`, a datagram dropped by the
loss hook, a datagram handed to `sendto` with the success of the call. -/
inductive SenderEvent where
  | blast (start_rec end_rec : Nat) (is_retransmission : Bool)
  | lost (datagram : List Nat)
  | sendto (datagram : List Nat) (ok : Bool)
  deriving DecidableEq, Repr

/-- The sender while it runs: its fields, the number of calls made so far of
`recvfrom`, `should_drop_packet` and `sendto`, and the events so far. -/
structure SenderRun where
  sender : FileSender
  recvs : Nat
  drops : Nat
  sendtos : Nat
  events : List SenderEvent
  deriving DecidableEq, Repr

/-- The byte `recv_buffer[0]` after the `k`-th `recv_packet_timeout`, when it
returned a datagram. -/
def SenderEnv.tag (env : SenderEnv) (k : Nat) : Option Nat :=
  (env.recv k).map fun d =>
    match d.take MAX_UDP_PAYLOAD with
    | [] => env.stale k
    | b :: _ => b

/-- `FileSender::send_packet(buffer, size, is_data_packet)` on the datagram of
the first `size` bytes of `buffer`. -/
def FileSender.send_packet (env : SenderEnv) (s : SenderRun) (datagram : List Nat)
    (is_data_packet : Bool) : SenderRun × Bool :=
  if is_data_packet = true ∧ env.drop s.drops = true then
    ({ s with
       drops := s.drops + 1,
       sender := { s.sender with
         stats := { s.sender.stats with
           total_packets_lost := (s.sender.stats.total_packets_lost + 1) % 4294967296 } },
       events := s.events ++ [SenderEvent.lost datagram] }, false)
  else
    let drops := if is_data_packet = true then s.drops + 1 else s.drops
    if env.sendto_ok s.sendtos = false then
      ({ s with
         drops := drops, sendtos := s.sendtos + 1,
         events := s.events ++ [SenderEvent.sendto datagram false] }, false)
    else
      ({ s with
         drops := drops, sendtos := s.sendtos + 1,
         sender := { s.sender with
           stats := { s.sender.stats with
             total_packets_sent := (s.sender.stats.total_packets_sent + 1) % 4294967296,
             total_data_packets_sent :=
               if is_data_packet = true then
                 (s.sender.stats.total_data_packets_sent + 1) % 4294967296
               else s.sender.stats.total_data_packets_sent } },
         events := s.events ++ [SenderEvent.sendto datagram true] }, true)

/-- `FileSender::recv_packet_timeout`: with a datagram, the byte then found at
index 0 of the receive array and the datagram (at most `MAX_UDP_PAYLOAD` bytes
are stored). -/
def FileSender.recv_packet_timeout (env : SenderEnv) (s : SenderRun) :
    SenderRun × Option (Nat × List Nat) :=
  ({ s with recvs := s.recvs + 1 },
    match env.tag s.recvs, env.recv s.recvs with
    | some b, some d => some (b, d.take MAX_UDP_PAYLOAD)
    | _, _ => none)

/-- The retry loop of `send_file_header` with `n` attempts left. -/
def FileSender.file_header_attempts (env : SenderEnv) (request : List Nat) :
    Nat → SenderRun → SenderRun × Bool
  | 0, s => (s, false)
  | n + 1, s =>
    let r := FileSender.recv_packet_timeout env (FileSender.send_packet env s request false).1
    match r.2 with
    | some x => if x.1 = FILE_HDR_ACK then (r.1, true) else file_header_attempts env request n r.1
    | none => file_header_attempts env request n r.1

/-- `FileSender::send_file_header`. -/
def FileSender.send_file_header (env : SenderEnv) (s : SenderRun) : SenderRun × Bool :=
  FileSender.file_header_attempts env
    (s.sender.file_header.serialize.2.take s.sender.file_header.serialize.1) 5 s

/-- The retry loop of `send_blast_over_and_wait` with `n` attempts left;
`some rec_miss` is the return value `true` with the packet as `deserialize`
left it, the value `deserialize` returned not being looked at. -/
def FileSender.blast_over_attempts (env : SenderEnv) (request : List Nat) :
    Nat → SenderRun → Outcome (SenderRun × Option RecMissPacket)
  | 0, s => .ok (s, none)
  | n + 1, s =>
    let r := FileSender.recv_packet_timeout env (FileSender.send_packet env s request false).1
    match r.2 with
    | some x =>
      if x.1 = REC_MISS then
        (RecMissPacket.deserialize RecMissPacket.init x.2).bind fun d => .ok (r.1, some d.2)
      else blast_over_attempts env request n r.1
    | none => blast_over_attempts env request n r.1

/-- `FileSender::send_blast_over_and_wait(start_rec, end_rec, rec_miss)`. -/
def FileSender.send_blast_over_and_wait (env : SenderEnv) (s : SenderRun)
    (start_rec end_rec : Nat) : Outcome (SenderRun × Option RecMissPacket) :=
  FileSender.blast_over_attempts env
    ((BlastOverPacket.mk2 start_rec end_rec).serialize.2.take
      (BlastOverPacket.mk2 start_rec end_rec).serialize.1) 5 s

/-- The loop of `send_blast` over the packets built. -/
def FileSender.send_packets (env : SenderEnv) (is_retransmission : Bool) :
    List DataPacket → SenderRun → Outcome SenderRun
  | [], s => .ok s
  | pkt :: rest, s =>
    (pkt.serialize MAX_UDP_PAYLOAD).bind fun r =>
      if r.1 > 0 then
        let x := FileSender.send_packet env s (r.2.take r.1) true
        if x.2 = false ∧ is_retransmission = true then
          send_packets env is_retransmission rest
            { x.1 with
              sender := { x.1.sender with
                stats := { x.1.sender.stats with
                  retransmissions :=
                    (x.1.sender.stats.retransmissions + 1) % 4294967296 } } }
        else send_packets env is_retransmission rest x.1
      else send_packets env is_retransmission rest s

/-- `FileSender::send_blast(start_rec, end_rec, is_retransmission)`. -/
def FileSender.send_blast (env : SenderEnv) (fuel : Nat) (s : SenderRun)
    (start_rec end_rec : Nat) (is_retransmission : Bool) : Outcome SenderRun :=
  (s.sender.create_data_packets fuel start_rec end_rec).bind fun packets =>
    FileSender.send_packets env is_retransmission packets
      { s with events := s.events ++ [SenderEvent.blast start_rec end_rec is_retransmission] }

/-- The loop `for (i = 0; i < rec_miss.num_missing; i++)` of
`process_blast_cycle` with `n` iterations left at index `i`. -/
def FileSender.retransmit (env : SenderEnv) (fuel : Nat) (rec_miss : RecMissPacket) :
    Nat → Nat → SenderRun → Outcome SenderRun
  | 0, _, s => .ok s
  | n + 1, i, s =>
    match rec_miss.missing.get? i with
    | none => .fault
    | some sg =>
      (FileSender.send_blast env fuel s sg.start_record sg.end_record true).bind
        fun s1 => retransmit env fuel rec_miss n (i + 1) s1

/-- One pass of the `while (true)` of `process_blast_cycle`: `some b` when the
pass ends the function with the value `b`, `none` when the loop goes round
again. -/
def FileSender.blast_cycle_round (env : SenderEnv) (fuel : Nat) (s : SenderRun)
    (start_rec end_rec : Nat) : Outcome (SenderRun × Option Bool) :=
  (FileSender.send_blast_over_and_wait env s start_rec end_rec).bind fun r =>
    match r.2 with
    | none => .ok (r.1, some false)
    | some rec_miss =>
      if rec_miss.num_missing = 0 then .ok (r.1, some true)
      else
        (FileSender.retransmit env fuel rec_miss rec_miss.num_missing 0 r.1).bind
          fun s1 => .ok (s1, none)

/-- The `while (true)` of `process_blast_cycle`. -/
def FileSender.blast_cycle_loop (env : SenderEnv) (fuel : Nat) (start_rec end_rec : Nat) :
    Nat → SenderRun → Outcome (SenderRun × Bool)
  | 0, _ => .noFuel
  | rounds + 1, s =>
    (FileSender.blast_cycle_round env fuel s start_rec end_rec).bind fun r =>
      match r.2 with
      | some b => .ok (r.1, b)
      | none => blast_cycle_loop env fuel start_rec end_rec rounds r.1

/-- `FileSender::process_blast_cycle(start_rec, end_rec)`. -/
def FileSender.process_blast_cycle (env : SenderEnv) (fuel : Nat) (s : SenderRun)
    (start_rec end_rec : Nat) : Outcome (SenderRun × Bool) :=
  (FileSender.send_blast env fuel
      { s with
        sender := { s.sender with
          stats := { s.sender.stats with
            total_blasts := (s.sender.stats.total_blasts + 1) % 4294967296 } } }
      start_rec end_rec false).bind
    fun s1 => FileSender.blast_cycle_loop env fuel start_rec end_rec fuel s1

/-- The data phase of `FileSender::run`: the loop over the blasts from
`current_rec` on; the flag is `false` when a blast cycle failed. -/
def FileSender.run_loop (env : SenderEnv) (fuel : Nat) :
    Nat → SenderRun → Nat → Outcome (SenderRun × Bool)
  | 0, _, _ => .noFuel
  | n + 1, s, current_rec =>
    if current_rec ≤ s.sender.total_records then
      let blast_end :=
        min ((current_rec + s.sender.blast_size + 4294967296 - 1) % 4294967296)
          s.sender.total_records
      (FileSender.process_blast_cycle env fuel s current_rec blast_end).bind fun r =>
        if r.2 = false then .ok (r.1, false)
        else run_loop env fuel n r.1 ((blast_end + 1) % 4294967296)
    else .ok (s, true)

/-- `FileSender::send_disconnect`. -/
def FileSender.send_disconnect (env : SenderEnv) (s : SenderRun) : SenderRun :=
  (FileSender.send_packet env s
    (DisconnectPacket.serialize.2.take DisconnectPacket.serialize.1) false).1

/-- `FileSender::run` for a file that opens and holds `content`: the sender
when `run` returns and the value returned. -/
def FileSender.run (env : SenderEnv) (fuel : Nat) (sd : FileSender) (content : List Nat) :
    Outcome (SenderRun × Bool) :=
  (sd.load_file content).bind fun sd1 =>
    let r := FileSender.send_file_header env ⟨sd1, 0, 0, 0, []⟩
    if r.2 = false then .ok (r.1, false)
    else
      (FileSender.run_loop env fuel fuel r.1 1).bind fun x =>
        if x.2 = false then .ok (x.1, false)
        else .ok (FileSender.send_disconnect env x.1, true)

/-! ## Receiver: the output path -/

/-- The path `full_output_path` that `write_file_to_disk` opens:
`"received_files/" + timestamp + "/" + output_filename`, as bytes; `timestamp`
is the string formatted from the clock. -/
def FileReceiver.full_output_path (timestamp : List Nat) (st : FileReceiver) : List Nat :=
  let dir_path := [114, 101, 99, 101, 105, 118, 101, 100, 95, 102, 105, 108, 101, 115, 47]
    ++ timestamp
  dir_path ++ [47] ++ st.output_filename

/-! ## Auxiliary definitions used by the proofs -/

/-- The wire bytes of a list of segments: `start` then `end`, four bytes each. -/
def segment_bytes : List Segment → List Nat
  | [] => []
  | sg :: rest => le_bytes 4 sg.start_record ++ le_bytes 4 sg.end_record ++ segment_bytes rest

/-- The segments the loop of `find_missing_records` still appends from index
`rec` on, `n` indices being left before `end_rec` is passed, the final
`push_back` included. -/
def missing_runs (received : List Bool) (end_rec : Nat) : Nat → Nat → Bool → Nat → List Segment
  | 0, _, in_segment, segment_start =>
    if in_segment = true then [⟨segment_start, end_rec⟩] else []
  | n + 1, rec, in_segment, segment_start =>
    if received[rec]? = some false then
      missing_runs received end_rec n (rec + 1) true
        (if in_segment = true then segment_start else rec)
    else if in_segment = true then
      ⟨segment_start, rec - 1⟩ :: missing_runs received end_rec n (rec + 1) false segment_start
    else missing_runs received end_rec n (rec + 1) false segment_start

/-- The segment held in `segments[0]`. -/
def DataPacket.first_segment (p : DataPacket) : Segment :=
  p.segments.headD ⟨0, 0⟩

/-- The DATA packet `create_data_packets` builds for the records `a..b`. -/
def data_packet_of (file_records : List (List Nat)) (a b : Nat) : DataPacket :=
  { DataPacket.init with
    num_segments := 1,
    segments := DataPacket.init.segments.set 0 ⟨a, b⟩,
    data := ((file_records.drop (a - 1)).take (b - a + 1)).flatten }

/-- The packets `create_data_packets` still builds from `current_rec` on, at
most `n` of them. -/
def data_packets_from (file_records : List (List Nat)) (end_rec : Nat) :
    Nat → Nat → List DataPacket
  | 0, _ => []
  | n + 1, current_rec =>
    if current_rec ≤ end_rec then
      data_packet_of file_records current_rec (min (current_rec + 15) end_rec)
        :: data_packets_from file_records end_rec n (min (current_rec + 15) end_rec + 1)
    else []

/-- The first `k` records of `R` bytes cut from `content`, each padded with
zero bytes up to `R`. -/
def chunks (R : Nat) : Nat → List Nat → List (List Nat)
  | 0, _ => []
  | k + 1, content =>
    (content.take R ++ List.replicate (R - (content.take R).length) 0)
      :: chunks R k (content.drop R)

/-- The receiver `st` holding the first `k` records of `file_records`. -/
def receiver_with (st : FileReceiver) (file_records : List (List Nat)) (k : Nat) :
    FileReceiver :=
  { st with
    received_records :=
      false :: (List.replicate k true ++ List.replicate (st.total_records - k) false),
    record_buffer :=
      [] :: (file_records.take k ++ List.replicate (st.total_records - k) []) }

/-- The events of `n` calls of `send_packet` for the control datagram `request`,
the first of them being the `k`-th call of `sendto`. -/
def request_events (env : SenderEnv) (request : List Nat) : Nat → Nat → List SenderEvent
  | _, 0 => []
  | k, n + 1 => SenderEvent.sendto request (env.sendto_ok k) :: request_events env request (k + 1) n

/-- The blasts announced among the events: `(start, end, is_retransmission)` of
every call of `send_blast`, in order. -/
def blast_log : List SenderEvent → List (Nat × Nat × Bool)
  | [] => []
  | SenderEvent.blast a b r :: rest => (a, b, r) :: blast_log rest
  | SenderEvent.lost _ :: rest => blast_log rest
  | SenderEvent.sendto _ _ :: rest => blast_log rest

/-- The datagrams handed to `send_packet` among the events, dropped or not, in
order. -/
def datagram_log : List SenderEvent → List (List Nat)
  | [] => []
  | SenderEvent.blast _ _ _ :: rest => datagram_log rest
  | SenderEvent.lost d :: rest => d :: datagram_log rest
  | SenderEvent.sendto d _ :: rest => d :: datagram_log rest

/-- The datagrams of the DATA frames that `send_blast(a, b, ..)` builds and
hands to `send_packet`. -/
def FileSender.blast_frames (fuel : Nat) (sd : FileSender) (a b : Nat) : List (List Nat) :=
  match (sd.create_data_packets fuel a b).bind FileSender.blast_datagrams with
  | .ok ds => ds
  | _ => []

/-- An event in short: (0, start, end, is_retransmission) for a blast,
(1, tag, 0, false) for a datagram dropped by the loss hook and (2, tag, 0, ok)
for a datagram handed to `sendto`. -/
def SenderEvent.summary : SenderEvent → Nat × Nat × Nat × Bool
  | SenderEvent.blast a b x => (0, a, b, x)
  | SenderEvent.lost d => (1, d.headD 0, 0, false)
  | SenderEvent.sendto d ok => (2, d.headD 0, 0, ok)

/-- The list `l` after the stores `l[w.1] = w.2` for the `w` of the list, first
to last. -/
def set_all {α : Type} (l : List α) : List (Nat × α) → List α
  | [] => l
  | w :: ws => set_all (l.set w.1 w.2) ws

/-- The receiver after the stores `(rec, bytes)` of `process_data_packet`:
`record_buffer[rec]` takes the bytes and `received_records[rec]` becomes true. -/
def apply_writes (ws : List (Nat × List Nat)) (st : FileReceiver) : FileReceiver :=
  { st with
    record_buffer := set_all st.record_buffer ws,
    received_records := set_all st.received_records (ws.map fun w => (w.1, true)) }

/-- The stores made by the record loop of `process_data_packet` and the final
`data_offset`, for a receiver of `T` records of `R` bytes whose vectors have
`nb` and `nr` entries. -/
def record_writes (data : List Nat) (T R nb nr end_rec : Nat) :
    Nat → Nat → Nat → Outcome (List (Nat × List Nat) × Nat)
  | 0, _, _ => .noFuel
  | fuel + 1, rec, data_offset =>
    if rec ≤ end_rec then
      if 1 ≤ rec ∧ rec ≤ T then
        if rec < nb ∧ rec < nr ∧ data_offset + R ≤ data.length then
          (record_writes data T R nb nr end_rec fuel ((rec + 1) % 4294967296)
              (data_offset + R)).bind
            fun r => .ok ((rec, (data.drop data_offset).take R) :: r.1, r.2)
        else .fault
      else record_writes data T R nb nr end_rec fuel ((rec + 1) % 4294967296) data_offset
    else .ok ([], data_offset)

/-- The stores made by the segment loop of `process_data_packet`. -/
def segment_writes (pkt : DataPacket) (T R nb nr fuel : Nat) :
    Nat → Nat → Nat → Outcome (List (Nat × List Nat))
  | 0, _, _ => .ok []
  | n + 1, i, data_offset =>
    match pkt.segments.get? i with
    | none => .fault
    | some sg =>
      (record_writes pkt.data T R nb nr sg.end_record fuel sg.start_record data_offset).bind
        fun r => (segment_writes pkt T R nb nr fuel n (i + 1) r.2).bind
          fun ws => .ok (r.1 ++ ws)

/-- The number of records named by a list of segments. -/
def segment_records : List Segment → Nat
  | [] => 0
  | sg :: rest => (sg.end_record + 1 - sg.start_record) + segment_records rest

/-! # Proofs -/

@[simp]
theorem Outcome.bind_ok {α β : Type} (a : α) (f : α → Outcome β) :
    (Outcome.ok a).bind f = f a := rfl

@[simp]
theorem Outcome.bind_fault {α β : Type} (f : α → Outcome β) :
    (Outcome.fault : Outcome α).bind f = .fault := rfl

@[simp]
theorem Outcome.bind_noFuel {α β : Type} (f : α → Outcome β) :
    (Outcome.noFuel : Outcome α).bind f = .noFuel := rfl

@[simp]
theorem le_bytes_length (n v : Nat) : (le_bytes n v).length = n := by
  induction n generalizing v with
  | zero => rfl
  | succ n ih => simp [le_bytes, ih]

theorem le_value_le_bytes (n v : Nat) (h : v < 256 ^ n) : le_value (le_bytes n v) = v := by
  induction n generalizing v with
  | zero => simp at h; subst h; rfl
  | succ n ih =>
    have h2 : v / 256 < 256 ^ n := by
      rw [Nat.div_lt_iff_lt_mul (by norm_num)]
      rw [pow_succ] at h; exact h
    simp only [le_bytes, le_value, ih _ h2]
    omega

theorem read_le_append (pre post : List Nat) (n v : Nat) (h : v < 256 ^ n) :
    read_le (pre ++ (le_bytes n v ++ post)) pre.length n = v := by
  unfold read_le
  rw [List.drop_left, List.take_left' (le_bytes_length n v)]
  exact le_value_le_bytes n v h

@[simp]
theorem segment_bytes_length (l : List Segment) :
    (segment_bytes l).length = 8 * l.length := by
  induction l with
  | nil => rfl
  | cons sg rest ih => simp [segment_bytes, ih]; omega

theorem segment_bytes_append (l1 l2 : List Segment) :
    segment_bytes (l1 ++ l2) = segment_bytes l1 ++ segment_bytes l2 := by
  induction l1 with
  | nil => rfl
  | cons sg rest ih => simp [segment_bytes, ih]

theorem take_set_succ {α : Type} (l : List α) (i : Nat) (a : α) (h : i < l.length) :
    (l.set i a).take (i + 1) = l.take i ++ [a] := by
  rw [List.set_eq_take_append_cons_drop, if_pos h, List.take_append_eq_append_take]
  have hl : (List.take i l).length = i := by simp; omega
  simp [hl, List.take_take]

/-- With room for all of them the segment loop of `serialize` writes the `n`
segments from index `i` on. -/
theorem serialize_segments_fits (segments : List Segment) (buffer_size : Nat) :
    ∀ (n i : Nat) (out : List Nat), i + n ≤ segments.length →
      out.length + 8 * n ≤ buffer_size →
      DataPacket.serialize_segments segments buffer_size n i out
        = .ok (true, out ++ segment_bytes ((segments.drop i).take n)) := by
  intro n
  induction n with
  | zero => intro i out _ _; simp [DataPacket.serialize_segments, segment_bytes]
  | succ n ih =>
    intro i out hi hb
    have hlt : i < segments.length := by omega
    have hnot : ¬ (out.length + 4 * 2 > buffer_size) := by omega
    have hd : segments.drop i = segments[i] :: segments.drop (i + 1) := by
      rw [List.drop_eq_getElem_cons hlt]
    simp only [DataPacket.serialize_segments, hnot, if_false, List.get?_eq_getElem?,
      List.getElem?_eq_getElem hlt]
    rw [ih (i + 1) _ (by omega) (by simp; omega), hd]
    simp [segment_bytes]

/-- Without room for all of them the segment loop of `serialize` gives up. -/
theorem serialize_segments_short (segments : List Segment) (buffer_size : Nat) :
    ∀ (n i : Nat) (out : List Nat), i + n ≤ segments.length →
      out.length ≤ buffer_size → buffer_size < out.length + 8 * n →
      ∃ o, DataPacket.serialize_segments segments buffer_size n i out = .ok (false, o) := by
  intro n
  induction n with
  | zero => intro i out _ h1 h; omega
  | succ n ih =>
    intro i out hi hle hb
    have hlt : i < segments.length := by omega
    by_cases hc : out.length + 4 * 2 > buffer_size
    · exact ⟨out, by simp only [DataPacket.serialize_segments, hc, if_true]⟩
    · simp only [DataPacket.serialize_segments, hc, if_false, List.get?_eq_getElem?,
        List.getElem?_eq_getElem hlt]
      exact ih (i + 1) _ (by omega) (by simp; omega) (by simp; omega)

/-- The segment loop of `deserialize` reads back a run of encoded segments. -/
theorem data_deserialize_segments_read (post : List Nat) :
    ∀ (l : List Segment) (pre : List Nat) (i : Nat) (segments : List Segment),
      (∀ sg ∈ l, sg.start_record < 4294967296 ∧ sg.end_record < 4294967296) →
      i + l.length ≤ segments.length →
      DataPacket.deserialize_segments (pre ++ (segment_bytes l ++ post)) l.length i pre.length
          segments
        = .ok (true, pre.length + 8 * l.length,
            segments.take i ++ l ++ segments.drop (i + l.length)) := by
  intro l
  induction l with
  | nil =>
    intro pre i segments _ _
    simp [DataPacket.deserialize_segments]
  | cons sg rest ih =>
    intro pre i segments hb hi
    simp only [List.length_cons] at hi
    have hlt : i < segments.length := by omega
    have hs := (hb sg (List.mem_cons_self _ _)).1
    have he := (hb sg (List.mem_cons_self _ _)).2
    have hnot : ¬ (pre.length + 4 * 2 > (pre ++ (segment_bytes (sg :: rest) ++ post)).length) := by
      simp; omega
    have e1 : read_le (pre ++ (segment_bytes (sg :: rest) ++ post)) pre.length 4
        = sg.start_record := by
      have := read_le_append pre (le_bytes 4 sg.end_record ++ segment_bytes rest ++ post) 4
        sg.start_record (by norm_num; exact hs)
      simpa [segment_bytes, List.append_assoc] using this
    have e2 : read_le (pre ++ (segment_bytes (sg :: rest) ++ post)) (pre.length + 4) 4
        = sg.end_record := by
      have := read_le_append (pre ++ le_bytes 4 sg.start_record) (segment_bytes rest ++ post) 4
        sg.end_record (by norm_num; exact he)
      simpa [segment_bytes, List.append_assoc] using this
    have e3 : pre ++ (segment_bytes (sg :: rest) ++ post)
        = (pre ++ (le_bytes 4 sg.start_record ++ le_bytes 4 sg.end_record))
            ++ (segment_bytes rest ++ post) := by
      simp [segment_bytes, List.append_assoc]
    simp only [DataPacket.deserialize_segments, List.length_cons, hnot, if_false, hlt, if_true,
      e1, e2]
    rw [e3]
    have hl : (pre ++ (le_bytes 4 sg.start_record ++ le_bytes 4 sg.end_record)).length
        = pre.length + 4 + 4 := by simp
    rw [← hl, ih _ (i + 1) (segments.set i sg)
      (fun x hx => hb x (List.mem_cons_of_mem _ hx)) (by simp; omega)]
    rw [take_set_succ _ _ _ hlt, List.drop_set_of_lt _ _ (by omega)]
    simp only [List.length_cons, List.append_assoc, List.singleton_append]
    have h8 : pre.length + 4 + 4 + 8 * rest.length = pre.length + 8 * (rest.length + 1) := by omega
    have h9 : i + 1 + rest.length = i + (rest.length + 1) := by omega
    rw [hl, h8, h9]

/-- What `serialize` yields when the buffer is large enough. -/
theorem data_serialize_fits (p : DataPacket) (buffer_size : Nat)
    (hk : p.num_segments ≤ p.segments.length)
    (hb : 2 + 8 * p.num_segments + p.data.length ≤ buffer_size) :
    p.serialize buffer_size
      = .ok (2 + 8 * p.num_segments + p.data.length,
          [p.type, p.num_segments] ++ segment_bytes (p.segments.take p.num_segments) ++ p.data) := by
  unfold DataPacket.serialize
  have h1 : ¬ (0 + 1 > buffer_size) := by omega
  have h2 : ¬ ([p.type].length + 1 > buffer_size) := by simp; omega
  simp only [h1, h2, if_false]
  rw [serialize_segments_fits _ _ _ _ _ (by omega) (by simp; omega)]
  have hlen : (p.segments.take p.num_segments).length = p.num_segments := by simp; omega
  have h3 : ¬ (([p.type] ++ [p.num_segments] ++ segment_bytes (List.take p.num_segments p.segments)).length
      + p.data.length > buffer_size) := by simp [hlen]; omega
  simp only [Outcome.bind_ok, List.drop_zero]
  rw [if_neg (by simp), if_neg h3]
  simp [hlen]; omega

/-- A buffer that is too small makes `serialize` return 0. -/
theorem data_serialize_short (p : DataPacket) (buffer_size : Nat)
    (hk : p.num_segments ≤ p.segments.length)
    (hb : buffer_size < 2 + 8 * p.num_segments + p.data.length) :
    ∃ o, p.serialize buffer_size = .ok (0, o) := by
  unfold DataPacket.serialize
  by_cases h1 : 0 + 1 > buffer_size
  · rw [if_pos h1]; exact ⟨_, rfl⟩
  by_cases h2 : [p.type].length + 1 > buffer_size
  · rw [if_neg h1]; simp only []; rw [if_pos h2]; exact ⟨_, rfl⟩
  simp only [h1, h2, if_false]
  by_cases h3 : buffer_size < 2 + 8 * p.num_segments
  · obtain ⟨o, ho⟩ := serialize_segments_short p.segments buffer_size p.num_segments 0
      ([p.type] ++ [p.num_segments]) (by omega) (by simp at h2 ⊢; omega) (by simp; omega)
    rw [ho]
    exact ⟨o, by simp⟩
  · rw [serialize_segments_fits _ _ _ _ _ (by omega) (by simp; omega)]
    have hlen : (p.segments.take p.num_segments).length = p.num_segments := by simp; omega
    have h4 : ([p.type] ++ [p.num_segments] ++ segment_bytes (List.take p.num_segments p.segments)).length
        + p.data.length > buffer_size := by simp [hlen]; omega
    simp only [Outcome.bind_ok, List.drop_zero]
    rw [if_neg (by simp), if_pos h4]
    exact ⟨_, rfl⟩

/-- Reading back a well-formed DATA frame. -/
theorem data_deserialize_frame (dst : DataPacket) (t : Nat) (l : List Segment)
    (data : List Nat)
    (hb : ∀ sg ∈ l, sg.start_record < 4294967296 ∧ sg.end_record < 4294967296)
    (hl : l.length ≤ dst.segments.length) :
    dst.deserialize ([t, l.length] ++ segment_bytes l ++ data)
      = .ok (2 + 8 * l.length + data.length,
          { type := t, num_segments := l.length,
            segments := l ++ dst.segments.drop l.length,
            data := if data = [] then dst.data else data }) := by
  unfold DataPacket.deserialize
  have h1 : ¬ (0 + 1 > ([t, l.length] ++ segment_bytes l ++ data).length) := by simp
  have h2 : ¬ (1 + 1 > ([t, l.length] ++ segment_bytes l ++ data).length) := by simp
  simp only [h1, h2, if_false]
  have hg : ([t, l.length] ++ segment_bytes l ++ data).getD 1 0 = l.length := by simp
  have hg0 : ([t, l.length] ++ segment_bytes l ++ data).getD 0 0 = t := by simp
  rw [hg, hg0]
  have hrd := data_deserialize_segments_read data l [t, l.length] 0 dst.segments hb (by omega)
  rw [show [t, l.length].length = 2 from rfl] at hrd
  have e : [t, l.length] ++ segment_bytes l ++ data = [t, l.length] ++ (segment_bytes l ++ data) := by
    simp
  rw [e, hrd]
  simp only [Outcome.bind_ok, List.take_zero, List.nil_append, Nat.zero_add]
  rw [if_neg (by simp)]
  by_cases hd : data = []
  · subst hd
    simp
    omega
  · have : ([t, l.length] ++ (segment_bytes l ++ data)).length > 2 + 8 * l.length := by
      have : 0 < data.length := List.length_pos.mpr hd
      simp; omega
    have hdrop : List.drop (2 + 8 * l.length) ([t, l.length] ++ (segment_bytes l ++ data))
        = data := by
      rw [← List.append_assoc]
      exact List.drop_left' (by simp; omega)
    have hlen : ([t, l.length] ++ (segment_bytes l ++ data)).length
        = 2 + 8 * l.length + data.length := by simp; omega
    rw [if_pos this, hdrop, hlen, if_neg hd]

/-- The segment loop of `RecMissPacket::deserialize` reads back a run of
encoded segments that stays below `MAX_MISSING_SEGMENTS`. -/
theorem rec_miss_deserialize_segments_read (post : List Nat) :
    ∀ (l : List Segment) (pre : List Nat) (i : Nat) (missing : List Segment),
      (∀ sg ∈ l, sg.start_record < 4294967296 ∧ sg.end_record < 4294967296) →
      i + l.length ≤ missing.length → i + l.length ≤ MAX_MISSING_SEGMENTS →
      RecMissPacket.deserialize_segments (pre ++ (segment_bytes l ++ post)) l.length i pre.length
          missing
        = .ok (true, pre.length + 8 * l.length,
            missing.take i ++ l ++ missing.drop (i + l.length)) := by
  intro l
  induction l with
  | nil =>
    intro pre i missing _ _ _
    simp [RecMissPacket.deserialize_segments]
  | cons sg rest ih =>
    intro pre i missing hb hi hm
    simp only [List.length_cons] at hi hm
    have hlt : i < missing.length := by omega
    have hlt2 : i < MAX_MISSING_SEGMENTS := by omega
    have hs := (hb sg (List.mem_cons_self _ _)).1
    have he := (hb sg (List.mem_cons_self _ _)).2
    have hnot : ¬ (pre.length + 4 * 2 > (pre ++ (segment_bytes (sg :: rest) ++ post)).length) := by
      simp; omega
    have e1 : read_le (pre ++ (segment_bytes (sg :: rest) ++ post)) pre.length 4
        = sg.start_record := by
      have := read_le_append pre (le_bytes 4 sg.end_record ++ segment_bytes rest ++ post) 4
        sg.start_record (by norm_num; exact hs)
      simpa [segment_bytes, List.append_assoc] using this
    have e2 : read_le (pre ++ (segment_bytes (sg :: rest) ++ post)) (pre.length + 4) 4
        = sg.end_record := by
      have := read_le_append (pre ++ le_bytes 4 sg.start_record) (segment_bytes rest ++ post) 4
        sg.end_record (by norm_num; exact he)
      simpa [segment_bytes, List.append_assoc] using this
    have e3 : pre ++ (segment_bytes (sg :: rest) ++ post)
        = (pre ++ (le_bytes 4 sg.start_record ++ le_bytes 4 sg.end_record))
            ++ (segment_bytes rest ++ post) := by
      simp [segment_bytes, List.append_assoc]
    simp only [RecMissPacket.deserialize_segments, List.length_cons, hnot, if_false, hlt, hlt2,
      if_true, e1, e2]
    rw [e3]
    have hl : (pre ++ (le_bytes 4 sg.start_record ++ le_bytes 4 sg.end_record)).length
        = pre.length + 4 + 4 := by simp
    rw [← hl, ih _ (i + 1) (missing.set i sg)
      (fun x hx => hb x (List.mem_cons_of_mem _ hx)) (by simp; omega) (by omega)]
    rw [take_set_succ _ _ _ hlt, List.drop_set_of_lt _ _ (by omega)]
    simp only [List.length_cons, List.append_assoc, List.singleton_append]
    have h8 : pre.length + 4 + 4 + 8 * rest.length = pre.length + 8 * (rest.length + 1) := by omega
    have h9 : i + 1 + rest.length = i + (rest.length + 1) := by omega
    rw [hl, h8, h9]

/-- What `RecMissPacket::serialize` yields when the buffer is large enough. -/
theorem rec_miss_serialize_fits (p : RecMissPacket) (buffer_size : Nat)
    (hk : p.num_missing ≤ p.missing.length)
    (hb : 3 + 8 * p.num_missing ≤ buffer_size) :
    p.serialize buffer_size
      = .ok (3 + 8 * p.num_missing,
          [p.type] ++ le_bytes 2 p.num_missing
            ++ segment_bytes (p.missing.take p.num_missing)) := by
  unfold RecMissPacket.serialize
  have h1 : ¬ (0 + 1 > buffer_size) := by omega
  have h2 : ¬ ([p.type].length + 2 > buffer_size) := by simp; omega
  simp only [h1, h2, if_false]
  rw [serialize_segments_fits _ _ _ _ _ (by omega) (by simp; omega)]
  have hlen : (p.missing.take p.num_missing).length = p.num_missing := by simp; omega
  simp only [Outcome.bind_ok, List.drop_zero]
  rw [if_neg (by simp)]
  simp [hlen]; omega

/-- Reading back a well-formed REC_MISS frame. -/
theorem rec_miss_deserialize_frame (dst : RecMissPacket) (t : Nat) (l : List Segment)
    (hb : ∀ sg ∈ l, sg.start_record < 4294967296 ∧ sg.end_record < 4294967296)
    (hl : l.length ≤ dst.missing.length) (hm : l.length ≤ MAX_MISSING_SEGMENTS) :
    dst.deserialize ([t] ++ le_bytes 2 l.length ++ segment_bytes l)
      = .ok (3 + 8 * l.length,
          { type := t, num_missing := l.length,
            missing := l ++ dst.missing.drop l.length }) := by
  unfold RecMissPacket.deserialize
  have h1 : ¬ (0 + 1 > ([t] ++ le_bytes 2 l.length ++ segment_bytes l).length) := by simp
  have h2 : ¬ (1 + 2 > ([t] ++ le_bytes 2 l.length ++ segment_bytes l).length) := by simp
  simp only [h1, h2, if_false]
  have hm2 : l.length < 256 ^ 2 := by unfold MAX_MISSING_SEGMENTS at hm; omega
  have hg : read_le ([t] ++ le_bytes 2 l.length ++ segment_bytes l) 1 2 = l.length := by
    have := read_le_append [t] (segment_bytes l) 2 l.length hm2
    simpa [List.append_assoc] using this
  have hg0 : ([t] ++ le_bytes 2 l.length ++ segment_bytes l).getD 0 0 = t := by simp
  rw [hg, hg0]
  have hrd := rec_miss_deserialize_segments_read [] l ([t] ++ le_bytes 2 l.length) 0
    dst.missing hb (by omega) (by omega)
  rw [show ([t] ++ le_bytes 2 l.length).length = 3 by simp] at hrd
  simp only [List.append_nil] at hrd
  rw [hrd]
  simp only [Outcome.bind_ok, List.take_zero, List.nil_append, Nat.zero_add]
  rw [if_neg (by simp)]

/-- C4. DATA codec round trip: when `serialize` of a DATA packet with at most
16 segments returns a length `n > 0`, `deserialize` of those `n` bytes into a
fresh packet returns `n` and gives tag 3, the same `num_segments`, the same
first `num_segments` segments in order and the same data bytes. -/
theorem data_codec_round_trip (p : DataPacket) (buffer_size n : Nat) (out : List Nat)
    (htype : p.type = DATA)
    (hk : p.num_segments ≤ MAX_RECORDS_PER_PACKET)
    (hlen : p.segments.length = MAX_RECORDS_PER_PACKET)
    (hseg : ∀ sg ∈ p.segments, sg.start_record < 4294967296 ∧ sg.end_record < 4294967296)
    (hser : p.serialize buffer_size = .ok (n, out)) (hn : 0 < n) :
    out.length = n ∧
    ∃ q, DataPacket.init.deserialize (out.take n) = .ok (n, q) ∧
      q.type = 3 ∧ q.num_segments = p.num_segments ∧
      q.segments.take p.num_segments = p.segments.take p.num_segments ∧
      q.data = p.data := by
  have hk2 : p.num_segments ≤ p.segments.length := by rw [hlen]; exact hk
  by_cases hb : 2 + 8 * p.num_segments + p.data.length ≤ buffer_size
  · rw [data_serialize_fits p buffer_size hk2 hb] at hser
    have hout : out = [p.type, p.num_segments] ++ segment_bytes (p.segments.take p.num_segments)
        ++ p.data := by
      injection hser with h; exact (Prod.mk.inj h).2.symm
    have hnn : n = 2 + 8 * p.num_segments + p.data.length := by
      injection hser with h; exact (Prod.mk.inj h).1.symm
    have htl : (p.segments.take p.num_segments).length = p.num_segments := by simp; omega
    have hol : out.length = n := by rw [hout, hnn]; simp [htl]; omega
    refine ⟨hol, ?_⟩
    have hfr := data_deserialize_frame DataPacket.init p.type
      (p.segments.take p.num_segments) p.data
      (fun sg hsg => hseg sg (List.mem_of_mem_take hsg))
      (by rw [htl]; exact hk)
    rw [htl] at hfr
    have htake : out.take n = out := by rw [← hol, List.take_length]
    rw [htake, hout, hfr, hnn]
    refine ⟨_, rfl, ?_, rfl, ?_, ?_⟩
    · simp [htype, DATA]
    · simp [htl]
    · by_cases hd : p.data = []
      · simp [hd, DataPacket.init]
      · simp [hd]
  · obtain ⟨o, ho⟩ := data_serialize_short p buffer_size hk2 (by omega)
    rw [ho] at hser
    injection hser with h
    have := (Prod.mk.inj h).1
    omega

theorem data_codec_round_trip_witness :
    ∃ q, DataPacket.init.deserialize
        (([3, 1, 5, 0, 0, 0, 6, 0, 0, 0, 7, 8] : List Nat).take 12) = .ok (12, q) ∧
      q.type = 3 ∧ q.num_segments = 1 ∧
      q.segments.take 1 = [⟨5, 6⟩] ∧ q.data = [7, 8] :=
  (data_codec_round_trip
    { DataPacket.init with
      num_segments := 1, segments := DataPacket.init.segments.set 0 ⟨5, 6⟩, data := [7, 8] }
    65000 12 [3, 1, 5, 0, 0, 0, 6, 0, 0, 0, 7, 8] rfl (by decide) rfl (by decide) (by decide)
    (by decide)).2

theorem read_le_at (pre post : List Nat) (n v off : Nat) (hoff : pre.length = off)
    (h : v < 256 ^ n) : read_le (pre ++ (le_bytes n v ++ post)) off n = v := by
  subst hoff
  exact read_le_append pre post n v h

theorem filename_field_length (name : List Nat) :
    (filename_field name).length = MAX_FILENAME_LEN := by
  unfold filename_field MAX_FILENAME_LEN
  simp only [List.length_append, List.length_replicate, List.length_take]
  omega

/-- `FileHeaderPacket::deserialize` undoes `serialize`. -/
theorem file_header_round_trip (h : FileHeaderPacket)
    (hf : h.file_size < 18446744073709551616) (hr : h.record_size < 65536)
    (hb : h.blast_size < 4294967296) (hn : h.filename.length = MAX_FILENAME_LEN) :
    FileHeaderPacket.deserialize h.serialize.2 = (271, h) := by
  have e0 : h.serialize.2 = [h.type] ++ (le_bytes 8 h.file_size ++ (le_bytes 2 h.record_size
      ++ (le_bytes 4 h.blast_size ++ h.filename))) := by
    simp [FileHeaderPacket.serialize, ← hn]
  have e1 : read_le h.serialize.2 1 8 = h.file_size := by
    rw [e0]; exact read_le_at _ _ _ _ _ rfl (by norm_num; exact hf)
  have e2 : read_le h.serialize.2 9 2 = h.record_size := by
    have := read_le_at ([h.type] ++ le_bytes 8 h.file_size)
      (le_bytes 4 h.blast_size ++ h.filename) 2 h.record_size 9 (by simp) (by norm_num; exact hr)
    rw [e0]; simpa [List.append_assoc] using this
  have e3 : read_le h.serialize.2 11 4 = h.blast_size := by
    have := read_le_at ([h.type] ++ le_bytes 8 h.file_size ++ le_bytes 2 h.record_size)
      h.filename 4 h.blast_size 11 (by simp) (by norm_num; exact hb)
    rw [e0]; simpa [List.append_assoc] using this
  have e4 : (h.serialize.2.drop 15).take MAX_FILENAME_LEN = h.filename := by
    have hd : h.serialize.2.drop 15 = h.filename := by
      have : h.serialize.2 = ([h.type] ++ le_bytes 8 h.file_size ++ le_bytes 2 h.record_size
          ++ le_bytes 4 h.blast_size) ++ h.filename := by rw [e0]; simp [List.append_assoc]
      rw [this]
      exact List.drop_left' (by simp)
    rw [hd, ← hn, List.take_length]
  have e5 : h.serialize.2.getD 0 0 = h.type := by rw [e0]; simp
  unfold FileHeaderPacket.deserialize
  rw [e1, e2, e3, e4, e5]
  rfl

/-- `BlastOverPacket::deserialize` undoes `serialize`. -/
theorem blast_over_round_trip (b : BlastOverPacket)
    (hs : b.start_record < 4294967296) (he : b.end_record < 4294967296) :
    BlastOverPacket.deserialize b.serialize.2 = (9, b) := by
  have e0 : b.serialize.2 = [b.type] ++ (le_bytes 4 b.start_record
      ++ (le_bytes 4 b.end_record ++ [])) := by
    simp [BlastOverPacket.serialize]
  have e1 : read_le b.serialize.2 1 4 = b.start_record := by
    rw [e0]; exact read_le_at _ _ _ _ _ rfl (by norm_num; exact hs)
  have e2 : read_le b.serialize.2 5 4 = b.end_record := by
    have := read_le_at ([b.type] ++ le_bytes 4 b.start_record) [] 4 b.end_record 5 (by simp)
      (by norm_num; exact he)
    rw [e0]; simpa [List.append_assoc] using this
  have e5 : b.serialize.2.getD 0 0 = b.type := by rw [e0]; simp
  unfold BlastOverPacket.deserialize
  rw [e1, e2, e5]

/-- C5. Control-frame codec round trip: for every FILE_HDR, IS_BLAST_OVER and
REC_MISS (at most 1000 segments) `deserialize` of the bytes written by
`serialize` returns the number of bytes written and every field; the encoded
lengths are 271, 9 and `3 + 8 * num_missing` and the first byte is 1, 4 or 5. -/
theorem control_codec_round_trip (h : FileHeaderPacket) (b : BlastOverPacket)
    (m dst : RecMissPacket) (buffer_size : Nat)
    (hht : h.type = FILE_HDR) (hf : h.file_size < 18446744073709551616)
    (hr : h.record_size < 65536) (hb : h.blast_size < 4294967296)
    (hn : h.filename.length = MAX_FILENAME_LEN)
    (hbt : b.type = IS_BLAST_OVER) (hs : b.start_record < 4294967296)
    (he : b.end_record < 4294967296)
    (hmt : m.type = REC_MISS) (hk : m.num_missing ≤ MAX_MISSING_SEGMENTS)
    (hml : m.missing.length = MAX_MISSING_SEGMENTS)
    (hdl : dst.missing.length = MAX_MISSING_SEGMENTS)
    (hseg : ∀ sg ∈ m.missing, sg.start_record < 4294967296 ∧ sg.end_record < 4294967296)
    (hsz : 3 + 8 * m.num_missing ≤ buffer_size) :
    (h.serialize.1 = 271 ∧ h.serialize.2.length = 271 ∧ h.serialize.2.head? = some 1 ∧
      FileHeaderPacket.deserialize h.serialize.2 = (271, h)) ∧
    (b.serialize.1 = 9 ∧ b.serialize.2.length = 9 ∧ b.serialize.2.head? = some 4 ∧
      BlastOverPacket.deserialize b.serialize.2 = (9, b)) ∧
    (∃ out q, m.serialize buffer_size = .ok (3 + 8 * m.num_missing, out) ∧
      out.length = 3 + 8 * m.num_missing ∧ out.head? = some 5 ∧
      dst.deserialize out = .ok (3 + 8 * m.num_missing, q) ∧
      q.type = 5 ∧ q.num_missing = m.num_missing ∧
      q.missing.take m.num_missing = m.missing.take m.num_missing) := by
  refine ⟨⟨rfl, ?_, ?_, file_header_round_trip h hf hr hb hn⟩,
    ⟨rfl, ?_, ?_, blast_over_round_trip b hs he⟩, ?_⟩
  · simp [FileHeaderPacket.serialize, hn, MAX_FILENAME_LEN]
  · simp [FileHeaderPacket.serialize, hht, FILE_HDR]
  · simp [BlastOverPacket.serialize]
  · simp [BlastOverPacket.serialize, hbt, IS_BLAST_OVER]
  · have hk2 : m.num_missing ≤ m.missing.length := by rw [hml]; exact hk
    have htl : (m.missing.take m.num_missing).length = m.num_missing := by simp; omega
    have hfr := rec_miss_deserialize_frame dst m.type (m.missing.take m.num_missing)
      (fun sg hsg => hseg sg (List.mem_of_mem_take hsg))
      (by rw [htl, hdl]; exact hk) (by rw [htl]; exact hk)
    rw [htl] at hfr
    refine ⟨_, _, rec_miss_serialize_fits m buffer_size hk2 hsz, ?_, ?_, hfr, ?_, rfl, ?_⟩
    · simp [htl]; omega
    · simp [hmt, REC_MISS]
    · simp [hmt, REC_MISS]
    · simp [htl]

theorem control_codec_round_trip_witness :
    (∃ out q, (RecMissPacket.mk 5 2 (List.replicate 1000 ⟨3, 4⟩)).serialize 65000
        = .ok (3 + 8 * 2, out) ∧
      out.length = 3 + 8 * 2 ∧ out.head? = some 5 ∧
      RecMissPacket.init.deserialize out = .ok (3 + 8 * 2, q) ∧
      q.type = 5 ∧ q.num_missing = 2 ∧
      q.missing.take 2 = (List.replicate 1000 (⟨3, 4⟩ : Segment)).take 2) :=
  (control_codec_round_trip
    ⟨1, 1536001, 512, 1000, filename_field [97, 46, 98]⟩ (BlastOverPacket.mk2 1 1000)
    (RecMissPacket.mk 5 2 (List.replicate 1000 ⟨3, 4⟩)) RecMissPacket.init 65000
    rfl (by decide) (by decide) (by decide) (filename_field_length _) rfl (by decide) (by decide)
    rfl (by decide) (List.length_replicate _ _) (List.length_replicate _ _)
    (by intro sg hsg; rw [List.eq_of_mem_replicate hsg]; decide) (by decide)).2.2

/-- The loop of `find_missing_records` followed by the closing `push_back`
appends `missing_runs`, as long as no 32-bit counter wraps. -/
theorem find_missing_loop_eq (received : List Bool) (end_rec : Nat)
    (he : end_rec + 1 < 4294967296) (hlen : end_rec < received.length) :
    ∀ (n fuel rec segment_start : Nat) (in_segment : Bool) (missing : List Segment),
      rec + n = end_rec + 1 → n < fuel → (in_segment = true → 1 ≤ rec) →
      (FileReceiver.find_missing_loop received end_rec fuel rec segment_start in_segment
          missing).bind
        (fun r => if r.2.1 = true then .ok (r.2.2 ++ [⟨r.1, end_rec⟩]) else .ok r.2.2)
      = .ok (missing ++ missing_runs received end_rec n rec in_segment segment_start) := by
  intro n
  induction n with
  | zero =>
    intro fuel rec ss ins missing hrec hfuel _
    obtain ⟨f, rfl⟩ : ∃ f, fuel = f + 1 := ⟨fuel - 1, by omega⟩
    have hnot : ¬ rec ≤ end_rec := by omega
    cases ins <;> simp [FileReceiver.find_missing_loop, hnot, missing_runs]
  | succ n ih =>
    intro fuel rec ss ins missing hrec hfuel hpos
    obtain ⟨f, rfl⟩ : ∃ f, fuel = f + 1 := ⟨fuel - 1, by omega⟩
    have hle : rec ≤ end_rec := by omega
    have hlt : rec < received.length := by omega
    have hnext : (rec + 1) % 4294967296 = rec + 1 := by omega
    have hget : received.get? rec = some received[rec] := by
      rw [List.get?_eq_getElem?, List.getElem?_eq_getElem hlt]
    have hget2 : received[rec]? = some received[rec] := List.getElem?_eq_getElem hlt
    unfold FileReceiver.find_missing_loop missing_runs
    rw [if_pos hle, hget, hnext, hget2]
    cases hb : received[rec] with
    | false =>
      cases ins with
      | false =>
        have h := ih f (rec + 1) rec true missing (by omega) (by omega) (by intro; omega)
        simpa using h
      | true =>
        have h := ih f (rec + 1) ss true missing (by omega) (by omega) (by intro; omega)
        simpa using h
    | true =>
      cases ins with
      | false =>
        have h := ih f (rec + 1) ss false missing (by omega) (by omega) (by intro h; cases h)
        simpa using h
      | true =>
        have hp := hpos rfl
        have hprev : (rec + 4294967296 - 1) % 4294967296 = rec - 1 := by omega
        have h := ih f (rec + 1) ss false (missing ++ [⟨ss, rec - 1⟩]) (by omega) (by omega)
          (by intro h; cases h)
        rw [hprev]
        simpa using h

/-- Every run lies between the open run (or the current index) and `end_rec`
and is not empty. -/
theorem missing_runs_bounds (received : List Bool) (end_rec : Nat) :
    ∀ (n rec segment_start : Nat) (in_segment : Bool),
      rec + n = end_rec + 1 → (in_segment = true → segment_start < rec) →
      ∀ sg ∈ missing_runs received end_rec n rec in_segment segment_start,
        (if in_segment = true then segment_start else rec) ≤ sg.start_record ∧
        sg.start_record ≤ sg.end_record ∧ sg.end_record ≤ end_rec := by
  intro n
  induction n with
  | zero =>
    intro rec ss ins hrec hin sg hsg
    cases ins with
    | false => simp [missing_runs] at hsg
    | true =>
      have := hin rfl
      simp [missing_runs] at hsg
      subst hsg
      simp
      omega
  | succ n ih =>
    intro rec ss ins hrec hin sg hsg
    unfold missing_runs at hsg
    by_cases hm : received[rec]? = some false
    · rw [if_pos hm] at hsg
      have h := ih (rec + 1) (if ins = true then ss else rec) true (by omega)
        (by intro _; cases ins
            · simp
            · have := hin rfl; simp; omega) sg hsg
      cases ins with
      | false => simpa using h
      | true => simpa using h
    · rw [if_neg hm] at hsg
      cases ins with
      | false =>
        simp only [Bool.false_eq_true, if_false] at hsg
        have h := ih (rec + 1) ss false (by omega) (by intro h; cases h) sg hsg
        simp at h ⊢
        omega
      | true =>
        have hlt := hin rfl
        simp only [if_true, List.mem_cons] at hsg
        rcases hsg with rfl | hsg
        · simp; omega
        · have h := ih (rec + 1) ss false (by omega) (by intro h; cases h) sg hsg
          simp at h ⊢
          omega

/-- Successive runs are separated by at least one index. -/
theorem missing_runs_pairwise (received : List Bool) (end_rec : Nat) :
    ∀ (n rec segment_start : Nat) (in_segment : Bool),
      rec + n = end_rec + 1 → (in_segment = true → segment_start < rec) →
      (missing_runs received end_rec n rec in_segment segment_start).Pairwise
        (fun a b => a.end_record + 1 < b.start_record) := by
  intro n
  induction n with
  | zero =>
    intro rec ss ins _ _
    cases ins <;> simp [missing_runs]
  | succ n ih =>
    intro rec ss ins hrec hin
    unfold missing_runs
    by_cases hm : received[rec]? = some false
    · rw [if_pos hm]
      exact ih (rec + 1) _ true (by omega)
        (by intro _; cases ins
            · simp
            · have := hin rfl; simp; omega)
    · rw [if_neg hm]
      cases ins with
      | false =>
        simp only [Bool.false_eq_true, if_false]
        exact ih (rec + 1) ss false (by omega) (by intro h; cases h)
      | true =>
        have hlt := hin rfl
        simp only [if_true, List.pairwise_cons]
        refine ⟨?_, ih (rec + 1) ss false (by omega) (by intro h; cases h)⟩
        intro b hb
        have h := missing_runs_bounds received end_rec n (rec + 1) ss false (by omega)
          (by intro h; cases h) b hb
        simp at h ⊢
        omega

/-- The runs cover the open run and the missing indices from `rec` on. -/
theorem missing_runs_cover (received : List Bool) (end_rec : Nat) :
    ∀ (n rec segment_start : Nat) (in_segment : Bool),
      rec + n = end_rec + 1 → (in_segment = true → segment_start < rec) →
      ∀ i, (∃ sg ∈ missing_runs received end_rec n rec in_segment segment_start,
              sg.start_record ≤ i ∧ i ≤ sg.end_record) ↔
        ((in_segment = true ∧ segment_start ≤ i ∧ i < rec) ∨
          (rec ≤ i ∧ i ≤ end_rec ∧ received[i]? = some false)) := by
  intro n
  induction n with
  | zero =>
    intro rec ss ins hrec hin i
    cases ins with
    | false => simp [missing_runs]; intro h1 h2; omega
    | true =>
      have := hin rfl
      simp [missing_runs]
      constructor
      · intro h; left; omega
      · intro h; omega
  | succ n ih =>
    intro rec ss ins hrec hin i
    unfold missing_runs
    by_cases hm : received[rec]? = some false
    · rw [if_pos hm]
      rw [ih (rec + 1) _ true (by omega)
        (by intro _; cases ins
            · simp
            · have := hin rfl; simp; omega) i]
      cases ins with
      | false =>
        simp only [Bool.false_eq_true, if_false, true_and, false_and, false_or]
        constructor
        · rintro (h | h)
          · have : i = rec := by omega
            subst this
            exact ⟨le_refl _, by omega, hm⟩
          · exact ⟨by omega, h.2.1, h.2.2⟩
        · rintro ⟨h1, h2, h3⟩
          by_cases hi : i = rec
          · left; omega
          · right; exact ⟨by omega, h2, h3⟩
      | true =>
        have hlt := hin rfl
        simp only [if_true, true_and]
        constructor
        · rintro (h | h)
          · by_cases hi : i = rec
            · subst hi; right; exact ⟨le_refl _, by omega, hm⟩
            · left; omega
          · right; exact ⟨by omega, h.2.1, h.2.2⟩
        · rintro (h | ⟨h1, h2, h3⟩)
          · left; omega
          · by_cases hi : i = rec
            · left; omega
            · right; exact ⟨by omega, h2, h3⟩
    · rw [if_neg hm]
      cases ins with
      | false =>
        simp only [Bool.false_eq_true, if_false, false_and, false_or]
        rw [ih (rec + 1) ss false (by omega) (by intro h; cases h) i]
        simp only [Bool.false_eq_true, false_and, false_or]
        constructor
        · rintro ⟨h1, h2, h3⟩; exact ⟨by omega, h2, h3⟩
        · rintro ⟨h1, h2, h3⟩
          have : i ≠ rec := by rintro rfl; exact hm h3
          exact ⟨by omega, h2, h3⟩
      | true =>
        have hlt := hin rfl
        simp only [if_true, true_and, List.exists_mem_cons_iff]
        rw [ih (rec + 1) ss false (by omega) (by intro h; cases h) i]
        simp only [Bool.false_eq_true, false_and, false_or]
        constructor
        · rintro (h | ⟨h1, h2, h3⟩)
          · left; omega
          · right; exact ⟨by omega, h2, h3⟩
        · rintro (h | ⟨h1, h2, h3⟩)
          · left; omega
          · have : i ≠ rec := by rintro rfl; exact hm h3
            right; exact ⟨by omega, h2, h3⟩

/-- Every run is flanked by a received index or by an end of the range. -/
theorem missing_runs_maximal (received : List Bool) (start_rec end_rec : Nat)
    (hlen : end_rec < received.length) :
    ∀ (n rec segment_start : Nat) (in_segment : Bool),
      rec + n = end_rec + 1 → (in_segment = true → segment_start < rec) →
      (in_segment = true →
        segment_start - 1 < start_rec ∨ received[segment_start - 1]? = some true) →
      (in_segment = false → rec - 1 < start_rec ∨ received[rec - 1]? = some true) →
      ∀ sg ∈ missing_runs received end_rec n rec in_segment segment_start,
        (sg.start_record - 1 < start_rec ∨ received[sg.start_record - 1]? = some true) ∧
        (end_rec < sg.end_record + 1 ∨ received[sg.end_record + 1]? = some true) := by
  intro n
  induction n with
  | zero =>
    intro rec ss ins hrec hin hp1 hp2 sg hsg
    cases ins with
    | false => simp [missing_runs] at hsg
    | true =>
      simp [missing_runs] at hsg
      subst hsg
      exact ⟨hp1 rfl, Or.inl (by simp)⟩
  | succ n ih =>
    intro rec ss ins hrec hin hp1 hp2 sg hsg
    unfold missing_runs at hsg
    have hlt : rec < received.length := by omega
    by_cases hm : received[rec]? = some false
    · rw [if_pos hm] at hsg
      refine ih (rec + 1) (if ins = true then ss else rec) true (by omega) ?_ ?_ ?_ sg hsg
      · intro _; cases ins
        · simp
        · have := hin rfl; simp; omega
      · intro _; cases ins
        · simpa using hp2 rfl
        · simpa using hp1 rfl
      · intro h; cases h
    · rw [if_neg hm] at hsg
      have hrcv : received[rec]? = some true := by
        rw [List.getElem?_eq_getElem hlt] at hm ⊢
        cases hb : received[rec]
        · rw [hb] at hm; exact absurd rfl hm
        · rfl
      have hnext : ∀ x ∈ missing_runs received end_rec n (rec + 1) false ss,
          (x.start_record - 1 < start_rec ∨ received[x.start_record - 1]? = some true) ∧
          (end_rec < x.end_record + 1 ∨ received[x.end_record + 1]? = some true) :=
        ih (rec + 1) ss false (by omega) (by intro h; cases h) (by intro h; cases h)
          (by intro _; right; simpa using hrcv)
      cases ins with
      | false =>
        simp only [Bool.false_eq_true, if_false] at hsg
        exact hnext sg hsg
      | true =>
        have hlt2 := hin rfl
        simp only [if_true, List.mem_cons] at hsg
        rcases hsg with rfl | hsg
        · refine ⟨hp1 rfl, Or.inr ?_⟩
          have : rec - 1 + 1 = rec := by omega
          simpa [this] using hrcv
        · exact hnext sg hsg

/-- With no 32-bit wrap-around and enough fuel `find_missing_records` returns
the runs of missing indices. -/
theorem find_missing_records_eq (st : FileReceiver) (start_rec end_rec fuel : Nat)
    (he : end_rec + 1 < 4294967296) (hlen : end_rec < st.received_records.length)
    (hs : start_rec ≤ end_rec + 1) (hfuel : end_rec + 1 - start_rec < fuel) :
    st.find_missing_records fuel start_rec end_rec
      = .ok (missing_runs st.received_records end_rec (end_rec + 1 - start_rec) start_rec
          false 0) := by
  unfold FileReceiver.find_missing_records
  rw [find_missing_loop_eq st.received_records end_rec he hlen (end_rec + 1 - start_rec) fuel
    start_rec 0 false [] (by omega) hfuel (by intro h; cases h)]
  simp

/-- An empty range gives no segment. -/
theorem find_missing_records_empty (st : FileReceiver) (start_rec end_rec fuel : Nat)
    (hs : end_rec < start_rec) (hfuel : 0 < fuel) :
    st.find_missing_records fuel start_rec end_rec = .ok [] := by
  obtain ⟨f, rfl⟩ : ∃ f, fuel = f + 1 := ⟨fuel - 1, by omega⟩
  have hnot : ¬ start_rec ≤ end_rec := by omega
  simp [FileReceiver.find_missing_records, FileReceiver.find_missing_loop, hnot]

/-- The result of `find_missing_records` on a range inside the bitmap, with
the four properties of its segments. -/
theorem find_missing_records_spec (st : FileReceiver) (T start_rec end_rec fuel : Nat)
    (hT : st.received_records.length = T + 1) (h32 : st.received_records.length < 4294967296)
    (hs1 : 1 ≤ start_rec) (he : end_rec ≤ T) (hfuel : end_rec + 1 - start_rec < fuel) :
    ∃ segs, st.find_missing_records fuel start_rec end_rec = .ok segs ∧
      (∀ sg ∈ segs, start_rec ≤ sg.start_record ∧ sg.start_record ≤ sg.end_record ∧
        sg.end_record ≤ end_rec) ∧
      segs.Pairwise (fun a b => a.end_record + 1 < b.start_record) ∧
      (∀ i, (∃ sg ∈ segs, sg.start_record ≤ i ∧ i ≤ sg.end_record) ↔
        (start_rec ≤ i ∧ i ≤ end_rec ∧ st.received_records[i]? = some false)) ∧
      (∀ sg ∈ segs,
        (sg.start_record - 1 < start_rec ∨
          st.received_records[sg.start_record - 1]? = some true) ∧
        (end_rec < sg.end_record + 1 ∨
          st.received_records[sg.end_record + 1]? = some true)) := by
  by_cases hs : start_rec ≤ end_rec + 1
  · refine ⟨_, find_missing_records_eq st start_rec end_rec fuel (by omega) (by omega) hs hfuel,
      ?_, ?_, ?_, ?_⟩
    · intro sg hsg
      have h := missing_runs_bounds st.received_records end_rec (end_rec + 1 - start_rec)
        start_rec 0 false (by omega) (by intro h; cases h) sg hsg
      simpa using h
    · exact missing_runs_pairwise st.received_records end_rec (end_rec + 1 - start_rec)
        start_rec 0 false (by omega) (by intro h; cases h)
    · intro i
      rw [missing_runs_cover st.received_records end_rec (end_rec + 1 - start_rec)
        start_rec 0 false (by omega) (by intro h; cases h) i]
      simp
    · exact missing_runs_maximal st.received_records start_rec end_rec (by omega)
        (end_rec + 1 - start_rec) start_rec 0 false (by omega) (by intro h; cases h)
        (by intro h; cases h) (by intro _; left; omega)
  · refine ⟨[], find_missing_records_empty st start_rec end_rec fuel (by omega) (by omega),
      ?_, ?_, ?_, ?_⟩
    · intro sg hsg; cases hsg
    · exact List.Pairwise.nil
    · intro i
      constructor
      · rintro ⟨sg, hsg, _⟩; cases hsg
      · rintro ⟨h1, h2, _⟩; omega
    · intro sg hsg; cases hsg

/-- C2. Missing-range coverage: on a bitmap of length `T + 1` and a range with
`1 ≤ s` and `e ≤ T`, an index lies inside a segment returned by
`find_missing_records(s, e)` exactly when it is in `[s, e]` and not received;
one missing index `i` gives the single segment `(i, i)`; an empty range or a
range with nothing missing gives no segment. -/
theorem find_missing_records_coverage (st : FileReceiver) (T s e fuel : Nat)
    (hT : st.received_records.length = T + 1) (h32 : st.received_records.length < 4294967296)
    (hs1 : 1 ≤ s) (he : e ≤ T) (hfuel : e + 1 - s < fuel) :
    ∃ segs, st.find_missing_records fuel s e = .ok segs ∧
      (∀ i, (∃ sg ∈ segs, sg.start_record ≤ i ∧ i ≤ sg.end_record) ↔
        (s ≤ i ∧ i ≤ e ∧ st.received_records[i]? = some false)) ∧
      (∀ i, s ≤ i → i ≤ e →
        (∀ j, s ≤ j → j ≤ e → (st.received_records[j]? = some false ↔ j = i)) →
        segs = [⟨i, i⟩]) ∧
      ((e < s ∨ ∀ j, s ≤ j → j ≤ e → st.received_records[j]? = some true) → segs = []) := by
  obtain ⟨segs, hres, hbnd, hpw, hcov, _⟩ :=
    find_missing_records_spec st T s e fuel hT h32 hs1 he hfuel
  have hstart : ∀ sg ∈ segs, s ≤ sg.start_record ∧ sg.start_record ≤ e ∧
      st.received_records[sg.start_record]? = some false := by
    intro sg hsg
    exact (hcov sg.start_record).mp ⟨sg, hsg, le_refl _, (hbnd sg hsg).2.1⟩
  have hend : ∀ sg ∈ segs, s ≤ sg.end_record ∧ sg.end_record ≤ e ∧
      st.received_records[sg.end_record]? = some false := by
    intro sg hsg
    exact (hcov sg.end_record).mp ⟨sg, hsg, (hbnd sg hsg).2.1, le_refl _⟩
  refine ⟨segs, hres, hcov, ?_, ?_⟩
  · intro i hsi hie hone
    have hall : ∀ sg ∈ segs, sg = ⟨i, i⟩ := by
      intro sg hsg
      obtain ⟨a1, a2, a3⟩ := hstart sg hsg
      obtain ⟨b1, b2, b3⟩ := hend sg hsg
      have e1 := (hone _ a1 a2).mp a3
      have e2 := (hone _ b1 b2).mp b3
      cases sg
      simp only [Segment.mk.injEq]
      exact ⟨e1, e2⟩
    obtain ⟨sg0, hsg0, _⟩ := (hcov i).mpr ⟨hsi, hie, (hone i hsi hie).mpr rfl⟩
    match segs, hpw, hall, hsg0 with
    | [], _, _, h0 => cases h0
    | [a], _, hall, _ => rw [hall a (List.mem_singleton_self a)]
    | a :: b :: rest, hpw, hall, _ =>
      have ha := hall a (List.mem_cons_self _ _)
      have hb := hall b (List.mem_cons_of_mem _ (List.mem_cons_self _ _))
      have hlt := (List.pairwise_cons.mp hpw).1 b (List.mem_cons_self _ _)
      rw [ha, hb] at hlt
      simp at hlt
  · intro h
    match segs, hbnd, hstart with
    | [], _, _ => rfl
    | a :: rest, hbnd, hstart =>
      exfalso
      obtain ⟨a1, a2, a3⟩ := hstart a (List.mem_cons_self _ _)
      rcases h with h | h
      · omega
      · rw [h _ a1 a2] at a3
        cases a3

theorem find_missing_records_coverage_witness :
    ∃ segs, FileReceiver.find_missing_records 6
        { FileReceiver.init with
          total_records := 5, received_records := [false, true, true, false, true, true] }
        1 5 = .ok segs ∧
      (∀ i, (∃ sg ∈ segs, sg.start_record ≤ i ∧ i ≤ sg.end_record) ↔
        (1 ≤ i ∧ i ≤ 5 ∧ [false, true, true, false, true, true][i]? = some false)) ∧
      (∀ i, 1 ≤ i → i ≤ 5 →
        (∀ j, 1 ≤ j → j ≤ 5 →
          ([false, true, true, false, true, true][j]? = some false ↔ j = i)) →
        segs = [⟨i, i⟩]) ∧
      ((5 < 1 ∨ ∀ j, 1 ≤ j → j ≤ 5 → [false, true, true, false, true, true][j]? = some true) →
        segs = []) :=
  find_missing_records_coverage
    { FileReceiver.init with
      total_records := 5, received_records := [false, true, true, false, true, true] }
    5 1 5 6 rfl (by decide) (by decide) (by decide) (by decide)

/-- C3. Missing-range minimality and order: every segment returned by
`find_missing_records(s, e)` satisfies `s ≤ start ≤ end ≤ e`; each two
consecutive segments (indeed any earlier and later one) satisfy
`a.end + 1 < b.start`; and each segment is maximal: `start - 1` is below `s` or
received, `end + 1` is above `e` or received. -/
theorem find_missing_records_minimal (st : FileReceiver) (T s e fuel : Nat)
    (hT : st.received_records.length = T + 1) (h32 : st.received_records.length < 4294967296)
    (hs1 : 1 ≤ s) (he : e ≤ T) (hfuel : e + 1 - s < fuel) :
    ∃ segs, st.find_missing_records fuel s e = .ok segs ∧
      (∀ sg ∈ segs, s ≤ sg.start_record ∧ sg.start_record ≤ sg.end_record ∧
        sg.end_record ≤ e) ∧
      segs.Chain' (fun a b => a.end_record + 1 < b.start_record) ∧
      segs.Pairwise (fun a b => a.end_record + 1 < b.start_record) ∧
      (∀ sg ∈ segs,
        (sg.start_record - 1 < s ∨ st.received_records[sg.start_record - 1]? = some true) ∧
        (e < sg.end_record + 1 ∨ st.received_records[sg.end_record + 1]? = some true)) := by
  obtain ⟨segs, hres, hbnd, hpw, _, hmax⟩ :=
    find_missing_records_spec st T s e fuel hT h32 hs1 he hfuel
  exact ⟨segs, hres, hbnd, hpw.chain', hpw, hmax⟩

theorem find_missing_records_minimal_witness :
    ∃ segs, FileReceiver.find_missing_records 7
        { FileReceiver.init with
          total_records := 6,
          received_records := [false, true, false, false, true, false, false] }
        1 6 = .ok segs ∧
      (∀ sg ∈ segs, 1 ≤ sg.start_record ∧ sg.start_record ≤ sg.end_record ∧
        sg.end_record ≤ 6) ∧
      segs.Chain' (fun a b => a.end_record + 1 < b.start_record) ∧
      segs.Pairwise (fun a b => a.end_record + 1 < b.start_record) ∧
      (∀ sg ∈ segs,
        (sg.start_record - 1 < 1 ∨
          [false, true, false, false, true, false, false][sg.start_record - 1]? = some true) ∧
        (6 < sg.end_record + 1 ∨
          [false, true, false, false, true, false, false][sg.end_record + 1]? = some true)) :=
  find_missing_records_minimal
    { FileReceiver.init with
      total_records := 6, received_records := [false, true, false, false, true, false, false] }
    6 1 6 7 rfl (by decide) (by decide) (by decide) (by decide)

/-- The blasts of the run loop from `current_rec` on: the first starts at
`current_rec`, each ends at `min (start + M - 1) T`, each next one starts right
after the previous end and the last one ends at `T`. -/
theorem run_blasts_from (T M : Nat) (hM : 1 ≤ M) (h32 : T + M < 4294967296) :
    ∀ (n fuel current_rec : Nat), T + 1 - current_rec ≤ n → n < fuel →
      1 ≤ current_rec → current_rec ≤ T + 1 →
      ∃ blasts, FileSender.run_blasts T M fuel current_rec = .ok blasts ∧
        (T < current_rec → blasts = []) ∧
        (current_rec ≤ T →
          ∃ rest, blasts = (current_rec, min (current_rec + M - 1) T) :: rest) ∧
        (∀ b ∈ blasts, current_rec ≤ b.1 ∧ b.1 ≤ b.2 ∧ b.2 = min (b.1 + M - 1) T) ∧
        blasts.Chain' (fun a b => b.1 = a.2 + 1) ∧
        (∀ b, blasts.getLast? = some b → b.2 = T) := by
  intro n
  induction n with
  | zero =>
    intro fuel cur hn hfuel h1 h2
    obtain ⟨f, rfl⟩ : ∃ f, fuel = f + 1 := ⟨fuel - 1, by omega⟩
    have hnot : ¬ cur ≤ T := by omega
    refine ⟨[], by simp [FileSender.run_blasts, hnot], fun _ => rfl, fun h => absurd h hnot,
      ?_, List.chain'_nil, ?_⟩
    · intro b hb; cases hb
    · intro b hb; simp at hb
  | succ n ih =>
    intro fuel cur hn hfuel h1 h2
    obtain ⟨f, rfl⟩ : ∃ f, fuel = f + 1 := ⟨fuel - 1, by omega⟩
    by_cases hle : cur ≤ T
    · have hend : min ((cur + M + 4294967296 - 1) % 4294967296) T = min (cur + M - 1) T := by
        have : (cur + M + 4294967296 - 1) % 4294967296 = cur + M - 1 := by omega
        rw [this]
      have hge : cur ≤ min (cur + M - 1) T := by
        rw [Nat.le_min]; exact ⟨by omega, hle⟩
      have hleT : min (cur + M - 1) T ≤ T := Nat.min_le_right _ _
      have hnext : (min (cur + M - 1) T + 1) % 4294967296 = min (cur + M - 1) T + 1 := by omega
      obtain ⟨rest, hrest, hnil, hhead, hall, hchain, hlast⟩ :=
        ih f (min (cur + M - 1) T + 1) (by omega) (by omega) (by omega) (by omega)
      refine ⟨(cur, min (cur + M - 1) T) :: rest, ?_, ?_, ?_, ?_, ?_, ?_⟩
      · simp only [FileSender.run_blasts, if_pos hle, hend, hnext, hrest, Outcome.bind_ok]
      · intro h; omega
      · intro _; exact ⟨rest, rfl⟩
      · intro b hb
        rcases List.mem_cons.mp hb with rfl | hb
        · exact ⟨le_refl _, hge, rfl⟩
        · have := hall b hb
          exact ⟨by omega, this.2.1, this.2.2⟩
      · rw [List.chain'_cons']
        refine ⟨?_, hchain⟩
        intro y hy
        by_cases hc : min (cur + M - 1) T + 1 ≤ T
        · obtain ⟨r2, hr2⟩ := hhead hc
          rw [hr2] at hy
          simp at hy
          rw [← hy]
        · rw [hnil (by omega)] at hy
          simp at hy
      · intro b hb
        by_cases hc : min (cur + M - 1) T + 1 ≤ T
        · obtain ⟨r2, hr2⟩ := hhead hc
          rw [hr2, List.getLast?_cons_cons, ← hr2] at hb
          exact hlast b hb
        · rw [hnil (by omega)] at hb
          simp at hb
          rw [← hb]
          simp only
          omega
    · refine ⟨[], by simp [FileSender.run_blasts, hle], fun _ => rfl, fun h => absurd h hle,
        ?_, List.chain'_nil, ?_⟩
      · intro b hb; cases hb
      · intro b hb; simp at hb

/-- C6. Blast partition: for every record count `T` and blast size `M` in
`[200, 10000]` with `T + M < 2^32` the run loop produces blasts of which the
first starts at 1, every one has `e = min (s + M - 1) T` (so `e - s + 1 ≤ M` and
`e ≤ T`), each next one starts at the previous `e + 1`, the last ends at `T`, and
none is produced for `T = 0`; a file of `3 * 1000 * 512 + 1` bytes with
`R = 512`, `M = 1000` gives `[1,1000], [1001,2000], [2001,3000], [3001,3001]`. -/
theorem run_blasts_partition (T M fuel : Nat) (hM : 200 ≤ M) (hM2 : M ≤ 10000)
    (h32 : T + M < 4294967296) (hfuel : T < fuel) :
    (∃ blasts, FileSender.run_blasts T M fuel 1 = .ok blasts ∧
      (T = 0 → blasts = []) ∧
      (0 < T → ∃ e rest, blasts = (1, e) :: rest) ∧
      (∀ b ∈ blasts, 1 ≤ b.1 ∧ b.1 ≤ b.2 ∧ b.2 = min (b.1 + M - 1) T ∧
        b.2 - b.1 + 1 ≤ M ∧ b.2 ≤ T) ∧
      blasts.Chain' (fun a b => b.1 = a.2 + 1) ∧
      (∀ b, blasts.getLast? = some b → b.2 = T)) ∧
    FileSender.run_blasts (record_count (3 * 1000 * 512 + 1) 512) 1000 5 1
      = .ok [(1, 1000), (1001, 2000), (2001, 3000), (3001, 3001)] := by
  refine ⟨?_, by decide⟩
  obtain ⟨blasts, hres, hnil, hhead, hall, hchain, hlast⟩ :=
    run_blasts_from T M (by omega) h32 T fuel 1 (by omega) hfuel (le_refl _) (by omega)
  refine ⟨blasts, hres, fun h => hnil (by omega), ?_, ?_, hchain, hlast⟩
  · intro h
    obtain ⟨rest, hr⟩ := hhead (by omega)
    exact ⟨_, rest, hr⟩
  · intro b hb
    obtain ⟨a1, a2, a3⟩ := hall b hb
    refine ⟨a1, a2, a3, ?_, ?_⟩
    · rw [a3]; omega
    · rw [a3]; exact Nat.min_le_right _ _

theorem run_blasts_partition_witness :
    ∃ blasts, FileSender.run_blasts 3001 1000 3002 1 = .ok blasts ∧
      (3001 = 0 → blasts = []) ∧
      (0 < 3001 → ∃ e rest, blasts = (1, e) :: rest) ∧
      (∀ b ∈ blasts, 1 ≤ b.1 ∧ b.1 ≤ b.2 ∧ b.2 = min (b.1 + 1000 - 1) 3001 ∧
        b.2 - b.1 + 1 ≤ 1000 ∧ b.2 ≤ 3001) ∧
      blasts.Chain' (fun a b => b.1 = a.2 + 1) ∧
      (∀ b, blasts.getLast? = some b → b.2 = 3001) :=
  (run_blasts_partition 3001 1000 3002 (by decide) (by decide) (by decide) (by decide)).1

theorem drop_eq_cons_of_getElem? {α : Type} {l : List α} {i : Nat} {a : α}
    (h : l[i]? = some a) : l.drop i = a :: l.drop (i + 1) := by
  have hlt : i < l.length := by
    by_contra hc
    rw [List.getElem?_eq_none (by omega)] at h
    cases h
  rw [List.drop_eq_getElem_cons hlt]
  rw [List.getElem?_eq_getElem hlt] at h
  injection h with h
  rw [h]

/-- The inner loop of `create_data_packets` appends the records from
`current_rec` on, up to `k` of them and not beyond `end_rec`. -/
theorem pack_records_eq (file_records : List (List Nat)) (end_rec : Nat)
    (he : end_rec ≤ file_records.length) (h32 : end_rec + 1 < 4294967296) :
    ∀ (k current_rec : Nat) (data : List Nat), 1 ≤ current_rec → current_rec ≤ end_rec + 1 →
      FileSender.pack_records file_records end_rec k current_rec data
        = .ok (min (current_rec + k) (end_rec + 1),
            data ++ ((file_records.drop (current_rec - 1)).take
              (min k (end_rec + 1 - current_rec))).flatten) := by
  intro k
  induction k with
  | zero =>
    intro cur data h1 h2
    simp [FileSender.pack_records]
    omega
  | succ k ih =>
    intro cur data h1 h2
    unfold FileSender.pack_records
    by_cases hle : cur ≤ end_rec
    · have hidx : (cur + 4294967296 - 1) % 4294967296 = cur - 1 := by omega
      have hlt : cur - 1 < file_records.length := by omega
      have hnext : (cur + 1) % 4294967296 = cur + 1 := by omega
      obtain ⟨r, hr⟩ : ∃ r, file_records[cur - 1]? = some r :=
        ⟨_, List.getElem?_eq_getElem hlt⟩
      have hd : file_records.drop (cur - 1) = r :: file_records.drop (cur + 1 - 1) := by
        rw [drop_eq_cons_of_getElem? hr, show cur - 1 + 1 = cur + 1 - 1 by omega]
      have hm : min (k + 1) (end_rec + 1 - cur) = min k (end_rec + 1 - (cur + 1)) + 1 := by
        omega
      rw [if_pos hle, hidx, List.get?_eq_getElem?, hr]
      simp only [hnext]
      rw [ih (cur + 1) _ (by omega) (by omega), hd, hm]
      simp only [List.take_succ_cons, List.flatten_cons, List.append_assoc]
      rw [show cur + 1 + k = cur + (k + 1) by omega]
    · rw [if_neg hle]
      have h0 : min (k + 1) (end_rec + 1 - cur) = 0 := by omega
      have h1 : min (cur + (k + 1)) (end_rec + 1) = cur := by omega
      rw [h0, h1]
      simp

/-- The outer loop of `create_data_packets` appends `data_packets_from`. -/
theorem create_loop_eq (file_records : List (List Nat)) (end_rec : Nat)
    (he : end_rec ≤ file_records.length) (h32 : end_rec + 1 < 4294967296) :
    ∀ (n fuel current_rec : Nat) (packets : List DataPacket),
      end_rec + 1 - current_rec ≤ 16 * n → n < fuel →
      1 ≤ current_rec → current_rec ≤ end_rec + 1 →
      FileSender.create_loop file_records end_rec fuel current_rec packets
        = .ok (packets ++ data_packets_from file_records end_rec n current_rec) := by
  intro n
  induction n with
  | zero =>
    intro fuel cur packets hn hfuel h1 h2
    obtain ⟨f, rfl⟩ : ∃ f, fuel = f + 1 := ⟨fuel - 1, by omega⟩
    have hnot : ¬ cur ≤ end_rec := by omega
    simp [FileSender.create_loop, hnot, data_packets_from]
  | succ n ih =>
    intro fuel cur packets hn hfuel h1 h2
    obtain ⟨f, rfl⟩ : ∃ f, fuel = f + 1 := ⟨fuel - 1, by omega⟩
    unfold FileSender.create_loop data_packets_from
    by_cases hle : cur ≤ end_rec
    · have hcur : min (cur + MAX_RECORDS_PER_PACKET) (end_rec + 1)
          = min (cur + 15) end_rec + 1 := by
        unfold MAX_RECORDS_PER_PACKET; omega
      have hlast : (min (cur + 15) end_rec + 1 + 4294967296 - 1) % 4294967296
          = min (cur + 15) end_rec := by omega
      have hcnt : min MAX_RECORDS_PER_PACKET (end_rec + 1 - cur)
          = min (cur + 15) end_rec - cur + 1 := by
        unfold MAX_RECORDS_PER_PACKET; omega
      rw [if_pos hle, if_pos hle, pack_records_eq file_records end_rec he h32 _ cur [] h1 h2]
      simp only [Outcome.bind_ok, hcur, hlast, hcnt, List.nil_append]
      rw [ih f _ _ (by omega) (by omega) (by omega) (by omega)]
      simp [data_packet_of]
    · rw [if_neg hle, if_neg hle]
      simp

theorem flatten_length_of_all (R : Nat) :
    ∀ (l : List (List Nat)), (∀ r ∈ l, r.length = R) → l.flatten.length = l.length * R := by
  intro l
  induction l with
  | nil => intro _; simp
  | cons r rest ih =>
    intro h
    rw [List.flatten_cons, List.length_append, ih (fun x hx => h x (List.mem_cons_of_mem _ hx)),
      h r (List.mem_cons_self _ _), List.length_cons, Nat.succ_mul]
    omega

theorem data_packet_of_first_segment (file_records : List (List Nat)) (a b : Nat) :
    (data_packet_of file_records a b).first_segment = ⟨a, b⟩ := rfl

theorem data_packet_of_segments (file_records : List (List Nat)) (a b : Nat) :
    (data_packet_of file_records a b).segments = ⟨a, b⟩ :: List.replicate 15 ⟨0, 0⟩ := rfl

theorem data_packet_of_data_length (file_records : List (List Nat)) (R a b : Nat)
    (hrec : ∀ r ∈ file_records, r.length = R) (ha : 1 ≤ a) (hab : a ≤ b)
    (hb : b ≤ file_records.length) :
    (data_packet_of file_records a b).data.length = (b - a + 1) * R := by
  unfold data_packet_of
  simp only []
  rw [flatten_length_of_all R _
    (fun r hr => hrec r (List.mem_of_mem_drop (List.mem_of_mem_take hr)))]
  rw [List.length_take, List.length_drop]
  congr 1
  omega

/-- The packets built from `current_rec` on tile `[current_rec, end_rec]` with
segments of at most 16 records. -/
theorem data_packets_from_spec (file_records : List (List Nat)) (end_rec : Nat) :
    ∀ (n current_rec : Nat), end_rec + 1 - current_rec ≤ 16 * n →
      current_rec ≤ end_rec + 1 →
      (data_packets_from file_records end_rec n current_rec).length
          = (end_rec + 1 - current_rec + 15) / 16 ∧
      (∀ p ∈ data_packets_from file_records end_rec n current_rec,
        ∃ a b, p = data_packet_of file_records a b ∧ current_rec ≤ a ∧ a ≤ b ∧ b ≤ end_rec ∧
          b - a + 1 ≤ 16) ∧
      (end_rec < current_rec → data_packets_from file_records end_rec n current_rec = []) ∧
      (current_rec ≤ end_rec → ∃ b rest,
        data_packets_from file_records end_rec n current_rec
          = data_packet_of file_records current_rec b :: rest) ∧
      (data_packets_from file_records end_rec n current_rec).Chain'
        (fun p q => q.first_segment.start_record = p.first_segment.end_record + 1) ∧
      (∀ p, (data_packets_from file_records end_rec n current_rec).getLast? = some p →
        p.first_segment.end_record = end_rec) := by
  intro n
  induction n with
  | zero =>
    intro cur hn h2
    refine ⟨?_, ?_, fun _ => rfl, fun h => by omega, List.chain'_nil, ?_⟩
    · simp [data_packets_from]; omega
    · intro p hp; cases hp
    · intro p hp; simp [data_packets_from] at hp
  | succ n ih =>
    intro cur hn h2
    unfold data_packets_from
    by_cases hle : cur ≤ end_rec
    · rw [if_pos hle]
      obtain ⟨hlen, hall, hnil, hhead, hchain, hlast⟩ :=
        ih (min (cur + 15) end_rec + 1) (by omega) (by omega)
      refine ⟨?_, ?_, fun h => by omega, fun _ => ⟨_, _, rfl⟩, ?_, ?_⟩
      · rw [List.length_cons, hlen]; omega
      · intro p hp
        rcases List.mem_cons.mp hp with rfl | hp
        · exact ⟨cur, min (cur + 15) end_rec, rfl, le_refl _, by omega, by omega, by omega⟩
        · obtain ⟨a, b, h1, h2, h3, h4, h5⟩ := hall p hp
          exact ⟨a, b, h1, by omega, h3, h4, h5⟩
      · rw [List.chain'_cons']
        refine ⟨?_, hchain⟩
        intro y hy
        by_cases hc : min (cur + 15) end_rec + 1 ≤ end_rec
        · obtain ⟨b, r2, hr2⟩ := hhead hc
          rw [hr2] at hy
          simp at hy
          rw [← hy, data_packet_of_first_segment, data_packet_of_first_segment]
        · rw [hnil (by omega)] at hy
          simp at hy
      · intro p hp
        by_cases hc : min (cur + 15) end_rec + 1 ≤ end_rec
        · obtain ⟨b, r2, hr2⟩ := hhead hc
          rw [hr2, List.getLast?_cons_cons, ← hr2] at hp
          exact hlast p hp
        · rw [hnil (by omega)] at hp
          simp at hp
          rw [← hp, data_packet_of_first_segment]
          simp only
          omega
    · rw [if_neg hle]
      refine ⟨?_, ?_, fun _ => rfl, fun h => absurd h hle, List.chain'_nil, ?_⟩
      · simp; omega
      · intro p hp; cases hp
      · intro p hp; simp at hp

/-- What `create_data_packets` returns on a range inside the loaded records
whose end is below the largest 32-bit value. -/
theorem create_data_packets_eq (sd : FileSender) (s e fuel : Nat)
    (hs : 1 ≤ s) (hse : s ≤ e + 1) (he : e ≤ sd.file_records.length)
    (h32 : e + 1 < 4294967296) (hfuel : (e + 1 - s + 15) / 16 < fuel) :
    sd.create_data_packets fuel s e
      = .ok (data_packets_from sd.file_records e ((e + 1 - s + 15) / 16) s) := by
  unfold FileSender.create_data_packets
  rw [create_loop_eq sd.file_records e he h32 ((e + 1 - s + 15) / 16) fuel s [] (by omega) hfuel
    hs hse]
  simp

/-- C7, amended. Packetisation coverage: for every range with
`1 ≤ s ≤ e ≤ T` and `e < 2^32 - 1`, `create_data_packets(s, e)` returns
`ceil((e - s + 1) / 16)` DATA frames, each with one segment of at most 16
records; in order the segments are consecutive (the first starts at `s`, each
next one at the previous end + 1, the last ends at `e`), and each frame's data
is the concatenation of the sender's records `start..end`, of length
`(end - start + 1) * R`. -/
theorem create_data_packets_coverage (sd : FileSender) (R s e fuel : Nat)
    (hlen : sd.file_records.length = sd.total_records)
    (hrec : ∀ r ∈ sd.file_records, r.length = R)
    (hs : 1 ≤ s) (hse : s ≤ e) (he : e ≤ sd.total_records)
    (h32 : e + 1 < 4294967296) (hfuel : (e - s) / 16 + 1 < fuel) :
    ∃ pkts, sd.create_data_packets fuel s e = .ok pkts ∧
      pkts.length = (e - s + 1 + 15) / 16 ∧
      (∀ p ∈ pkts, p.type = 3 ∧ p.num_segments = 1 ∧
        p.segments[0]? = some p.first_segment ∧
        p.first_segment.start_record ≤ p.first_segment.end_record ∧
        p.first_segment.end_record - p.first_segment.start_record + 1 ≤ 16 ∧
        p.data = ((sd.file_records.drop (p.first_segment.start_record - 1)).take
          (p.first_segment.end_record - p.first_segment.start_record + 1)).flatten ∧
        p.data.length
          = (p.first_segment.end_record - p.first_segment.start_record + 1) * R) ∧
      (∃ p rest, pkts = p :: rest ∧ p.first_segment.start_record = s) ∧
      pkts.Chain'
        (fun p q => q.first_segment.start_record = p.first_segment.end_record + 1) ∧
      (∀ p, pkts.getLast? = some p → p.first_segment.end_record = e) := by
  have hn : (e + 1 - s + 15) / 16 = (e - s) / 16 + 1 := by omega
  obtain ⟨h1, h2, _, h4, h5, h6⟩ :=
    data_packets_from_spec sd.file_records e ((e + 1 - s + 15) / 16) s (by omega) (by omega)
  refine ⟨_, create_data_packets_eq sd s e fuel hs (by omega) (by omega) h32 (by omega), ?_, ?_,
    ?_, h5, h6⟩
  · rw [h1]; congr 1; omega
  · intro p hp
    obtain ⟨a, b, rfl, ha, hab, hb, h16⟩ := h2 p hp
    refine ⟨rfl, rfl, rfl, hab, h16, rfl, ?_⟩
    exact data_packet_of_data_length sd.file_records R a b hrec (by omega) hab (by omega)
  · obtain ⟨b, rest, hr⟩ := h4 hse
    exact ⟨_, rest, hr, rfl⟩

theorem create_data_packets_coverage_witness :
    ∃ pkts, FileSender.create_data_packets 3
        { FileSender.init [] 256 200 with
          file_size := 512, total_records := 2,
          file_records := [List.replicate 256 7, List.replicate 256 9] }
        1 2 = .ok pkts ∧
      pkts.length = (2 - 1 + 1 + 15) / 16 ∧
      (∀ p ∈ pkts, p.type = 3 ∧ p.num_segments = 1 ∧
        p.segments[0]? = some p.first_segment ∧
        p.first_segment.start_record ≤ p.first_segment.end_record ∧
        p.first_segment.end_record - p.first_segment.start_record + 1 ≤ 16 ∧
        p.data = (([List.replicate 256 7, List.replicate 256 9].drop
            (p.first_segment.start_record - 1)).take
          (p.first_segment.end_record - p.first_segment.start_record + 1)).flatten ∧
        p.data.length
          = (p.first_segment.end_record - p.first_segment.start_record + 1) * 256) ∧
      (∃ p rest, pkts = p :: rest ∧ p.first_segment.start_record = 1) ∧
      pkts.Chain'
        (fun p q => q.first_segment.start_record = p.first_segment.end_record + 1) ∧
      (∀ p, pkts.getLast? = some p → p.first_segment.end_record = 2) :=
  create_data_packets_coverage
    { FileSender.init [] 256 200 with
      file_size := 512, total_records := 2,
      file_records := [List.replicate 256 7, List.replicate 256 9] }
    256 1 2 3 rfl
    (by
      intro r hr
      rcases List.mem_cons.mp hr with rfl | hr
      · exact List.length_replicate _ _
      · rw [List.mem_singleton.mp hr]; exact List.length_replicate _ _)
    (by decide) (by decide) (by decide) (by decide) (by decide)

/-- With `2^32 - 1` records the loop of `create_data_packets` for the last
record wraps its 32-bit counter to 0 and then reads `file_records[2^32 - 1]`,
past the end of the vector. -/
theorem create_loop_wraps (file_records : List (List Nat))
    (hlen : file_records.length = 4294967295) (fuel : Nat) (packets : List DataPacket) :
    FileSender.create_loop file_records 4294967295 (fuel + 1) 4294967295 packets = .fault := by
  obtain ⟨r, hr⟩ : ∃ r, file_records[4294967294]? = some r :=
    ⟨_, List.getElem?_eq_getElem (by omega)⟩
  have hnone : file_records[4294967295]? = none := List.getElem?_eq_none (by omega)
  have h1 : (4294967295 + 4294967296 - 1) % 4294967296 = 4294967294 := by norm_num
  have h2 : (4294967295 + 1) % 4294967296 = 0 := by norm_num
  have h3 : (0 + 4294967296 - 1) % 4294967296 = 4294967295 := by norm_num
  have hp : FileSender.pack_records file_records 4294967295 MAX_RECORDS_PER_PACKET 4294967295 []
      = .fault := by
    show FileSender.pack_records file_records 4294967295 (14 + 1 + 1) 4294967295 [] = .fault
    rw [FileSender.pack_records, if_pos (le_refl _), h1, List.get?_eq_getElem?, hr]
    simp only [h2]
    rw [FileSender.pack_records, if_pos (Nat.zero_le _), h3, List.get?_eq_getElem?, hnone]
  rw [FileSender.create_loop, if_pos (le_refl _), hp]
  rfl

/-- C7 as stated fails: a sender holding `T = 2^32 - 1` records of 256 bytes
never gets a packet list from `create_data_packets(T, T)`. -/
theorem create_data_packets_not_total :
    ¬ ∃ fuel pkts, FileSender.create_data_packets fuel
        { FileSender.init [] 256 1000 with
          file_size := 1099511627520, total_records := 4294967295,
          file_records := List.replicate 4294967295 (List.replicate 256 0) }
        4294967295 4294967295 = .ok pkts := by
  rintro ⟨fuel, pkts, h⟩
  unfold FileSender.create_data_packets at h
  cases fuel with
  | zero => simp [FileSender.create_loop] at h
  | succ f =>
    rw [create_loop_wraps _ (List.length_replicate _ _) f []] at h
    cases h

set_option maxRecDepth 100000 in
/-- C8, at the failing input. A receiver with `T = 1`, `R = 256` gets a DATA
frame with the one segment `(0, 1)` and 512 payload bytes (256 bytes `7` for
index 0, 256 bytes `9` for index 1). `process_data_packet` stores as record 1
the payload bytes at offset 0, not those at offset `(1 - 0) * 256`, and the
record loop of the segment leaves `data_offset` at 256, not at `2 * 256`. -/
theorem process_data_packet_skips_no_bytes :
    (FileReceiver.process_data_packet 3
        { FileReceiver.init with
          file_size := 256, record_size := 256, total_records := 1,
          received_records := [false, false], record_buffer := [[], []] }
        ([3, 1, 0, 0, 0, 0, 1, 0, 0, 0] ++ List.replicate 256 7 ++ List.replicate 256 9)).bind
      (fun st => .ok (st.received_records, st.record_buffer[1]?))
      = .ok ([false, true], some (List.replicate 256 7)) ∧
    (FileReceiver.absorb_records (List.replicate 256 7 ++ List.replicate 256 9) 1 3
        { FileReceiver.init with
          file_size := 256, record_size := 256, total_records := 1,
          received_records := [false, false], record_buffer := [[], []] }
        0 0).bind
      (fun r => .ok r.2)
      = .ok 256 := by
  decide

/-- The write loop copies `n` full records that are received, hold
`record_size` bytes and come before the last one. -/
theorem write_records_full (st : FileReceiver) (h32 : st.total_records + 1 < 4294967296) :
    ∀ (n fuel rec : Nat) (output : List Nat), rec + n ≤ st.total_records →
      (∀ i, rec ≤ i → i < rec + n →
        st.received_records[i]? = some true ∧
        ∃ r, st.record_buffer[i]? = some r ∧ r.length = st.record_size) →
      FileReceiver.write_records st (n + fuel) rec output
        = FileReceiver.write_records st fuel (rec + n)
            (output ++ ((st.record_buffer.drop rec).take n).flatten) := by
  intro n
  induction n with
  | zero => intro fuel rec output _ _; simp
  | succ n ih =>
    intro fuel rec output hle hall
    obtain ⟨hrcv, r, hr, hrl⟩ := hall rec (le_refl _) (by omega)
    have hne : ¬ (rec = st.total_records ∧ st.record_size = 0) := by
      intro h; omega
    have hne2 : ¬ rec = st.total_records := by omega
    have hnext : (rec + 1) % 4294967296 = rec + 1 := by omega
    have hstep : FileReceiver.write_records st (n + fuel + 1) rec output
        = FileReceiver.write_records st (n + fuel) (rec + 1) (output ++ r) := by
      rw [FileReceiver.write_records, if_pos (by omega), List.get?_eq_getElem?, hrcv]
      simp only []
      rw [if_neg hne, if_neg hne2, List.get?_eq_getElem?, hr]
      simp only []
      rw [if_pos (by omega), hnext, List.take_of_length_le (by omega)]
    rw [show n + 1 + fuel = n + fuel + 1 by omega, hstep,
      ih fuel (rec + 1) (output ++ r) (by omega)
        (fun i h1 h2 => hall i (by omega) (by omega)),
      drop_eq_cons_of_getElem? hr]
    simp only [List.take_succ_cons, List.flatten_cons, List.append_assoc]
    rw [show rec + 1 + n = rec + (n + 1) by omega]

set_option maxRecDepth 100000 in
/-- C9 as stated fails: with `T = 2`, record 1 received and record 2 missing,
the flush reports failure after it has written the 256 bytes of record 1. -/
theorem write_file_to_disk_writes_before_failing :
    ([false, true, false] : List Bool)[2]? = some false ∧
    FileReceiver.write_file_to_disk true true 3
        { FileReceiver.init with
          file_size := 512, record_size := 256, total_records := 2,
          received_records := [false, true, false],
          record_buffer := [[], List.replicate 256 7, []] }
      = .ok (false, List.replicate 256 7) ∧
    (List.replicate 256 7 : List Nat).length = 256 := by
  decide

/-- C9, amended. Flush of an incomplete transfer: when `j` is the first index
of `[1, T]` that is not received, `write_file_to_disk` reports failure and the
bytes it has written are exactly the stored records `1 .. j - 1`; no record at
or after `j` is written. -/
theorem write_file_to_disk_incomplete (st : FileReceiver) (j fuel : Nat)
    (h32 : st.total_records + 1 < 4294967296)
    (hj1 : 1 ≤ j) (hjT : j ≤ st.total_records)
    (hmiss : st.received_records[j]? = some false)
    (hbefore : ∀ i, 1 ≤ i → i < j →
      st.received_records[i]? = some true ∧
      ∃ r, st.record_buffer[i]? = some r ∧ r.length = st.record_size)
    (hfuel : j ≤ fuel) :
    st.write_file_to_disk true true fuel
      = .ok (false, ((st.record_buffer.drop 1).take (j - 1)).flatten) := by
  obtain ⟨f, rfl⟩ : ∃ f, fuel = (j - 1) + (f + 1) := ⟨fuel - j, by omega⟩
  unfold FileReceiver.write_file_to_disk
  simp only [if_false, Bool.true_eq_false]
  rw [write_records_full st h32 (j - 1) (f + 1) 1 [] (by omega)
    (fun i h1 h2 => hbefore i h1 (by omega))]
  rw [show 1 + (j - 1) = j by omega, FileReceiver.write_records, if_pos hjT,
    List.get?_eq_getElem?, hmiss]
  simp

theorem write_file_to_disk_incomplete_witness :
    FileReceiver.write_file_to_disk true true 3
        { FileReceiver.init with
          file_size := 700, record_size := 256, total_records := 3,
          received_records := [false, true, false, true],
          record_buffer := [[], List.replicate 256 7, [], List.replicate 256 9] }
      = .ok (false,
          ((([[], List.replicate 256 7, [], List.replicate 256 9] :
            List (List Nat)).drop 1).take (2 - 1)).flatten) :=
  write_file_to_disk_incomplete
    { FileReceiver.init with
      file_size := 700, record_size := 256, total_records := 3,
      received_records := [false, true, false, true],
      record_buffer := [[], List.replicate 256 7, [], List.replicate 256 9] }
    2 3 (by decide) (by decide) (by decide) rfl
    (by
      intro i h1 h2
      have hi : i = 1 := by omega
      subst hi
      exact ⟨rfl, _, rfl, List.length_replicate _ _⟩)
    (by decide)

theorem length_of_mem_take_drop (rb : List (List Nat)) (R a n : Nat)
    (h : ∀ i, a ≤ i → i < a + n → ∃ r, rb[i]? = some r ∧ r.length = R) :
    ∀ r ∈ (rb.drop a).take n, r.length = R := by
  intro r hr
  obtain ⟨k, hk⟩ := List.mem_iff_getElem?.mp hr
  rw [List.getElem?_take] at hk
  by_cases hkn : k < n
  · rw [if_pos hkn, List.getElem?_drop] at hk
    obtain ⟨r2, h1, h2⟩ := h (a + k) (by omega) (by omega)
    rw [h1] at hk
    injection hk with hk
    rw [← hk]; exact h2
  · rw [if_neg hkn] at hk
    cases hk

/-- The write loop on a complete transfer with at least one record: `T - 1`
full records, then the first `bytes` bytes of record `T`. -/
theorem write_records_complete (st : FileReceiver) (fuel : Nat)
    (h32 : st.total_records + 1 < 4294967296) (hT : 1 ≤ st.total_records)
    (hR : 0 < st.record_size)
    (hall : ∀ i, 1 ≤ i → i ≤ st.total_records →
      st.received_records[i]? = some true ∧
      ∃ r, st.record_buffer[i]? = some r ∧ r.length = st.record_size)
    (hfuel : st.total_records < fuel) :
    FileReceiver.write_records st fuel 1 []
      = .ok (true, ((st.record_buffer.drop 1).take (st.total_records - 1)).flatten
          ++ (st.record_buffer.getD st.total_records []).take
            (if st.file_size % st.record_size ≠ 0 then st.file_size % st.record_size
             else st.record_size)) := by
  obtain ⟨f, rfl⟩ : ∃ f, fuel = (st.total_records - 1) + (f + 1 + 1) :=
    ⟨fuel - st.total_records - 1, by omega⟩
  rw [write_records_full st h32 (st.total_records - 1) (f + 1 + 1) 1 [] (by omega)
    (fun i h1 h2 => hall i h1 (by omega))]
  obtain ⟨hrcv, r, hr, hrl⟩ := hall st.total_records hT (le_refl _)
  have hmod : st.file_size % st.record_size < st.record_size := Nat.mod_lt _ hR
  have hnext : (st.total_records + 1) % 4294967296 = st.total_records + 1 := by omega
  rw [show 1 + (st.total_records - 1) = st.total_records by omega, FileReceiver.write_records,
    if_pos (le_refl _), List.get?_eq_getElem?, hrcv]
  simp only []
  rw [if_neg (by omega), List.get?_eq_getElem?, hr]
  simp only [if_true]
  rw [if_pos (by split <;> omega), hnext, FileReceiver.write_records, if_neg (by omega)]
  simp [hr]

/-- C10. Flush output: with `R` in `{256, 512, 1024}`, `T = ceil(F / R)` and
every record of `[1, T]` received, `write_file_to_disk` succeeds and writes the
stored records `1 .. T - 1` in full followed by the first `F - R * (T - 1)`
bytes of record `T`: exactly `F` bytes (the last record of a file of
`3 * 1000 * 512 + 1` bytes contributes 1 byte). -/
theorem write_file_to_disk_complete (st : FileReceiver) (fuel : Nat)
    (hR : st.record_size = 256 ∨ st.record_size = 512 ∨ st.record_size = 1024)
    (hT : st.total_records = (st.file_size + st.record_size - 1) / st.record_size)
    (h32 : st.total_records + 1 < 4294967296)
    (hall : ∀ i, 1 ≤ i → i ≤ st.total_records →
      st.received_records[i]? = some true ∧
      ∃ r, st.record_buffer[i]? = some r ∧ r.length = st.record_size)
    (hfuel : st.total_records < fuel) :
    (∃ bytes, st.write_file_to_disk true true fuel = .ok (true, bytes) ∧
      bytes = ((st.record_buffer.drop 1).take (st.total_records - 1)).flatten
        ++ (if st.total_records = 0 then []
            else (st.record_buffer.getD st.total_records []).take
              (st.file_size - st.record_size * (st.total_records - 1))) ∧
      bytes.length = st.file_size) ∧
    (3 * 1000 * 512 + 1) - 512 * (record_count (3 * 1000 * 512 + 1) 512 - 1) = 1 := by
  refine ⟨?_, by decide⟩
  unfold FileReceiver.write_file_to_disk
  simp only [if_false, Bool.true_eq_false]
  by_cases h0 : st.total_records = 0
  · obtain ⟨f, rfl⟩ : ∃ f, fuel = f + 1 := ⟨fuel - 1, by omega⟩
    have hF : st.file_size = 0 := by
      rcases hR with h | h | h <;> rw [h] at hT <;> omega
    refine ⟨[], ?_, ?_, ?_⟩
    · rw [FileReceiver.write_records, if_neg (by omega)]
    · simp [h0]
    · simp [hF]
  · have hT1 : 1 ≤ st.total_records := by omega
    have hRpos : 0 < st.record_size := by rcases hR with h | h | h <;> omega
    have hlast : (if st.file_size % st.record_size ≠ 0 then st.file_size % st.record_size
        else st.record_size) = st.file_size - st.record_size * (st.total_records - 1) := by
      rcases hR with h | h | h <;> rw [h] at hT ⊢ <;> split <;> omega
    have hle : st.file_size - st.record_size * (st.total_records - 1) ≤ st.record_size := by
      rcases hR with h | h | h <;> rw [h] at hT ⊢ <;> omega
    have hsum : (st.total_records - 1) * st.record_size
        + (st.file_size - st.record_size * (st.total_records - 1)) = st.file_size := by
      rcases hR with h | h | h <;> rw [h] at hT ⊢ <;> omega
    obtain ⟨_, r, hr, hrl⟩ := hall st.total_records hT1 (le_refl _)
    refine ⟨_, write_records_complete st fuel h32 hT1 hRpos hall hfuel, ?_, ?_⟩
    · rw [hlast, if_neg h0]
    · rw [hlast, List.length_append, flatten_length_of_all st.record_size _
        (length_of_mem_take_drop st.record_buffer st.record_size 1 (st.total_records - 1)
          (fun i h1 h2 => (hall i h1 (by omega)).2))]
      have hlen : st.total_records < st.record_buffer.length := by
        by_contra hc
        rw [List.getElem?_eq_none (by omega)] at hr
        cases hr
      have hget : st.record_buffer.getD st.total_records [] = r := by
        simp [hr]
      rw [hget, List.length_take, List.length_take, List.length_drop, hrl]
      rw [Nat.min_eq_left hle, Nat.min_eq_left (by omega)]
      exact hsum

theorem write_file_to_disk_complete_witness :
    ∃ bytes, FileReceiver.write_file_to_disk true true 3
        { FileReceiver.init with
          file_size := 257, record_size := 256, total_records := 2,
          received_records := [false, true, true],
          record_buffer := [[], List.replicate 256 7, List.replicate 256 9] } = .ok (true, bytes) ∧
      bytes = ((([[], List.replicate 256 7, List.replicate 256 9] :
            List (List Nat)).drop 1).take (2 - 1)).flatten
        ++ (if 2 = 0 then []
            else (([[], List.replicate 256 7, List.replicate 256 9] :
              List (List Nat)).getD 2 []).take (257 - 256 * (2 - 1))) ∧
      bytes.length = 257 :=
  (write_file_to_disk_complete
    { FileReceiver.init with
      file_size := 257, record_size := 256, total_records := 2,
      received_records := [false, true, true],
      record_buffer := [[], List.replicate 256 7, List.replicate 256 9] }
    3 (Or.inl rfl) (by decide) (by decide)
    (by
      intro i h1 h2
      have hi : i = 1 ∨ i = 2 := by
        change i ≤ 2 at h2
        omega
      rcases hi with rfl | rfl
      · exact ⟨rfl, _, rfl, List.length_replicate _ _⟩
      · exact ⟨rfl, _, rfl, List.length_replicate _ _⟩)
    (by decide)).1

theorem resize_nil {α : Type} (n : Nat) (x : α) : resize [] n x = List.replicate n x := by
  simp [resize]

theorem chunks_length (R : Nat) : ∀ (k : Nat) (c : List Nat), (chunks R k c).length = k := by
  intro k
  induction k with
  | zero => intro c; rfl
  | succ k ih => intro c; simp [chunks, ih]

theorem chunks_record_length (R : Nat) :
    ∀ (k : Nat) (c : List Nat), ∀ r ∈ chunks R k c, r.length = R := by
  intro k
  induction k with
  | zero => intro c r hr; cases hr
  | succ k ih =>
    intro c r hr
    rcases List.mem_cons.mp hr with rfl | hr
    · simp only [List.length_append, List.length_replicate, List.length_take]
      omega
    · exact ih _ r hr

/-- The read loop of `load_file` fills the slots from `i` on with `chunks`. -/
theorem load_records_eq (content : List Nat) (R T : Nat) (hR : 0 < R) (hT32 : T < 4294967296)
    (hfull : ∀ i, i + 1 < T → (i + 1) * R ≤ content.length)
    (hlast : 1 ≤ T → content.length - (T - 1) * R
      ≤ (if content.length % R ≠ 0 then content.length % R else R)) :
    ∀ (n i : Nat) (file_records : List (List Nat)), i + n = T → file_records.length = T →
      FileSender.load_records content R content.length T n i (i * R) file_records
        = file_records.take i ++ chunks R n (content.drop (i * R)) := by
  intro n
  induction n with
  | zero =>
    intro i fr hi hlen
    simp only [FileSender.load_records, chunks, List.append_nil]
    rw [List.take_of_length_le (by omega)]
  | succ n ih =>
    intro i fr hi hlen
    have hlt : i < fr.length := by omega
    have hidx : (T + 4294967296 - 1) % 4294967296 = T - 1 := by omega
    have hmr : content.length % R < R := Nat.mod_lt _ hR
    unfold FileSender.load_records chunks
    simp only [hidx]
    by_cases hn : n = 0
    · subst hn
      have hiT : i = T - 1 := by omega
      have hrem := hlast (by omega)
      rw [← hiT] at hrem
      rw [if_pos hiT]
      simp only [FileSender.load_records, chunks, List.append_nil]
      have htake : List.take (if content.length % R ≠ 0 then content.length % R else R)
          (List.drop (i * R) content) = List.take R (List.drop (i * R) content) := by
        by_cases hm : content.length % R ≠ 0
        · rw [if_pos hm] at hrem ⊢
          have hl : (List.drop (i * R) content).length ≤ content.length % R := by
            rw [List.length_drop]; exact hrem
          rw [List.take_of_length_le hl, List.take_of_length_le (by omega)]
        · rw [if_neg hm]
      have hset : ∀ c : List Nat, fr.set i c = fr.take i ++ [c] := by
        intro c
        rw [← take_set_succ fr i c hlt]
        exact (List.take_of_length_le (by rw [List.length_set]; omega)).symm
      rw [htake, hset]
    · have hiT : ¬ i = T - 1 := by omega
      have hf := hfull i (by omega)
      rw [Nat.succ_mul] at hf
      have hgot : (List.take R (List.drop (i * R) content)).length = R := by
        rw [List.length_take, List.length_drop]; omega
      rw [if_neg hiT, hgot, ← Nat.succ_mul, ih (i + 1) _ (by omega) (by simp; omega),
        take_set_succ fr i _ hlt, List.drop_drop, Nat.succ_mul]
      simp

/-- `load_file` cuts the file into `T` zero-padded records of `R` bytes. -/
theorem load_file_eq (name content : List Nat) (R M : Nat)
    (hR : R = 256 ∨ R = 512 ∨ R = 1024)
    (hT : (content.length + R - 1) / R < 4294967296) :
    (FileSender.init name R M).load_file content
      = .ok { FileSender.init name R M with
              file_size := content.length,
              total_records := (content.length + R - 1) / R,
              file_records := chunks R ((content.length + R - 1) / R) content } := by
  have hRpos : 0 < R := by rcases hR with h | h | h <;> omega
  have hcount : record_count content.length R = (content.length + R - 1) / R := by
    unfold record_count
    rcases hR with h | h | h <;> subst h <;> omega
  unfold FileSender.load_file
  rw [if_neg (by simp [FileSender.init]; omega)]
  simp only [FileSender.init, hcount, resize_nil]
  have h := load_records_eq content R ((content.length + R - 1) / R) hRpos hT
    (by intro i hi; rcases hR with h | h | h <;> subst h <;> omega)
    (by intro h1; rcases hR with h | h | h <;> subst h <;> split <;> omega)
    ((content.length + R - 1) / R) 0 (List.replicate ((content.length + R - 1) / R) [])
    (by omega) (by simp)
  simp only [Nat.zero_mul, List.take_zero, List.nil_append, List.drop_zero] at h
  rw [h]

/-- The first `k - 1` records of `chunks` and the head of the last one give
back the file. -/
theorem chunks_flush (R : Nat) :
    ∀ (k : Nat) (c : List Nat), (k * R ≤ c.length) → c.length ≤ k * R + R →
      ((chunks R (k + 1) c).take k).flatten
          ++ ((chunks R (k + 1) c).getD k []).take (c.length - k * R) = c := by
  intro k
  induction k with
  | zero =>
    intro c h1 h2
    simp only [Nat.zero_mul, Nat.zero_add] at h2
    simp only [chunks, List.take_zero, List.flatten_nil, List.nil_append, List.getD_cons_zero,
      Nat.zero_mul, Nat.sub_zero]
    rw [List.take_of_length_le h2, List.take_left]
  | succ k ih =>
    intro c h1 h2
    rw [Nat.succ_mul] at h1 h2
    have hpad : R - (List.take R c).length = 0 := by rw [List.length_take]; omega
    have hd : (List.drop R c).length = c.length - R := List.length_drop _ _
    have hih := ih (c.drop R) (by omega) (by omega)
    rw [hd] at hih
    have hsub : c.length - (k + 1) * R = c.length - R - k * R := by
      rw [Nat.succ_mul]; omega
    rw [chunks, hpad, List.take_succ_cons, List.flatten_cons, List.getD_cons_succ, hsub,
      List.append_assoc, hih]
    simp

theorem filename_field_has_nul (name : List Nat) :
    (filename_field name).all (fun c => c != 0) = false := by
  have hf : filename_field name = (c_string name).take 255
      ++ List.replicate (256 - ((c_string name).take 255).length) 0 := rfl
  have hle : ((c_string name).take 255).length ≤ 255 := by
    rw [List.length_take]; omega
  obtain ⟨n, hn⟩ : ∃ n, 256 - ((c_string name).take 255).length = n + 1 :=
    ⟨255 - ((c_string name).take 255).length, by omega⟩
  rw [hf, hn]
  simp only [List.all_append, List.replicate_succ, List.all_cons]
  simp

/-- The receiver set up from the sender's FILE_HDR. -/
theorem process_file_hdr_eq (sd : FileSender)
    (hR : sd.record_size = 256 ∨ sd.record_size = 512 ∨ sd.record_size = 1024)
    (hM : sd.blast_size < 4294967296)
    (hT : (sd.file_size + sd.record_size - 1) / sd.record_size + 1 < 4294967296) :
    ∃ st0, FileReceiver.init.process_file_hdr sd.file_header.serialize.2
        = .ok (st0, [FileReceiver.send_file_hdr_ack]) ∧
      st0.file_size = sd.file_size ∧ st0.record_size = sd.record_size ∧
      st0.total_records = (sd.file_size + sd.record_size - 1) / sd.record_size ∧
      ∀ fr, st0 = receiver_with st0 fr 0 := by
  have hF : sd.file_size < 18446744073709551616 := by
    rcases hR with h | h | h <;> rw [h] at hT <;> omega
  have hR16 : sd.record_size < 65536 := by rcases hR with h | h | h <;> omega
  have hR0 : sd.record_size ≠ 0 := by rcases hR with h | h | h <;> omega
  have hcount : record_count sd.file_size sd.record_size
      = (sd.file_size + sd.record_size - 1) / sd.record_size := by
    unfold record_count
    rcases hR with h | h | h <;> rw [h] at hT ⊢ <;> omega
  have hrt := file_header_round_trip sd.file_header hF hR16 hM
    (filename_field_length sd.output_filename)
  unfold FileReceiver.process_file_hdr
  rw [hrt]
  simp only []
  have hnul : sd.file_header.filename.all (fun c => c != 0) = false :=
    filename_field_has_nul sd.output_filename
  rw [hnul]
  have hrs : sd.file_header.record_size = sd.record_size := rfl
  have hfs : sd.file_header.file_size = sd.file_size := rfl
  rw [if_neg (by simp), hrs, hfs, if_neg hR0, hcount]
  have hwrap : ((sd.file_size + sd.record_size - 1) / sd.record_size + 1) % 4294967296
      = (sd.file_size + sd.record_size - 1) / sd.record_size + 1 := by omega
  refine ⟨_, rfl, rfl, rfl, rfl, ?_⟩
  intro fr
  simp only [receiver_with, FileReceiver.init, resize_nil, hwrap, List.replicate_succ,
    List.take_zero, List.replicate_zero, List.nil_append, Nat.sub_zero]

theorem set_at_length {α : Type} (l1 l2 : List α) (a b : α) :
    (l1 ++ a :: l2).set l1.length b = l1 ++ b :: l2 := by
  rw [List.set_append_right _ _ (le_refl _)]
  simp

theorem replicate_append_cons {α : Type} (k : Nat) (a : α) (l : List α) :
    List.replicate k a ++ a :: l = a :: (List.replicate k a ++ l) := by
  induction k with
  | zero => rfl
  | succ k ih => rw [List.replicate_succ, List.cons_append, ih, List.cons_append]

/-- Storing record `k + 1` of the sender in a receiver that holds the first
`k` records gives the receiver that holds the first `k + 1`. -/
theorem receiver_with_store (st : FileReceiver) (file_records : List (List Nat)) (k : Nat)
    (r : List Nat) (hk : k < st.total_records)
    (hlen : file_records.length = st.total_records) (hr : file_records[k]? = some r) :
    { receiver_with st file_records k with
      record_buffer := (receiver_with st file_records k).record_buffer.set (k + 1) r,
      received_records := (receiver_with st file_records k).received_records.set (k + 1) true }
      = receiver_with st file_records (k + 1) := by
  obtain ⟨m, hm⟩ : ∃ m, st.total_records - k = m + 1 := ⟨st.total_records - k - 1, by omega⟩
  have hm2 : st.total_records - (k + 1) = m := by omega
  have htk : (file_records.take k).length = k := by rw [List.length_take]; omega
  have h1 : (List.replicate k true ++ false :: List.replicate m false).set k true
      = List.replicate k true ++ true :: List.replicate m false := by
    have := set_at_length (List.replicate k true) (List.replicate m false) false true
    rwa [List.length_replicate] at this
  have h2 : (file_records.take k ++ [] :: List.replicate m []).set k r
      = file_records.take k ++ r :: List.replicate m [] := by
    have := set_at_length (file_records.take k) (List.replicate m ([] : List Nat)) [] r
    rwa [htk] at this
  simp only [receiver_with, hm, hm2, List.replicate_succ, List.set_cons_succ, h1, h2]
  rw [List.take_succ, hr, replicate_append_cons]
  simp

theorem receiver_with_lengths (st : FileReceiver) (file_records : List (List Nat)) (k : Nat)
    (hk : k ≤ st.total_records) (hlen : file_records.length = st.total_records) :
    (receiver_with st file_records k).record_buffer.length = st.total_records + 1 ∧
    (receiver_with st file_records k).received_records.length = st.total_records + 1 := by
  simp only [receiver_with, List.length_cons, List.length_append, List.length_replicate,
    List.length_take]
  omega

/-- The record loop of `process_data_packet` on a payload that holds the
sender's records `rec .. b`, in a receiver that holds the records before
`rec`: afterwards the receiver holds the first `b` records. -/
theorem absorb_records_prefix (st : FileReceiver) (file_records : List (List Nat))
    (data : List Nat) (b : Nat) (h32 : st.total_records + 1 < 4294967296)
    (hlen : file_records.length = st.total_records)
    (hrec : ∀ r ∈ file_records, r.length = st.record_size) (hb : b ≤ st.total_records) :
    ∀ (n fuel rec off : Nat), rec + n = b + 1 → n < fuel → 1 ≤ rec →
      data.drop off = ((file_records.drop (rec - 1)).take n).flatten → off ≤ data.length →
      ∃ off2, FileReceiver.absorb_records data b fuel (receiver_with st file_records (rec - 1))
          rec off = .ok (receiver_with st file_records b, off2) := by
  intro n
  induction n with
  | zero =>
    intro fuel rec off hrn hfuel h1 _ _
    obtain ⟨f, rfl⟩ : ∃ f, fuel = f + 1 := ⟨fuel - 1, by omega⟩
    have hb2 : rec - 1 = b := by omega
    rw [FileReceiver.absorb_records, if_neg (by omega), hb2]
    exact ⟨off, rfl⟩
  | succ n ih =>
    intro fuel rec off hrn hfuel h1 hdata hoff
    obtain ⟨f, rfl⟩ : ∃ f, fuel = f + 1 := ⟨fuel - 1, by omega⟩
    have hlt : rec - 1 < file_records.length := by omega
    obtain ⟨r, hr⟩ : ∃ r, file_records[rec - 1]? = some r :=
      ⟨_, List.getElem?_eq_getElem hlt⟩
    have hrl : r.length = st.record_size :=
      hrec r (List.mem_iff_getElem?.mpr ⟨_, hr⟩)
    rw [drop_eq_cons_of_getElem? hr, List.take_succ_cons, List.flatten_cons,
      show rec - 1 + 1 = rec by omega] at hdata
    obtain ⟨hl1, hl2⟩ := receiver_with_lengths st file_records (rec - 1) (by omega) hlen
    have hdl : (data.drop off).length = data.length - off := List.length_drop _ _
    have hfit : off + st.record_size ≤ data.length := by
      have : (data.drop off).length ≥ r.length := by
        rw [hdata, List.length_append]; omega
      omega
    have htake : (data.drop off).take st.record_size = r := by
      rw [hdata, ← hrl, List.take_left]
    have hnext : (rec + 1) % 4294967296 = rec + 1 := by omega
    have hstore := receiver_with_store st file_records (rec - 1) r (by omega) hlen hr
    rw [show rec - 1 + 1 = rec by omega] at hstore
    have hrest : data.drop (off + st.record_size)
        = ((file_records.drop (rec + 1 - 1)).take n).flatten := by
      rw [← List.drop_drop, hdata, ← hrl, List.drop_left, show rec + 1 - 1 = rec by omega]
    have hih := ih f (rec + 1) (off + st.record_size) (by omega) (by omega) (by omega) hrest hfit
    rw [show rec + 1 - 1 = rec by omega] at hih
    obtain ⟨off2, hoff2⟩ := hih
    refine ⟨off2, ?_⟩
    have hc2 : 1 ≤ rec ∧ rec ≤ (receiver_with st file_records (rec - 1)).total_records :=
      ⟨h1, show rec ≤ st.total_records by omega⟩
    have hc3 : rec < (receiver_with st file_records (rec - 1)).record_buffer.length ∧
        rec < (receiver_with st file_records (rec - 1)).received_records.length ∧
        off + (receiver_with st file_records (rec - 1)).record_size ≤ data.length :=
      ⟨by omega, by omega, hfit⟩
    have htake2 : (data.drop off).take (receiver_with st file_records (rec - 1)).record_size
        = r := htake
    rw [FileReceiver.absorb_records, if_pos (by omega), if_pos hc2, if_pos hc3, htake2, hnext,
      hstore]
    exact hoff2

/-- One DATA frame of the sender, serialised and handed to
`process_data_packet` of a receiver that holds the records before the frame's
segment: afterwards the receiver holds the records up to the segment's end. -/
theorem process_data_packet_of (st : FileReceiver) (file_records : List (List Nat))
    (a b fuel : Nat) (h32 : st.total_records + 1 < 4294967296)
    (hlen : file_records.length = st.total_records)
    (hrec : ∀ r ∈ file_records, r.length = st.record_size)
    (hR : st.record_size ≤ 1024)
    (ha : 1 ≤ a) (hab : a ≤ b) (hb : b ≤ st.total_records) (h16 : b - a + 1 ≤ 16)
    (hfuel : 16 < fuel) :
    ∃ bytes, (data_packet_of file_records a b).serialize MAX_UDP_PAYLOAD
        = .ok (bytes.length, bytes) ∧ 0 < bytes.length ∧
      FileReceiver.process_data_packet fuel (receiver_with st file_records (a - 1)) bytes
        = .ok (receiver_with st file_records b) := by
  have hdl := data_packet_of_data_length file_records st.record_size a b hrec ha hab (by omega)
  have hdl2 : (data_packet_of file_records a b).data.length ≤ 16 * 1024 := by
    rw [hdl]; exact Nat.mul_le_mul h16 hR
  have hser := data_serialize_fits (data_packet_of file_records a b) MAX_UDP_PAYLOAD
    (by rw [data_packet_of_segments]; simp [data_packet_of])
    (by
      have : (data_packet_of file_records a b).num_segments = 1 := rfl
      rw [this]; unfold MAX_UDP_PAYLOAD; omega)
  have hseg : (data_packet_of file_records a b).segments.take
      (data_packet_of file_records a b).num_segments = [⟨a, b⟩] := rfl
  have hns : (data_packet_of file_records a b).num_segments = [(⟨a, b⟩ : Segment)].length := rfl
  have hty : (data_packet_of file_records a b).type = 3 := rfl
  rw [hseg, hty] at hser
  have hfr := data_deserialize_frame DataPacket.init 3 [⟨a, b⟩]
    (data_packet_of file_records a b).data
    (by
      intro sg hsg
      rw [List.mem_singleton.mp hsg]
      exact ⟨by show a < 4294967296; omega, by show b < 4294967296; omega⟩)
    (by simp [DataPacket.init, MAX_RECORDS_PER_PACKET])
  have hdata : (if (data_packet_of file_records a b).data = [] then DataPacket.init.data
      else (data_packet_of file_records a b).data) = (data_packet_of file_records a b).data := by
    by_cases h : (data_packet_of file_records a b).data = []
    · rw [if_pos h, h]; rfl
    · rw [if_neg h]
  rw [hdata] at hfr
  obtain ⟨off2, hoff2⟩ := absorb_records_prefix st file_records
    (data_packet_of file_records a b).data b h32 hlen hrec hb (b + 1 - a) fuel a 0 (by omega)
    (by omega) ha
    (by
      rw [List.drop_zero]
      show ((file_records.drop (a - 1)).take (b - a + 1)).flatten = _
      rw [show b - a + 1 = b + 1 - a by omega])
    (Nat.zero_le _)
  refine ⟨[3, (data_packet_of file_records a b).num_segments] ++ segment_bytes [⟨a, b⟩]
    ++ (data_packet_of file_records a b).data, ?_, ?_, ?_⟩
  · rw [hser]
    congr 2
    rw [hns]
    simp
    omega
  · simp
  · unfold FileReceiver.process_data_packet
    rw [hns, hfr]
    simp only [Outcome.bind_ok, List.length_singleton]
    rw [FileReceiver.absorb_segments]
    simp only [List.get?_eq_getElem?, List.singleton_append, List.getElem?_cons_zero]
    rw [hoff2]
    simp [FileReceiver.absorb_segments]

/-- The DATA frames of one blast, sent and absorbed in order. -/
theorem absorb_packets_from (st : FileReceiver) (file_records : List (List Nat))
    (e fuel : Nat) (h32 : st.total_records + 1 < 4294967296)
    (hlen : file_records.length = st.total_records)
    (hrec : ∀ r ∈ file_records, r.length = st.record_size)
    (hR : st.record_size ≤ 1024) (he : e ≤ st.total_records) (hfuel : 16 < fuel) :
    ∀ (n current_rec : Nat), e + 1 - current_rec ≤ 16 * n → 1 ≤ current_rec →
      current_rec ≤ e + 1 →
      ∃ ds, FileSender.blast_datagrams (data_packets_from file_records e n current_rec)
          = .ok ds ∧
        FileReceiver.absorb_datagrams fuel (receiver_with st file_records (current_rec - 1)) ds
          = .ok (receiver_with st file_records e) := by
  intro n
  induction n with
  | zero =>
    intro cur hn h1 h2
    have hc : cur - 1 = e := by omega
    refine ⟨[], rfl, ?_⟩
    rw [hc]; rfl
  | succ n ih =>
    intro cur hn h1 h2
    by_cases hle : cur ≤ e
    · obtain ⟨bytes, hser, hpos, hproc⟩ := process_data_packet_of st file_records cur
        (min (cur + 15) e) fuel h32 hlen hrec hR h1 (by omega) (by omega) (by omega) hfuel
      obtain ⟨ds, hds, habs⟩ := ih (min (cur + 15) e + 1) (by omega) (by omega) (by omega)
      rw [show min (cur + 15) e + 1 - 1 = min (cur + 15) e by omega] at habs
      refine ⟨bytes :: ds, ?_, ?_⟩
      · rw [data_packets_from, if_pos hle, FileSender.blast_datagrams, hser, Outcome.bind_ok,
          hds, Outcome.bind_ok]
        simp only []
        rw [if_pos hpos, List.take_length]
      · rw [FileReceiver.absorb_datagrams, hproc, Outcome.bind_ok, habs]
    · have hc : cur - 1 = e := by omega
      refine ⟨[], ?_, ?_⟩
      · rw [data_packets_from, if_neg hle]; rfl
      · rw [hc]; rfl

/-- The blasts of the run loop from `current_rec` on, each absorbed by a
receiver that holds the records before it: in the end the receiver holds all
`T` records. -/
theorem absorb_blasts_from (sd : FileSender) (st : FileReceiver) (M fuel : Nat)
    (h32 : st.total_records + M < 4294967296) (hM : 1 ≤ M)
    (hlen : sd.file_records.length = st.total_records)
    (hrec : ∀ r ∈ sd.file_records, r.length = st.record_size)
    (hR : st.record_size ≤ 1024) (hfuel : M < fuel) (hfuel2 : 16 < fuel) :
    ∀ (n f current_rec : Nat), st.total_records + 1 - current_rec ≤ n → n < f →
      1 ≤ current_rec → current_rec ≤ st.total_records + 1 →
      ∃ blasts, FileSender.run_blasts st.total_records M f current_rec = .ok blasts ∧
        absorb_blasts fuel sd (receiver_with st sd.file_records (current_rec - 1)) blasts
          = .ok (receiver_with st sd.file_records st.total_records) := by
  intro n
  induction n with
  | zero =>
    intro f cur hn hf h1 h2
    obtain ⟨f, rfl⟩ : ∃ g, f = g + 1 := ⟨f - 1, by omega⟩
    have hc : cur - 1 = st.total_records := by omega
    refine ⟨[], ?_, ?_⟩
    · rw [FileSender.run_blasts, if_neg (by omega)]
    · rw [hc]; rfl
  | succ n ih =>
    intro f cur hn hf h1 h2
    obtain ⟨f, rfl⟩ : ∃ g, f = g + 1 := ⟨f - 1, by omega⟩
    by_cases hle : cur ≤ st.total_records
    · have hend : min ((cur + M + 4294967296 - 1) % 4294967296) st.total_records
          = min (cur + M - 1) st.total_records := by
        have : (cur + M + 4294967296 - 1) % 4294967296 = cur + M - 1 := by omega
        rw [this]
      have hnext : (min (cur + M - 1) st.total_records + 1) % 4294967296
          = min (cur + M - 1) st.total_records + 1 := by omega
      obtain ⟨rest, hrest, habs⟩ := ih f (min (cur + M - 1) st.total_records + 1) (by omega)
        (by omega) (by omega) (by omega)
      rw [show min (cur + M - 1) st.total_records + 1 - 1 = min (cur + M - 1) st.total_records
        by omega] at habs
      have hcreate := create_data_packets_eq sd cur (min (cur + M - 1) st.total_records) fuel
        h1 (by omega) (by omega) (by omega) (by omega)
      obtain ⟨ds, hds, hab⟩ := absorb_packets_from st sd.file_records
        (min (cur + M - 1) st.total_records) fuel (by omega) hlen hrec hR (by omega) hfuel2
        ((min (cur + M - 1) st.total_records + 1 - cur + 15) / 16) cur (by omega) h1 (by omega)
      refine ⟨(cur, min (cur + M - 1) st.total_records) :: rest, ?_, ?_⟩
      · rw [FileSender.run_blasts, if_pos hle]
        simp only [hend, hnext, hrest, Outcome.bind_ok]
      · rw [absorb_blasts]
        simp only []
        rw [hcreate, Outcome.bind_ok, hds, Outcome.bind_ok, hab, Outcome.bind_ok, habs]
    · have hc : cur - 1 = st.total_records := by omega
      refine ⟨[], ?_, ?_⟩
      · rw [FileSender.run_blasts, if_neg hle]
      · rw [hc]; rfl

/-- The flush of a receiver that holds all `T ≥ 1` records of the sender. -/
theorem write_file_of_receiver_with (st : FileReceiver) (file_records : List (List Nat))
    (fuel : Nat) (h32 : st.total_records + 1 < 4294967296) (hT : 1 ≤ st.total_records)
    (hR : 0 < st.record_size)
    (hlen : file_records.length = st.total_records)
    (hrec : ∀ r ∈ file_records, r.length = st.record_size)
    (hfuel : st.total_records < fuel) :
    (receiver_with st file_records st.total_records).write_file_to_disk true true fuel
      = .ok (true, (file_records.take (st.total_records - 1)).flatten
          ++ (file_records.getD (st.total_records - 1) []).take
            (if st.file_size % st.record_size ≠ 0 then st.file_size % st.record_size
             else st.record_size)) := by
  have hrb : (receiver_with st file_records st.total_records).record_buffer
      = [] :: file_records := by
    simp only [receiver_with, Nat.sub_self, List.replicate_zero, List.append_nil]
    rw [List.take_of_length_le (by omega)]
  have hrr : (receiver_with st file_records st.total_records).received_records
      = false :: List.replicate st.total_records true := by
    simp only [receiver_with, Nat.sub_self, List.replicate_zero, List.append_nil]
  have hall : ∀ i, 1 ≤ i → i ≤ (receiver_with st file_records st.total_records).total_records →
      (receiver_with st file_records st.total_records).received_records[i]? = some true ∧
      ∃ r, (receiver_with st file_records st.total_records).record_buffer[i]? = some r ∧
        r.length = (receiver_with st file_records st.total_records).record_size := by
    intro i h1 h2
    have h2b : i ≤ st.total_records := h2
    obtain ⟨j, rfl⟩ : ∃ j, i = j + 1 := ⟨i - 1, by omega⟩
    have hj : j < file_records.length := by omega
    rw [hrb, hrr]
    refine ⟨?_, file_records[j], ?_, hrec _ (List.getElem_mem _)⟩
    · rw [List.getElem?_cons_succ, List.getElem?_replicate_of_lt (by omega)]
    · rw [List.getElem?_cons_succ, List.getElem?_eq_getElem hj]
  have hw := write_records_complete (receiver_with st file_records st.total_records) fuel
    h32 hT hR hall hfuel
  unfold FileReceiver.write_file_to_disk
  simp only [if_false, Bool.true_eq_false]
  rw [hw, hrb]
  have hT2 : (receiver_with st file_records st.total_records).total_records
      = (st.total_records - 1) + 1 := by
    show st.total_records = _
    omega
  rw [hT2]
  simp only [List.drop_succ_cons, List.drop_zero, List.getD_cons_succ, Nat.add_sub_cancel]
  rfl

/-- The transfer after `load_file`: header, blasts and flush. -/
theorem transfer_after_load (sd : FileSender) (content : List Nat) (fuel : Nat)
    (hR : sd.record_size = 256 ∨ sd.record_size = 512 ∨ sd.record_size = 1024)
    (hM1 : 1 ≤ sd.blast_size)
    (hfs : sd.file_size = content.length)
    (hT : sd.total_records = (content.length + sd.record_size - 1) / sd.record_size)
    (hfr : sd.file_records = chunks sd.record_size sd.total_records content)
    (h32 : sd.total_records + sd.blast_size < 4294967296)
    (hfuel : sd.total_records + sd.blast_size < fuel) (hfuel2 : 16 < fuel) :
    ((FileReceiver.init.process_file_hdr sd.file_header.serialize.2).bind fun r0 =>
      (FileSender.run_blasts sd.total_records sd.blast_size fuel 1).bind fun blasts =>
        (absorb_blasts fuel sd r0.1 blasts).bind fun st =>
          st.write_file_to_disk true true fuel)
      = .ok (true, content) := by
  have hRpos : 0 < sd.record_size := by rcases hR with h | h | h <;> omega
  have hRle : sd.record_size ≤ 1024 := by rcases hR with h | h | h <;> omega
  obtain ⟨st0, hst0, hF, hRs, hT0, hinit⟩ := process_file_hdr_eq sd hR (by omega)
    (by rw [hfs, ← hT]; omega)
  rw [hfs, ← hT] at hT0
  rw [hst0, Outcome.bind_ok]
  simp only []
  have hlen : sd.file_records.length = st0.total_records := by
    rw [hfr, chunks_length, hT0]
  have hrec : ∀ r ∈ sd.file_records, r.length = st0.record_size := by
    intro r hr
    rw [hfr] at hr
    rw [hRs]; exact chunks_record_length _ _ _ r hr
  obtain ⟨blasts, hblasts, habs⟩ := absorb_blasts_from sd st0 sd.blast_size fuel
    (by rw [hT0]; exact h32) hM1 hlen hrec (by rw [hRs]; exact hRle)
    (by omega) hfuel2 st0.total_records fuel 1 (by omega) (by rw [hT0]; omega)
    (le_refl _) (by omega)
  rw [Nat.sub_self, ← hinit] at habs
  rw [hT0] at hblasts
  rw [hblasts, Outcome.bind_ok, habs, Outcome.bind_ok]
  by_cases h0 : sd.total_records = 0
  · have hc : content = [] := by
      have : content.length = 0 := by
        rw [hT] at h0
        rcases hR with h | h | h <;> rw [h] at h0 <;> omega
      exact List.length_eq_zero.mp this
    obtain ⟨f, rfl⟩ : ∃ f, fuel = f + 1 := ⟨fuel - 1, by omega⟩
    rw [hT0, h0, hc]
    unfold FileReceiver.write_file_to_disk
    simp only [if_false, Bool.true_eq_false]
    rw [FileReceiver.write_records, if_neg (by
      show ¬ 1 ≤ st0.total_records
      omega)]
  · rw [write_file_of_receiver_with st0 _ fuel (by rw [hT0]; omega) (by omega)
      (by rw [hRs]; exact hRpos) hlen hrec (by rw [hT0]; omega)]
    have hlast : (if st0.file_size % st0.record_size ≠ 0 then st0.file_size % st0.record_size
        else st0.record_size)
        = content.length - (sd.total_records - 1) * sd.record_size := by
      rw [hF, hRs, hfs]
      rw [hT] at h0 ⊢
      rcases hR with h | h | h <;> rw [h] at h0 ⊢ <;> split <;> omega
    have hk : sd.total_records = (sd.total_records - 1) + 1 := by omega
    have hflush := chunks_flush sd.record_size (sd.total_records - 1) content
      (by rw [hT] at h0 ⊢; rcases hR with h | h | h <;> rw [h] at h0 ⊢ <;> omega)
      (by rw [hT] at h0 ⊢; rcases hR with h | h | h <;> rw [h] at h0 ⊢ <;> omega)
    rw [← hk, ← hfr] at hflush
    rw [hlast, hT0, hflush]

/-- C1. Lossless end-to-end fidelity: for every file content, every record
size in `{256, 512, 1024}` and blast size in `[200, 10000]` with
`T + M < 2^32`, a receiver set up from the sender's FILE_HDR that absorbs every
DATA frame `create_data_packets` builds for the successive blasts over `[1, T]`
flushes successfully and writes exactly the bytes of the file. -/
theorem lossless_transfer_fidelity (content name : List Nat) (R M fuel : Nat)
    (hR : R = 256 ∨ R = 512 ∨ R = 1024) (hM1 : 200 ≤ M) (hM2 : M ≤ 10000)
    (h32 : (content.length + R - 1) / R + M < 4294967296)
    (hfuel : (content.length + R - 1) / R + M < fuel) :
    lossless_transfer fuel content name R M = .ok (true, content) := by
  unfold lossless_transfer
  rw [load_file_eq name content R M hR (by omega), Outcome.bind_ok]
  exact transfer_after_load _ content fuel hR (show 1 ≤ M by omega) rfl rfl rfl h32 hfuel
    (Nat.lt_of_le_of_lt (show 16 ≤ M by omega)
      (Nat.lt_of_le_of_lt (Nat.le_add_left M _) hfuel))

theorem lossless_transfer_fidelity_witness :
    lossless_transfer 202 [72, 105, 33] [97, 46, 116, 120, 116] 256 200
      = .ok (true, [72, 105, 33]) :=
  lossless_transfer_fidelity [72, 105, 33] [97, 46, 116, 120, 116] 256 200 202
    (Or.inl rfl) (by decide) (by decide) (by decide) (by decide)

theorem record_count_eq (F R : Nat) (hR : R = 256 ∨ R = 512 ∨ R = 1024)
    (hT : (F + R - 1) / R < 4294967296) :
    record_count F R = (F + R - 1) / R := by
  unfold record_count
  rcases hR with h | h | h <;> subst h <;> omega

set_option maxRecDepth 100000 in
/-- C14 (as stated, refuted): a file of 2^40 bytes cut into records of 256 bytes
has 2^32 records, and both the sender's `load_file` and the receiver's
`process_file_hdr` store the record count 0. -/
theorem record_count_truncates :
    (1099511627776 + 256 - 1) / 256 = 4294967296 ∧
    ((FileSender.init [116] 256 200).load_file (List.replicate 1099511627776 0)).bind
        (fun s => .ok s.total_records) = .ok 0 ∧
    (FileReceiver.init.process_file_hdr
        ({ FileHeaderPacket.init with
           file_size := 1099511627776, record_size := 256, blast_size := 200,
           filename := filename_field [116] } : FileHeaderPacket).serialize.2).bind
        (fun r => .ok r.1.total_records) = .ok 0 := by
  refine ⟨by decide, ?_, by decide⟩
  unfold FileSender.load_file
  rw [if_neg (by decide), Outcome.bind_ok, List.length_replicate]
  decide

/-- C14 (amended): for a record size R of 256, 512 or 1024 and a file size F
with ceil(F/R) < 2^32, the record count stored by the sender's `load_file` and
by the receiver's `process_file_hdr` is ceil(F/R), the number T with
F ≤ T·R < F + R. -/
theorem record_count_exact (F R : Nat) (hR : R = 256 ∨ R = 512 ∨ R = 1024)
    (hT : (F + R - 1) / R < 4294967296) :
    (F ≤ (F + R - 1) / R * R ∧ (F + R - 1) / R * R < F + R) ∧
    (∀ (s : FileSender) (content : List Nat), s.record_size = R → content.length = F →
      ∃ s1, s.load_file content = .ok s1 ∧ s1.total_records = (F + R - 1) / R) ∧
    (∀ (st : FileReceiver) (buffer : List Nat),
      (FileHeaderPacket.deserialize buffer).2.file_size = F →
      (FileHeaderPacket.deserialize buffer).2.record_size = R →
      (FileHeaderPacket.deserialize buffer).2.filename.all (fun c => c != 0) = false →
      ∃ st1 out, st.process_file_hdr buffer = .ok (st1, out) ∧
        st1.total_records = (F + R - 1) / R) := by
  have hR0 : R ≠ 0 := by rcases hR with h | h | h <;> omega
  refine ⟨?_, ?_, ?_⟩
  · rcases hR with h | h | h <;> subst h <;> omega
  · intro s content hs hc
    unfold FileSender.load_file
    rw [if_neg (by rw [hs]; exact hR0)]
    refine ⟨_, rfl, ?_⟩
    show record_count content.length s.record_size = _
    rw [hs, hc]; exact record_count_eq F R hR hT
  · intro st buffer hF hRr hname
    unfold FileReceiver.process_file_hdr
    simp only [hname, hRr, hR0, if_false, Bool.false_eq_true]
    refine ⟨_, _, rfl, ?_⟩
    show record_count _ _ = _
    rw [hF]; exact record_count_eq F R hR hT

set_option maxRecDepth 100000 in
theorem record_count_exact_witness :
    (1000 ≤ (1000 + 256 - 1) / 256 * 256 ∧ (1000 + 256 - 1) / 256 * 256 < 1000 + 256) ∧
    (∀ (s : FileSender) (content : List Nat), s.record_size = 256 → content.length = 1000 →
      ∃ s1, s.load_file content = .ok s1 ∧ s1.total_records = (1000 + 256 - 1) / 256) ∧
    (∀ (st : FileReceiver) (buffer : List Nat),
      (FileHeaderPacket.deserialize buffer).2.file_size = 1000 →
      (FileHeaderPacket.deserialize buffer).2.record_size = 256 →
      (FileHeaderPacket.deserialize buffer).2.filename.all (fun c => c != 0) = false →
      ∃ st1 out, st.process_file_hdr buffer = .ok (st1, out) ∧
        st1.total_records = (1000 + 256 - 1) / 256) :=
  record_count_exact 1000 256 (Or.inl rfl) (by decide)

theorem chunks_get (R : Nat) :
    ∀ (k : Nat) (c : List Nat) (i : Nat), i < k →
      (chunks R k c)[i]?
        = some ((c.drop (i * R)).take R
            ++ List.replicate (R - ((c.drop (i * R)).take R).length) 0) := by
  intro k
  induction k with
  | zero => intro c i h; omega
  | succ k ih =>
    intro c i h
    cases i with
    | zero => simp [chunks]
    | succ i =>
      have h1 := ih (c.drop R) i (by omega)
      simp only [chunks, List.getElem?_cons_succ]
      rw [h1, List.drop_drop, show R + i * R = (i + 1) * R by rw [Nat.succ_mul]; omega]

/-- C15: for a file of F bytes and a record size R of 256, 512 or 1024 with
T = ceil(F/R) < 2^32, `load_file` returns with T records of exactly R bytes;
record i, for 1 ≤ i < T, holds the file bytes [(i-1)·R, i·R), and record T holds
the remaining F - R·(T-1) file bytes followed by zero bytes up to R bytes; with
F = 100 and R = 512 the one record is the file followed by 412 zero bytes. -/
theorem load_file_record_layout (name content : List Nat) (R M : Nat)
    (hR : R = 256 ∨ R = 512 ∨ R = 1024)
    (hT : (content.length + R - 1) / R < 4294967296) :
    ∃ s, (FileSender.init name R M).load_file content = .ok s ∧
      s.total_records = (content.length + R - 1) / R ∧
      s.file_records.length = (content.length + R - 1) / R ∧
      (∀ r ∈ s.file_records, r.length = R) ∧
      (∀ i, 1 ≤ i → i < (content.length + R - 1) / R →
        i * R ≤ content.length ∧
        s.file_records[i - 1]? = some ((content.drop ((i - 1) * R)).take R)) ∧
      (1 ≤ (content.length + R - 1) / R →
        (content.drop (R * ((content.length + R - 1) / R - 1))).length
          = content.length - R * ((content.length + R - 1) / R - 1) ∧
        content.length - R * ((content.length + R - 1) / R - 1) ≤ R ∧
        s.file_records[(content.length + R - 1) / R - 1]?
          = some (content.drop (R * ((content.length + R - 1) / R - 1))
              ++ List.replicate
                  (R - (content.length - R * ((content.length + R - 1) / R - 1))) 0)) ∧
      (content.length = 100 → R = 512 →
        s.file_records = [content ++ List.replicate 412 0]) := by
  refine ⟨_, load_file_eq name content R M hR hT, rfl, ?_, ?_, ?_, ?_, ?_⟩
  · exact chunks_length R _ _
  · exact chunks_record_length R _ _
  · intro i h1 hi
    have hle : i * R ≤ content.length := by
      rcases hR with h | h | h <;> subst h <;> omega
    refine ⟨hle, ?_⟩
    show (chunks R _ content)[i - 1]? = _
    rw [chunks_get R _ content (i - 1) (by omega)]
    have hl : ((content.drop ((i - 1) * R)).take R).length = R := by
      rw [List.length_take, List.length_drop]
      have : (i - 1) * R + R = i * R := by
        rw [← Nat.succ_mul]; congr 1; omega
      omega
    rw [hl, Nat.sub_self]; simp
  · intro h1
    have hk : R * ((content.length + R - 1) / R - 1) ≤ content.length ∧
        content.length - R * ((content.length + R - 1) / R - 1) ≤ R := by
      rcases hR with h | h | h <;> subst h <;> omega
    refine ⟨by rw [List.length_drop], hk.2, ?_⟩
    show (chunks R _ content)[(content.length + R - 1) / R - 1]? = _
    rw [chunks_get R _ content _ (by omega), Nat.mul_comm]
    have ht : (content.drop (R * ((content.length + R - 1) / R - 1))).take R
        = content.drop (R * ((content.length + R - 1) / R - 1)) := by
      apply List.take_of_length_le
      rw [List.length_drop]; exact hk.2
    rw [ht, List.length_drop]
  · intro hF hR512
    subst hR512
    show chunks 512 ((content.length + 512 - 1) / 512) content = _
    rw [hF]
    show chunks 512 1 content = _
    have ht : content.take 512 = content := List.take_of_length_le (by omega)
    simp only [chunks, ht, hF]

theorem load_file_record_layout_witness :
    ∃ s, (FileSender.init [116] 512 200).load_file (List.replicate 100 7) = .ok s ∧
      s.total_records = ((List.replicate 100 7).length + 512 - 1) / 512 ∧
      s.file_records.length = ((List.replicate 100 7).length + 512 - 1) / 512 ∧
      (∀ r ∈ s.file_records, r.length = 512) ∧
      (∀ i, 1 ≤ i → i < ((List.replicate 100 7).length + 512 - 1) / 512 →
        i * 512 ≤ (List.replicate 100 7).length ∧
        s.file_records[i - 1]? = some (((List.replicate 100 7).drop ((i - 1) * 512)).take 512)) ∧
      (1 ≤ ((List.replicate 100 7).length + 512 - 1) / 512 →
        ((List.replicate 100 7).drop
            (512 * (((List.replicate 100 7).length + 512 - 1) / 512 - 1))).length
          = (List.replicate 100 7).length
              - 512 * (((List.replicate 100 7).length + 512 - 1) / 512 - 1) ∧
        (List.replicate 100 7).length
            - 512 * (((List.replicate 100 7).length + 512 - 1) / 512 - 1) ≤ 512 ∧
        s.file_records[((List.replicate 100 7).length + 512 - 1) / 512 - 1]?
          = some ((List.replicate 100 7).drop
                (512 * (((List.replicate 100 7).length + 512 - 1) / 512 - 1))
              ++ List.replicate
                  (512 - ((List.replicate 100 7).length
                    - 512 * (((List.replicate 100 7).length + 512 - 1) / 512 - 1))) 0)) ∧
      ((List.replicate 100 7).length = 100 → 512 = 512 →
        s.file_records = [List.replicate 100 7 ++ List.replicate 412 0]) :=
  load_file_record_layout [116] (List.replicate 100 7) 512 200 (Or.inr (Or.inl rfl))
    (by decide)

/-- The copy loop of `send_rec_miss` stores the `n` segments from index `i` on. -/
theorem copy_missing_eq (missing : List Segment) :
    ∀ (n i : Nat) (dst : List Segment), i + n ≤ missing.length → i + n ≤ dst.length →
      FileReceiver.copy_missing missing n i dst
        = .ok (dst.take i ++ (missing.drop i).take n ++ dst.drop (i + n)) := by
  intro n
  induction n with
  | zero =>
    intro i dst _ _
    simp [FileReceiver.copy_missing]
  | succ n ih =>
    intro i dst hm hd
    have hlt : i < missing.length := by omega
    have hg : missing.get? i = some (missing.get ⟨i, hlt⟩) := by
      rw [List.get?_eq_getElem?, List.getElem?_eq_getElem hlt]; rfl
    have hdrop : missing.drop i = missing.get ⟨i, hlt⟩ :: missing.drop (i + 1) := by
      rw [List.drop_eq_getElem_cons hlt]; rfl
    simp only [FileReceiver.copy_missing, hg]
    rw [if_pos (by omega), ih (i + 1) _ (by omega) (by simp; omega),
      take_set_succ _ _ _ (by omega), List.drop_set_of_lt _ _ (by omega), hdrop]
    simp only [List.take_succ_cons, List.append_assoc, List.singleton_append]
    rw [show i + 1 + n = i + (n + 1) by omega]

/-- C13: for a bitmap of T + 1 entries and a range with 1 ≤ s and e ≤ T,
`send_rec_miss(s, e)` returns; the REC_MISS it builds has
num_missing = min(n, 1000) for the n segments of `find_missing_records(s, e)`,
its segments are the first num_missing of that list in the same order, and the
datagram sent is the encoding of those segments, 3 + 8·num_missing ≤ 65000
bytes long. -/
theorem send_rec_miss_reply (st : FileReceiver) (T s e fuel : Nat)
    (hT : st.received_records.length = T + 1) (h32 : st.received_records.length < 4294967296)
    (hs1 : 1 ≤ s) (he : e ≤ T) (hfuel : e + 1 - s < fuel) :
    ∃ segs pkt bytes, st.find_missing_records fuel s e = .ok segs ∧
      st.send_rec_miss fuel s e = .ok (pkt, bytes) ∧
      pkt.type = REC_MISS ∧
      pkt.num_missing = min segs.length 1000 ∧
      pkt.missing.take pkt.num_missing = segs.take pkt.num_missing ∧
      bytes = [REC_MISS] ++ le_bytes 2 pkt.num_missing
                ++ segment_bytes (segs.take pkt.num_missing) ∧
      bytes.length = 3 + 8 * pkt.num_missing ∧
      3 + 8 * pkt.num_missing ≤ 65000 := by
  obtain ⟨segs, hfind, -⟩ := find_missing_records_spec st T s e fuel hT h32 hs1 he hfuel
  have hn : min segs.length MAX_MISSING_SEGMENTS ≤ 1000 := Nat.min_le_right _ _
  have hn2 : min segs.length MAX_MISSING_SEGMENTS ≤ segs.length := Nat.min_le_left _ _
  have hlen : RecMissPacket.init.missing.length = 1000 := List.length_replicate _ _
  have hcopy := copy_missing_eq segs (min segs.length MAX_MISSING_SEGMENTS) 0
    RecMissPacket.init.missing (by omega) (by omega)
  simp only [List.take_zero, List.nil_append, List.drop_zero, Nat.zero_add] at hcopy
  have htl : (segs.take (min segs.length MAX_MISSING_SEGMENTS)).length
      = min segs.length MAX_MISSING_SEGMENTS := by
    rw [List.length_take]; omega
  have htake : (segs.take (min segs.length MAX_MISSING_SEGMENTS)
        ++ RecMissPacket.init.missing.drop (min segs.length MAX_MISSING_SEGMENTS)).take
          (min segs.length MAX_MISSING_SEGMENTS)
      = segs.take (min segs.length MAX_MISSING_SEGMENTS) := by
    rw [List.take_append_of_le_length (by omega), List.take_take, Nat.min_self]
  have hser := rec_miss_serialize_fits
    { RecMissPacket.init with
      num_missing := min segs.length MAX_MISSING_SEGMENTS,
      missing := segs.take (min segs.length MAX_MISSING_SEGMENTS)
        ++ RecMissPacket.init.missing.drop (min segs.length MAX_MISSING_SEGMENTS) }
    MAX_UDP_PAYLOAD
    (by simp only [List.length_append, htl, List.length_drop, hlen]; omega)
    (by show 3 + 8 * min segs.length MAX_MISSING_SEGMENTS ≤ 65000; omega)
  simp only [htake] at hser
  have hbl : ([RecMissPacket.init.type] ++ le_bytes 2 (min segs.length MAX_MISSING_SEGMENTS)
        ++ segment_bytes (segs.take (min segs.length MAX_MISSING_SEGMENTS))).length
      = 3 + 8 * min segs.length MAX_MISSING_SEGMENTS := by
    simp only [List.length_append, List.length_singleton, le_bytes_length,
      segment_bytes_length, htl]
  refine ⟨segs,
    { RecMissPacket.init with
      num_missing := min segs.length MAX_MISSING_SEGMENTS,
      missing := segs.take (min segs.length MAX_MISSING_SEGMENTS)
        ++ RecMissPacket.init.missing.drop (min segs.length MAX_MISSING_SEGMENTS) },
    [RecMissPacket.init.type] ++ le_bytes 2 (min segs.length MAX_MISSING_SEGMENTS)
        ++ segment_bytes (segs.take (min segs.length MAX_MISSING_SEGMENTS)),
    hfind, ?_, rfl, rfl, htake, rfl, hbl, by
    show 3 + 8 * min segs.length MAX_MISSING_SEGMENTS ≤ 65000; omega⟩
  unfold FileReceiver.send_rec_miss
  rw [hfind, Outcome.bind_ok]
  simp only [hcopy, Outcome.bind_ok, hser]
  have hfin : ([RecMissPacket.init.type] ++ le_bytes 2 (min segs.length MAX_MISSING_SEGMENTS)
        ++ segment_bytes (segs.take (min segs.length MAX_MISSING_SEGMENTS))).take
          (3 + 8 * min segs.length MAX_MISSING_SEGMENTS)
      = [RecMissPacket.init.type] ++ le_bytes 2 (min segs.length MAX_MISSING_SEGMENTS)
        ++ segment_bytes (segs.take (min segs.length MAX_MISSING_SEGMENTS)) :=
    List.take_of_length_le (by rw [hbl])
  rw [hfin]

theorem send_rec_miss_reply_witness :
    ∃ segs pkt bytes,
      FileReceiver.find_missing_records 7
        { FileReceiver.init with
          total_records := 6,
          received_records := [false, true, false, false, true, false, true] } 1 6 = .ok segs ∧
      FileReceiver.send_rec_miss 7
        { FileReceiver.init with
          total_records := 6,
          received_records := [false, true, false, false, true, false, true] } 1 6
        = .ok (pkt, bytes) ∧
      pkt.type = REC_MISS ∧
      pkt.num_missing = min segs.length 1000 ∧
      pkt.missing.take pkt.num_missing = segs.take pkt.num_missing ∧
      bytes = [REC_MISS] ++ le_bytes 2 pkt.num_missing
                ++ segment_bytes (segs.take pkt.num_missing) ∧
      bytes.length = 3 + 8 * pkt.num_missing ∧
      3 + 8 * pkt.num_missing ≤ 65000 :=
  send_rec_miss_reply
    { FileReceiver.init with
      total_records := 6,
      received_records := [false, true, false, false, true, false, true] }
    6 1 6 7 (by decide) (by decide) (by decide) (by decide) (by decide)

/-- The record loop of `process_data_packet` keeps the length of the bitmap and
every entry that is true. -/
theorem absorb_records_mono (data : List Nat) (end_rec : Nat) :
    ∀ (fuel : Nat) (st : FileReceiver) (rec off : Nat) (r : FileReceiver × Nat),
      FileReceiver.absorb_records data end_rec fuel st rec off = .ok r →
      r.1.received_records.length = st.received_records.length ∧
      ∀ i : Nat, st.received_records[i]? = some true → r.1.received_records[i]? = some true := by
  intro fuel
  induction fuel with
  | zero => intro st rec off r h; simp [FileReceiver.absorb_records] at h
  | succ fuel ih =>
    intro st rec off r h
    unfold FileReceiver.absorb_records at h
    by_cases h1 : rec ≤ end_rec
    · rw [if_pos h1] at h
      by_cases h2 : 1 ≤ rec ∧ rec ≤ st.total_records
      · rw [if_pos h2] at h
        by_cases h3 : rec < st.record_buffer.length ∧ rec < st.received_records.length
            ∧ off + st.record_size ≤ data.length
        · rw [if_pos h3] at h
          obtain ⟨hl, hm⟩ := ih _ _ _ _ h
          refine ⟨by rw [hl]; simp, ?_⟩
          intro i hi
          apply hm
          show (st.received_records.set rec true)[i]? = some true
          rw [List.getElem?_set]
          by_cases hri : rec = i
          · subst hri; simp [h3.2.1]
          · rw [if_neg hri]; exact hi
        · rw [if_neg h3] at h; cases h
      · rw [if_neg h2] at h
        exact ih _ _ _ _ h
    · rw [if_neg h1] at h
      cases h
      exact ⟨rfl, fun _ hi => hi⟩

/-- The segment loop of `process_data_packet` keeps the length of the bitmap
and every entry that is true. -/
theorem absorb_segments_mono (pkt : DataPacket) (fuel : Nat) :
    ∀ (n i : Nat) (st : FileReceiver) (off : Nat) (st1 : FileReceiver),
      FileReceiver.absorb_segments pkt fuel n i st off = .ok st1 →
      st1.received_records.length = st.received_records.length ∧
      ∀ j : Nat, st.received_records[j]? = some true → st1.received_records[j]? = some true := by
  intro n
  induction n with
  | zero =>
    intro i st off st1 h
    simp only [FileReceiver.absorb_segments] at h
    cases h
    exact ⟨rfl, fun _ hj => hj⟩
  | succ n ih =>
    intro i st off st1 h
    unfold FileReceiver.absorb_segments at h
    cases hg : pkt.segments.get? i with
    | none => rw [hg] at h; cases h
    | some sg =>
      rw [hg] at h
      simp only at h
      cases hr : FileReceiver.absorb_records pkt.data sg.end_record fuel st sg.start_record off with
      | fault => rw [hr] at h; cases h
      | noFuel => rw [hr] at h; cases h
      | ok r =>
        rw [hr, Outcome.bind_ok] at h
        obtain ⟨hl1, hm1⟩ := absorb_records_mono _ _ _ _ _ _ _ hr
        obtain ⟨hl2, hm2⟩ := ih _ _ _ _ h
        exact ⟨by rw [hl2, hl1], fun j hj => hm2 j (hm1 j hj)⟩

/-- What `process_data_packet` leaves of the bitmap. -/
theorem process_data_packet_mono (fuel : Nat) (st st1 : FileReceiver) (buffer : List Nat)
    (h : FileReceiver.process_data_packet fuel st buffer = .ok st1) :
    st1.received_records.length = st.received_records.length ∧
    ∀ j : Nat, st.received_records[j]? = some true → st1.received_records[j]? = some true := by
  unfold FileReceiver.process_data_packet at h
  cases hd : DataPacket.deserialize DataPacket.init buffer with
  | fault => rw [hd] at h; cases h
  | noFuel => rw [hd] at h; cases h
  | ok r =>
    rw [hd, Outcome.bind_ok] at h
    exact absorb_segments_mono _ _ _ _ _ _ _ h

/-- The indices `find_missing_records` reports for a range inside the bitmap,
or for an empty range. -/
theorem find_missing_records_reported (st : FileReceiver) (T s e fuel : Nat)
    (hT : st.received_records.length = T + 1) (h32 : T + 1 < 4294967296)
    (he : e ≤ T ∨ e < s) (hfuel : e + 1 - s < fuel) :
    ∃ segs, st.find_missing_records fuel s e = .ok segs ∧
      ∀ i, (∃ sg ∈ segs, sg.start_record ≤ i ∧ i ≤ sg.end_record) ↔
        (s ≤ i ∧ i ≤ e ∧ st.received_records[i]? = some false) := by
  by_cases hse : e < s
  · refine ⟨[], find_missing_records_empty st s e fuel hse (by omega), ?_⟩
    intro i
    constructor
    · rintro ⟨sg, hsg, -⟩; cases hsg
    · rintro ⟨h1, h2, -⟩; omega
  · have heT : e ≤ T := by omega
    refine ⟨_, find_missing_records_eq st s e fuel (by omega) (by omega) (by omega) hfuel, ?_⟩
    intro i
    rw [missing_runs_cover st.received_records e (e + 1 - s) s 0 false (by omega) (by simp)]
    simp

/-- C20: when `process_data_packet` returns, the bitmap has the length it had
and every index whose entry was true still has a true entry; hence for every
range [s,e] inside the bitmap (or empty) `find_missing_records` returns before
and after the frame, and every index covered by a segment reported after the
frame is covered by a segment reported before it. -/
theorem process_data_packet_monotone (fuel : Nat) (st st1 : FileReceiver) (buffer : List Nat)
    (h : FileReceiver.process_data_packet fuel st buffer = .ok st1) :
    st1.received_records.length = st.received_records.length ∧
    (∀ i : Nat, st.received_records[i]? = some true → st1.received_records[i]? = some true) ∧
    (∀ T s e fuel2, st.received_records.length = T + 1 → T + 1 < 4294967296 →
      (e ≤ T ∨ e < s) → e + 1 - s < fuel2 →
      ∃ before after, st.find_missing_records fuel2 s e = .ok before ∧
        st1.find_missing_records fuel2 s e = .ok after ∧
        ∀ i, (∃ sg ∈ after, sg.start_record ≤ i ∧ i ≤ sg.end_record) →
          (∃ sg ∈ before, sg.start_record ≤ i ∧ i ≤ sg.end_record)) := by
  obtain ⟨hl, hm⟩ := process_data_packet_mono fuel st st1 buffer h
  refine ⟨hl, hm, ?_⟩
  intro T s e fuel2 hT h32 he hfuel
  obtain ⟨before, hb, hbc⟩ := find_missing_records_reported st T s e fuel2 hT h32 he hfuel
  obtain ⟨after, ha, hac⟩ :=
    find_missing_records_reported st1 T s e fuel2 (by rw [hl, hT]) h32 he hfuel
  refine ⟨before, after, hb, ha, ?_⟩
  intro i hi
  obtain ⟨h1, h2, h3⟩ := (hac i).mp hi
  apply (hbc i).mpr
  refine ⟨h1, h2, ?_⟩
  have hlt : i < st.received_records.length := by
    have : i < st1.received_records.length := by
      by_contra hc
      rw [List.getElem?_eq_none (by omega)] at h3
      cases h3
    omega
  cases hv : st.received_records[i]? with
  | none => rw [List.getElem?_eq_none_iff] at hv; omega
  | some b =>
    cases b with
    | false => rfl
    | true => rw [hm i hv] at h3; cases h3

theorem process_data_packet_monotone_witness :
    ({ FileReceiver.init with
       record_size := 2, total_records := 2,
       received_records := [false, true, true],
       record_buffer := [[], [1, 1], [9, 9]] } : FileReceiver).received_records.length
      = ({ FileReceiver.init with
           record_size := 2, total_records := 2,
           received_records := [false, true, false],
           record_buffer := [[], [1, 1], []] } : FileReceiver).received_records.length ∧
    (∀ i : Nat, ({ FileReceiver.init with
             record_size := 2, total_records := 2,
             received_records := [false, true, false],
             record_buffer := [[], [1, 1], []] } : FileReceiver).received_records[i]? = some true →
      ({ FileReceiver.init with
         record_size := 2, total_records := 2,
         received_records := [false, true, true],
         record_buffer := [[], [1, 1], [9, 9]] } : FileReceiver).received_records[i]?
        = some true) ∧
    (∀ T s e fuel2,
      ({ FileReceiver.init with
         record_size := 2, total_records := 2,
         received_records := [false, true, false],
         record_buffer := [[], [1, 1], []] } : FileReceiver).received_records.length = T + 1 →
      T + 1 < 4294967296 → (e ≤ T ∨ e < s) → e + 1 - s < fuel2 →
      ∃ before after,
        FileReceiver.find_missing_records fuel2
          { FileReceiver.init with
            record_size := 2, total_records := 2,
            received_records := [false, true, false],
            record_buffer := [[], [1, 1], []] } s e = .ok before ∧
        FileReceiver.find_missing_records fuel2
          { FileReceiver.init with
            record_size := 2, total_records := 2,
            received_records := [false, true, true],
            record_buffer := [[], [1, 1], [9, 9]] } s e = .ok after ∧
        ∀ i, (∃ sg ∈ after, sg.start_record ≤ i ∧ i ≤ sg.end_record) →
          (∃ sg ∈ before, sg.start_record ≤ i ∧ i ≤ sg.end_record)) :=
  process_data_packet_monotone 3
    { FileReceiver.init with
      record_size := 2, total_records := 2,
      received_records := [false, true, false],
      record_buffer := [[], [1, 1], []] }
    { FileReceiver.init with
      record_size := 2, total_records := 2,
      received_records := [false, true, true],
      record_buffer := [[], [1, 1], [9, 9]] }
    [3, 1, 2, 0, 0, 0, 2, 0, 0, 0, 9, 9] (by decide)

theorem read_le_append_right (buffer extra : List Nat) (offset n : Nat)
    (h : offset + n ≤ buffer.length) :
    read_le (buffer ++ extra) offset n = read_le buffer offset n := by
  unfold read_le
  rw [List.drop_append_of_le_length (by omega),
    List.take_append_of_le_length (by rw [List.length_drop]; omega)]

/-- With all the declared segments inside the datagram the segment loop of
`deserialize` does not look at what follows them, and it does not return 0. -/
theorem data_deserialize_segments_append (buffer extra : List Nat) :
    ∀ (n i offset : Nat) (segments : List Segment), offset + 8 * n ≤ buffer.length →
      DataPacket.deserialize_segments (buffer ++ extra) n i offset segments
          = DataPacket.deserialize_segments buffer n i offset segments ∧
      (DataPacket.deserialize_segments buffer n i offset segments = .fault ∨
        ∃ segs, DataPacket.deserialize_segments buffer n i offset segments
          = .ok (true, offset + 8 * n, segs)) := by
  intro n
  induction n with
  | zero =>
    intro i offset segments _
    exact ⟨rfl, Or.inr ⟨segments, rfl⟩⟩
  | succ n ih =>
    intro i offset segments h
    have h1 : ¬ (offset + 4 * 2 > (buffer ++ extra).length) := by
      rw [List.length_append]; omega
    have h2 : ¬ (offset + 4 * 2 > buffer.length) := by omega
    simp only [DataPacket.deserialize_segments, h1, h2, if_false]
    by_cases hi : i < segments.length
    · simp only [hi, if_true]
      rw [read_le_append_right _ _ _ _ (by omega), read_le_append_right _ _ _ _ (by omega)]
      obtain ⟨e1, e2⟩ := ih (i + 1) (offset + 4 + 4)
        (segments.set i ⟨read_le buffer offset 4, read_le buffer (offset + 4) 4⟩) (by omega)
      refine ⟨e1, ?_⟩
      rcases e2 with e2 | ⟨segs, e2⟩
      · exact Or.inl e2
      · refine Or.inr ⟨segs, ?_⟩
        rw [e2, show offset + 4 + 4 + 8 * n = offset + 8 * (n + 1) by omega]
    · simp only [hi, if_false]
      exact ⟨trivial, Or.inl trivial⟩

/-- The record loop of `process_data_packet` that returns on a payload returns
the same on the payload followed by more bytes. -/
theorem absorb_records_extend (data extra : List Nat) (end_rec : Nat) :
    ∀ (fuel : Nat) (st : FileReceiver) (rec off : Nat) (r : FileReceiver × Nat),
      FileReceiver.absorb_records data end_rec fuel st rec off = .ok r →
      FileReceiver.absorb_records (data ++ extra) end_rec fuel st rec off = .ok r := by
  intro fuel
  induction fuel with
  | zero => intro st rec off r h; simp [FileReceiver.absorb_records] at h
  | succ fuel ih =>
    intro st rec off r h
    unfold FileReceiver.absorb_records at h ⊢
    by_cases h1 : rec ≤ end_rec
    · rw [if_pos h1] at h ⊢
      by_cases h2 : 1 ≤ rec ∧ rec ≤ st.total_records
      · rw [if_pos h2] at h ⊢
        by_cases h3 : rec < st.record_buffer.length ∧ rec < st.received_records.length
            ∧ off + st.record_size ≤ data.length
        · rw [if_pos h3] at h
          rw [if_pos ⟨h3.1, h3.2.1, by rw [List.length_append]; omega⟩]
          rw [List.drop_append_of_le_length (by omega),
            List.take_append_of_le_length (by rw [List.length_drop]; omega)]
          exact ih _ _ _ _ h
        · rw [if_neg h3] at h; cases h
      · rw [if_neg h2] at h ⊢
        exact ih _ _ _ _ h
    · rw [if_neg h1] at h ⊢
      exact h

/-- The segment loop of `process_data_packet` that returns on a packet returns
the same when the payload of the packet is followed by more bytes. -/
theorem absorb_segments_extend (pkt : DataPacket) (extra : List Nat) (fuel : Nat) :
    ∀ (n i : Nat) (st : FileReceiver) (off : Nat) (st1 : FileReceiver),
      FileReceiver.absorb_segments pkt fuel n i st off = .ok st1 →
      FileReceiver.absorb_segments { pkt with data := pkt.data ++ extra } fuel n i st off
        = .ok st1 := by
  intro n
  induction n with
  | zero => intro i st off st1 h; exact h
  | succ n ih =>
    intro i st off st1 h
    unfold FileReceiver.absorb_segments at h ⊢
    cases hg : pkt.segments.get? i with
    | none => rw [hg] at h; cases h
    | some sg =>
      rw [hg] at h
      simp only [hg] at h ⊢
      cases hr : FileReceiver.absorb_records pkt.data sg.end_record fuel st sg.start_record off with
      | fault => rw [hr] at h; cases h
      | noFuel => rw [hr] at h; cases h
      | ok r =>
        rw [hr, Outcome.bind_ok] at h
        rw [absorb_records_extend _ extra _ _ _ _ _ _ hr, Outcome.bind_ok]
        exact ih _ _ _ _ h

/-- What `deserialize` leaves in a fresh packet when all the declared segments
are inside the datagram, and what it leaves when more bytes follow. -/
theorem data_deserialize_append (buffer extra : List Nat)
    (hlen : 2 + 8 * buffer.getD 1 0 ≤ buffer.length) :
    (DataPacket.deserialize DataPacket.init buffer = .fault ∧
      DataPacket.deserialize DataPacket.init (buffer ++ extra) = .fault) ∨
    ∃ n1 n2 pkt, DataPacket.deserialize DataPacket.init buffer = .ok (n1, pkt) ∧
      DataPacket.deserialize DataPacket.init (buffer ++ extra)
        = .ok (n2, { pkt with data := pkt.data ++ extra }) := by
  have h0 : ¬ (0 + 1 > buffer.length) := by omega
  have h1 : ¬ (1 + 1 > buffer.length) := by omega
  have h0e : ¬ (0 + 1 > (buffer ++ extra).length) := by rw [List.length_append]; omega
  have h1e : ¬ (1 + 1 > (buffer ++ extra).length) := by rw [List.length_append]; omega
  have g0 : (buffer ++ extra).getD 0 0 = buffer.getD 0 0 := by
    simp only [List.getD_eq_getElem?_getD]
    rw [List.getElem?_append_left (by omega)]
  have g1 : (buffer ++ extra).getD 1 0 = buffer.getD 1 0 := by
    simp only [List.getD_eq_getElem?_getD]
    rw [List.getElem?_append_left (by omega)]
  obtain ⟨e1, e2⟩ := data_deserialize_segments_append buffer extra (buffer.getD 1 0) 0 2
    DataPacket.init.segments (by omega)
  simp only [DataPacket.deserialize, h0, h1, h0e, h1e, if_false, g0, g1, e1]
  rcases e2 with e2 | ⟨segs, e2⟩
  · left
    rw [e2]
    exact ⟨rfl, rfl⟩
  · right
    rw [e2]
    simp only [Outcome.bind_ok, Bool.true_eq_false, if_false]
    by_cases hb : buffer.length > 2 + 8 * buffer.getD 1 0
    · rw [if_pos hb, if_pos (by rw [List.length_append]; omega)]
      refine ⟨buffer.length, (buffer ++ extra).length, _, rfl, ?_⟩
      rw [List.drop_append_of_le_length (by omega)]
    · rw [if_neg hb]
      have hd : buffer.drop (2 + 8 * buffer.getD 1 0) = [] :=
        List.drop_eq_nil_of_le (by omega)
      by_cases hx : (buffer ++ extra).length > 2 + 8 * buffer.getD 1 0
      · rw [if_pos hx]
        refine ⟨2 + 8 * buffer.getD 1 0, (buffer ++ extra).length, _, rfl, ?_⟩
        rw [List.drop_append_of_le_length (by omega), hd]
        rfl
      · rw [if_neg hx]
        have hnil : extra = [] := by
          rw [List.length_append] at hx
          exact List.eq_nil_of_length_eq_zero (by omega)
        subst hnil
        refine ⟨2 + 8 * buffer.getD 1 0, 2 + 8 * buffer.getD 1 0, _, rfl, ?_⟩
        simp [DataPacket.init]

set_option maxRecDepth 100000 in
/-- C11 (as stated, refuted): a receiver of one record of 256 bytes handles in
its blast loop a DATA datagram naming record 1 whose data region has 257
bytes, not a multiple of 256: record 1 is stored and its bitmap entry set. A
DATA datagram that declares two segments and holds one makes the receiver copy
a record from a payload that `deserialize` left empty. -/
theorem blast_loop_absorbs_misaligned_data :
    257 % 256 ≠ 0 ∧
    FileReceiver.blast_loop_body 2
        ⟨{ FileReceiver.init with
           file_size := 256, record_size := 256, total_records := 1,
           received_records := [false, false], record_buffer := [[], []] }, 1, true, []⟩
        ([3, 1, 1, 0, 0, 0, 1, 0, 0, 0] ++ List.replicate 257 7) 267
      = .ok (⟨{ FileReceiver.init with
                file_size := 256, record_size := 256, total_records := 1,
                received_records := [false, true],
                record_buffer := [[], List.replicate 256 7] }, 1, true, []⟩, false) ∧
    10 < 2 + 8 * 2 ∧
    FileReceiver.blast_loop_body 2
        ⟨{ FileReceiver.init with
           file_size := 256, record_size := 256, total_records := 1,
           received_records := [false, false], record_buffer := [[], []] }, 1, true, []⟩
        [3, 2, 1, 0, 0, 0, 1, 0, 0, 0] 10
      = .fault := by
  decide

/-- C11 (amended): the receiver does not compare the length of the data region
with R. When a DATA datagram that holds all the segments it declares is
absorbed, the same datagram followed by any further bytes is absorbed in the
same way and gives the same state: bytes in excess of whole records are not
looked at and the datagram is not dropped. -/
theorem process_data_packet_ignores_excess (fuel : Nat) (st st1 : FileReceiver)
    (buffer extra : List Nat) (hlen : 2 + 8 * buffer.getD 1 0 ≤ buffer.length)
    (h : FileReceiver.process_data_packet fuel st buffer = .ok st1) :
    FileReceiver.process_data_packet fuel st (buffer ++ extra) = .ok st1 := by
  unfold FileReceiver.process_data_packet at h ⊢
  rcases data_deserialize_append buffer extra hlen with ⟨e1, -⟩ | ⟨n1, n2, pkt, e1, e2⟩
  · rw [e1] at h; cases h
  · rw [e1, Outcome.bind_ok] at h
    rw [e2, Outcome.bind_ok]
    exact absorb_segments_extend pkt extra fuel _ _ _ _ _ h

set_option maxRecDepth 100000 in
theorem process_data_packet_ignores_excess_witness :
    FileReceiver.process_data_packet 2
        { FileReceiver.init with
          file_size := 256, record_size := 256, total_records := 1,
          received_records := [false, false], record_buffer := [[], []] }
        (([3, 1, 1, 0, 0, 0, 1, 0, 0, 0] ++ List.replicate 256 7) ++ [8, 8, 8])
      = .ok { FileReceiver.init with
              file_size := 256, record_size := 256, total_records := 1,
              received_records := [false, true],
              record_buffer := [[], List.replicate 256 7] } :=
  process_data_packet_ignores_excess 2 _ _ _ [8, 8, 8] (by decide) (by decide)

/-- `send_rec_miss` returns whenever `find_missing_records` does. -/
theorem send_rec_miss_returns (st : FileReceiver) (fuel s e : Nat) (segs : List Segment)
    (hfind : st.find_missing_records fuel s e = .ok segs) :
    ∃ m, st.send_rec_miss fuel s e = .ok m := by
  have hn : min segs.length MAX_MISSING_SEGMENTS ≤ 1000 := Nat.min_le_right _ _
  have hn2 : min segs.length MAX_MISSING_SEGMENTS ≤ segs.length := Nat.min_le_left _ _
  have hlen : RecMissPacket.init.missing.length = 1000 := List.length_replicate _ _
  have hcopy := copy_missing_eq segs (min segs.length MAX_MISSING_SEGMENTS) 0
    RecMissPacket.init.missing (by omega) (by omega)
  simp only [List.take_zero, List.nil_append, List.drop_zero, Nat.zero_add] at hcopy
  have htl : (segs.take (min segs.length MAX_MISSING_SEGMENTS)).length
      = min segs.length MAX_MISSING_SEGMENTS := by
    rw [List.length_take]; omega
  have hser := rec_miss_serialize_fits
    { RecMissPacket.init with
      num_missing := min segs.length MAX_MISSING_SEGMENTS,
      missing := segs.take (min segs.length MAX_MISSING_SEGMENTS)
        ++ RecMissPacket.init.missing.drop (min segs.length MAX_MISSING_SEGMENTS) }
    MAX_UDP_PAYLOAD
    (by simp only [List.length_append, htl, List.length_drop, hlen]; omega)
    (by show 3 + 8 * min segs.length MAX_MISSING_SEGMENTS ≤ 65000; omega)
  unfold FileReceiver.send_rec_miss
  rw [hfind, Outcome.bind_ok]
  simp only [hcopy, Outcome.bind_ok, hser]
  exact ⟨_, rfl⟩

/-- For a range inside the bitmap, or an empty one, `find_missing_records`
returns, and it returns the empty list exactly when every entry of the range is
true. -/
theorem find_missing_records_none (st : FileReceiver) (T s e fuel : Nat)
    (hT : st.received_records.length = T + 1) (h32 : T + 1 < 4294967296)
    (he : e ≤ T ∨ e < s) (hfuel : e + 1 - s < fuel) :
    ∃ segs, st.find_missing_records fuel s e = .ok segs ∧
      (segs = [] ↔ ∀ i : Nat, s ≤ i → i ≤ e → st.received_records[i]? = some true) := by
  by_cases hse : e < s
  · refine ⟨[], find_missing_records_empty st s e fuel hse (by omega), ?_⟩
    exact ⟨fun _ i h1 h2 => by omega, fun _ => rfl⟩
  · have heT : e ≤ T := by omega
    refine ⟨_, find_missing_records_eq st s e fuel (by omega) (by omega) (by omega) hfuel, ?_⟩
    have hcov := missing_runs_cover st.received_records e (e + 1 - s) s 0 false (by omega)
      (by simp)
    have hbnd := missing_runs_bounds st.received_records e (e + 1 - s) s 0 false (by omega)
      (by simp)
    constructor
    · intro hnil i h1 h2
      have hlt : i < st.received_records.length := by omega
      cases hv : st.received_records[i]? with
      | none => rw [List.getElem?_eq_none_iff] at hv; omega
      | some b =>
        cases b with
        | true => rfl
        | false =>
          have := (hcov i).mpr (Or.inr ⟨h1, h2, hv⟩)
          rw [hnil] at this
          obtain ⟨sg, hsg, -⟩ := this
          cases hsg
    · intro hall
      cases hm : missing_runs st.received_records e (e + 1 - s) s false 0 with
      | nil => rfl
      | cons sg rest =>
        have hmem : sg ∈ missing_runs st.received_records e (e + 1 - s) s false 0 := by
          rw [hm]; exact List.mem_cons_self _ _
        have hb := hbnd sg hmem
        simp only [Bool.false_eq_true, if_false] at hb
        have hc := (hcov sg.start_record).mp ⟨sg, hmem, le_refl _, hb.2.1⟩
        rcases hc with ⟨hc, -⟩ | ⟨h1, h2, h3⟩
        · cases hc
        · rw [hall _ h1 h2] at h3
          cases h3

/-- C19: in the data phase a datagram whose first byte is the FILE_HDR tag,
whatever else it holds, makes the receiver send exactly one datagram, the
single byte 2 that `process_file_hdr` sent as the first FILE_HDR_ACK; the
bitmap, the stored records, file_size, record_size, total_records and the
output filename are unchanged and the receiver stays in the data phase. -/
theorem blast_phase_file_hdr_idempotent (fuel : Nat) (r : ReceiverRun) (buffer : List Nat)
    (size : Nat) (htag : buffer.getD 0 0 = FILE_HDR) :
    FileReceiver.blast_phase_datagram fuel r buffer size
      = .ok ({ r with sent := r.sent ++ [[2]] }, false) ∧
    (∀ (st0 st1 : FileReceiver) (first : List Nat) (out : List (List Nat)),
      st0.process_file_hdr first = .ok (st1, out) → out = [[2]]) := by
  constructor
  · unfold FileReceiver.blast_phase_datagram FileReceiver.blast_loop_body
    simp only [htag]
    rfl
  · intro st0 st1 first out h
    unfold FileReceiver.process_file_hdr at h
    simp only at h
    split at h
    · cases h
    · split at h
      · cases h
      · cases h
        rfl

theorem blast_phase_file_hdr_idempotent_witness :
    FileReceiver.blast_phase_datagram 1
        ⟨{ FileReceiver.init with
           file_size := 300, record_size := 256, total_records := 2,
           received_records := [false, true, false],
           record_buffer := [[], List.replicate 256 7, []] }, 1, true, [[2]]⟩
        [1, 9, 9, 9] 4
      = .ok ({ (⟨{ FileReceiver.init with
                  file_size := 300, record_size := 256, total_records := 2,
                  received_records := [false, true, false],
                  record_buffer := [[], List.replicate 256 7, []] }, 1, true, [[2]]⟩
                : ReceiverRun) with
               sent := [[2]] ++ [[2]] }, false) ∧
    (∀ (st0 st1 : FileReceiver) (first : List Nat) (out : List (List Nat)),
      st0.process_file_hdr first = .ok (st1, out) → out = [[2]]) :=
  blast_phase_file_hdr_idempotent 1 _ [1, 9, 9, 9] 4 (by decide)

/-- C18: a receiver in the data phase (connection active, bitmap of T + 1
entries for its T records) and one datagram. The phase is left for LINGER when
the tag is DISCONNECT; for IS_BLAST_OVER(s, e) with s, e ≤ T the datagram is
handled and the phase is left exactly when every entry of [s,e] is true and
e ≥ T; a DATA datagram never makes the receiver leave, and a FILE_HDR or a
datagram of unknown tag is handled and leaves it in the phase. -/
theorem blast_phase_completion (fuel : Nat) (r : ReceiverRun) (buffer : List Nat)
    (size T : Nat) (hT : r.st.received_records.length = T + 1)
    (hTr : r.st.total_records = T) (h32 : T + 1 < 4294967296)
    (hact : r.connection_active = true) :
    (buffer.getD 0 0 = DISCONNECT →
      ∃ r1, FileReceiver.blast_phase_datagram fuel r buffer size = .ok (r1, true)) ∧
    (buffer.getD 0 0 = IS_BLAST_OVER →
      (BlastOverPacket.deserialize buffer).2.start_record ≤ T →
      (BlastOverPacket.deserialize buffer).2.end_record ≤ T →
      (BlastOverPacket.deserialize buffer).2.end_record + 1
        - (BlastOverPacket.deserialize buffer).2.start_record < fuel →
      ∃ r1 leaves, FileReceiver.blast_phase_datagram fuel r buffer size = .ok (r1, leaves) ∧
        (leaves = true ↔
          ((∀ i : Nat, (BlastOverPacket.deserialize buffer).2.start_record ≤ i →
              i ≤ (BlastOverPacket.deserialize buffer).2.end_record →
              r.st.received_records[i]? = some true) ∧
            (BlastOverPacket.deserialize buffer).2.end_record ≥ T))) ∧
    (buffer.getD 0 0 = DATA →
      ∀ x, FileReceiver.blast_phase_datagram fuel r buffer size = .ok x → x.2 = false) ∧
    (buffer.getD 0 0 ≠ DATA → buffer.getD 0 0 ≠ IS_BLAST_OVER →
      buffer.getD 0 0 ≠ DISCONNECT →
      ∃ r1, FileReceiver.blast_phase_datagram fuel r buffer size = .ok (r1, false)) := by
  refine ⟨?_, ?_, ?_, ?_⟩
  · intro htag
    unfold FileReceiver.blast_phase_datagram FileReceiver.blast_loop_body
    simp only [htag]
    exact ⟨_, rfl⟩
  · intro htag hs he hfuel
    obtain ⟨segs, hfind, hnone⟩ := find_missing_records_none r.st T
      (BlastOverPacket.deserialize buffer).2.start_record
      (BlastOverPacket.deserialize buffer).2.end_record fuel hT h32 (Or.inl he) hfuel
    obtain ⟨m, hm⟩ := send_rec_miss_returns r.st fuel _ _ segs hfind
    have hbody : FileReceiver.blast_loop_body fuel r buffer size
        = (if segs.isEmpty = true then
            if (BlastOverPacket.deserialize buffer).2.end_record ≥ r.st.total_records then
              .ok ({ r with
                     sent := r.sent ++ [m.2],
                     expected_blast_start :=
                       ((BlastOverPacket.deserialize buffer).2.end_record + 1)
                         % 4294967296 }, true)
            else
              .ok ({ r with
                     sent := r.sent ++ [m.2],
                     expected_blast_start :=
                       ((BlastOverPacket.deserialize buffer).2.end_record + 1)
                         % 4294967296 }, false)
          else .ok ({ r with sent := r.sent ++ [m.2] }, false)) := by
      unfold FileReceiver.blast_loop_body
      simp only [htag]
      rw [if_neg (show ¬ (IS_BLAST_OVER = DATA) by decide), if_pos trivial, hm, Outcome.bind_ok,
        hfind, Outcome.bind_ok]
    unfold FileReceiver.blast_phase_datagram
    rw [hbody]
    by_cases hempty : segs = []
    · have hall := hnone.mp hempty
      rw [hempty]
      simp only [List.isEmpty_nil, if_true]
      by_cases hge : (BlastOverPacket.deserialize buffer).2.end_record ≥ r.st.total_records
      · have hlt : r.st.total_records
            < ((BlastOverPacket.deserialize buffer).2.end_record + 1) % 4294967296 := by
          rw [hTr] at hge ⊢; omega
        rw [if_pos hge]
        simp only [Outcome.bind_ok, if_true]
        refine ⟨_, _, rfl, ?_⟩
        simp only [hact, Bool.not_true, Bool.false_or, decide_eq_true_eq]
        rw [hTr] at hge
        exact ⟨fun _ => ⟨hall, hge⟩, fun _ => hlt⟩
      · rw [if_neg hge]
        simp only [Outcome.bind_ok, Bool.false_eq_true, if_false]
        refine ⟨_, _, rfl, ?_⟩
        rw [hTr] at hge
        exact ⟨fun h => (by cases h), fun h => absurd h.2 hge⟩
    · have hne : segs.isEmpty = false := by
        cases segs with
        | nil => exact absurd rfl hempty
        | cons a l => rfl
      rw [hne]
      simp only [Bool.false_eq_true, if_false, Outcome.bind_ok]
      refine ⟨_, _, rfl, ?_⟩
      exact ⟨fun h => (by cases h), fun h => absurd (hnone.mpr h.1) hempty⟩
  · intro htag x hx
    unfold FileReceiver.blast_phase_datagram FileReceiver.blast_loop_body at hx
    simp only [htag, if_true] at hx
    cases hp : FileReceiver.process_data_packet fuel r.st (buffer.take size) with
    | fault => rw [hp] at hx; cases hx
    | noFuel => rw [hp] at hx; cases hx
    | ok st1 =>
      rw [hp] at hx
      simp only [Outcome.bind_ok, Bool.false_eq_true, if_false] at hx
      cases hx
      rfl
  · intro h1 h2 h3
    unfold FileReceiver.blast_phase_datagram FileReceiver.blast_loop_body
    simp only [h1, h2, h3, if_false]
    by_cases h4 : buffer.getD 0 0 = FILE_HDR
    · simp only [h4, if_true, Outcome.bind_ok, Bool.false_eq_true, if_false]
      exact ⟨_, rfl⟩
    · simp only [h4, if_false, Outcome.bind_ok, Bool.false_eq_true]
      exact ⟨_, rfl⟩

theorem blast_phase_completion_witness :
    ([4, 1, 0, 0, 0, 2, 0, 0, 0].getD 0 0 = DISCONNECT →
      ∃ r1, FileReceiver.blast_phase_datagram 5
        (⟨{ FileReceiver.init with
          record_size := 2, total_records := 2,
          received_records := [false, true, true],
          record_buffer := [[], [1, 1], [9, 9]] }, 1, true, []⟩ : ReceiverRun)
        [4, 1, 0, 0, 0, 2, 0, 0, 0] 9 = .ok (r1, true)) ∧
    ([4, 1, 0, 0, 0, 2, 0, 0, 0].getD 0 0 = IS_BLAST_OVER →
      (BlastOverPacket.deserialize [4, 1, 0, 0, 0, 2, 0, 0, 0]).2.start_record ≤ 2 →
      (BlastOverPacket.deserialize [4, 1, 0, 0, 0, 2, 0, 0, 0]).2.end_record ≤ 2 →
      (BlastOverPacket.deserialize [4, 1, 0, 0, 0, 2, 0, 0, 0]).2.end_record + 1
        - (BlastOverPacket.deserialize [4, 1, 0, 0, 0, 2, 0, 0, 0]).2.start_record < 5 →
      ∃ r1 leaves, FileReceiver.blast_phase_datagram 5
        (⟨{ FileReceiver.init with
          record_size := 2, total_records := 2,
          received_records := [false, true, true],
          record_buffer := [[], [1, 1], [9, 9]] }, 1, true, []⟩ : ReceiverRun)
        [4, 1, 0, 0, 0, 2, 0, 0, 0] 9 = .ok (r1, leaves) ∧
        (leaves = true ↔
          ((∀ i : Nat, (BlastOverPacket.deserialize [4, 1, 0, 0, 0, 2, 0, 0, 0]).2.start_record ≤ i →
              i ≤ (BlastOverPacket.deserialize [4, 1, 0, 0, 0, 2, 0, 0, 0]).2.end_record →
              (⟨{ FileReceiver.init with
          record_size := 2, total_records := 2,
          received_records := [false, true, true],
          record_buffer := [[], [1, 1], [9, 9]] }, 1, true, []⟩ : ReceiverRun).st.received_records[i]? = some true) ∧
            (BlastOverPacket.deserialize [4, 1, 0, 0, 0, 2, 0, 0, 0]).2.end_record ≥ 2))) ∧
    ([4, 1, 0, 0, 0, 2, 0, 0, 0].getD 0 0 = DATA →
      ∀ x, FileReceiver.blast_phase_datagram 5
        (⟨{ FileReceiver.init with
          record_size := 2, total_records := 2,
          received_records := [false, true, true],
          record_buffer := [[], [1, 1], [9, 9]] }, 1, true, []⟩ : ReceiverRun)
        [4, 1, 0, 0, 0, 2, 0, 0, 0] 9 = .ok x → x.2 = false) ∧
    ([4, 1, 0, 0, 0, 2, 0, 0, 0].getD 0 0 ≠ DATA → [4, 1, 0, 0, 0, 2, 0, 0, 0].getD 0 0 ≠ IS_BLAST_OVER →
      [4, 1, 0, 0, 0, 2, 0, 0, 0].getD 0 0 ≠ DISCONNECT →
      ∃ r1, FileReceiver.blast_phase_datagram 5
        (⟨{ FileReceiver.init with
          record_size := 2, total_records := 2,
          received_records := [false, true, true],
          record_buffer := [[], [1, 1], [9, 9]] }, 1, true, []⟩ : ReceiverRun)
        [4, 1, 0, 0, 0, 2, 0, 0, 0] 9 = .ok (r1, false)) :=
  blast_phase_completion 5
    (⟨{ FileReceiver.init with
          record_size := 2, total_records := 2,
          received_records := [false, true, true],
          record_buffer := [[], [1, 1], [9, 9]] }, 1, true, []⟩ : ReceiverRun)
    [4, 1, 0, 0, 0, 2, 0, 0, 0] 9 2 (by decide) (by decide) (by decide) (by decide)

/-- A control datagram handed to `send_packet`: one more call of `sendto`, one
more event, no call of the loss hook and no receive. -/
theorem send_packet_control (env : SenderEnv) (s : SenderRun) (request : List Nat) :
    (FileSender.send_packet env s request false).1.recvs = s.recvs ∧
    (FileSender.send_packet env s request false).1.drops = s.drops ∧
    (FileSender.send_packet env s request false).1.sendtos = s.sendtos + 1 ∧
    (FileSender.send_packet env s request false).1.events
      = s.events ++ [SenderEvent.sendto request (env.sendto_ok s.sendtos)] := by
  unfold FileSender.send_packet
  cases hok : env.sendto_ok s.sendtos <;> simp [hok]

/-- One attempt of a request/response turn: the state after the request was
sent and the wait is over. -/
theorem attempt_state (env : SenderEnv) (s : SenderRun) (request : List Nat) :
    (FileSender.recv_packet_timeout env
        (FileSender.send_packet env s request false).1).1.recvs = s.recvs + 1 ∧
    (FileSender.recv_packet_timeout env
        (FileSender.send_packet env s request false).1).1.drops = s.drops ∧
    (FileSender.recv_packet_timeout env
        (FileSender.send_packet env s request false).1).1.sendtos = s.sendtos + 1 ∧
    (FileSender.recv_packet_timeout env
        (FileSender.send_packet env s request false).1).1.events
      = s.events ++ [SenderEvent.sendto request (env.sendto_ok s.sendtos)] ∧
    (FileSender.recv_packet_timeout env
        (FileSender.send_packet env s request false).1).1.sender.file_records
      = s.sender.file_records := by
  obtain ⟨h1, h2, h3, h4⟩ := send_packet_control env s request
  refine ⟨?_, ?_, ?_, ?_, ?_⟩
  · show (FileSender.send_packet env s request false).1.recvs + 1 = _
    rw [h1]
  · exact h2
  · exact h3
  · exact h4
  · unfold FileSender.send_packet
    cases hok : env.sendto_ok s.sendtos <;> simp [FileSender.recv_packet_timeout, hok]

/-- What a wait yields is a datagram whose tag byte is the one of `SenderEnv.tag`,
or nothing when that is `none`. -/
theorem recv_packet_timeout_tag (env : SenderEnv) (s : SenderRun) :
    (env.tag s.recvs = none ∧ (FileSender.recv_packet_timeout env s).2 = none) ∨
    ∃ b d, env.tag s.recvs = some b ∧ env.recv s.recvs = some d ∧
      (FileSender.recv_packet_timeout env s).2 = some (b, d.take MAX_UDP_PAYLOAD) := by
  unfold FileSender.recv_packet_timeout SenderEnv.tag
  cases hr : env.recv s.recvs with
  | none => left; simp
  | some d => right; exact ⟨_, d, rfl, rfl, by simp⟩

/-- The handshake loop succeeds at the first wait that yields the tag
FILE_HDR_ACK, the request having gone to `sendto` once per wait. -/
theorem file_header_attempts_success (env : SenderEnv) (request : List Nat) :
    ∀ (k n : Nat) (s : SenderRun), k < n →
      env.tag (s.recvs + k) = some FILE_HDR_ACK →
      (∀ j, j < k → env.tag (s.recvs + j) ≠ some FILE_HDR_ACK) →
      ∃ s1, FileSender.file_header_attempts env request n s = (s1, true) ∧
        s1.recvs = s.recvs + (k + 1) ∧ s1.sendtos = s.sendtos + (k + 1) ∧
        s1.drops = s.drops ∧
        s1.events = s.events ++ request_events env request s.sendtos (k + 1) := by
  intro k
  induction k with
  | zero =>
    intro n s hn htag _
    obtain ⟨n, rfl⟩ : ∃ m, n = m + 1 := ⟨n - 1, by omega⟩
    obtain ⟨a1, a2, a3, a4, -⟩ := attempt_state env s request
    have hrecvs := (send_packet_control env s request).1
    simp only [FileSender.file_header_attempts]
    rcases recv_packet_timeout_tag env (FileSender.send_packet env s request false).1 with
      ⟨h1, -⟩ | ⟨b, d, h1, -, h3⟩
    · rw [hrecvs] at h1; rw [Nat.add_zero, h1] at htag; cases htag
    · rw [hrecvs] at h1; rw [Nat.add_zero, h1] at htag
      cases htag
      rw [h3]
      simp only [if_true]
      exact ⟨_, rfl, a1, a3, a2, by rw [a4]; rfl⟩
  | succ k ih =>
    intro n s hn htag hfirst
    obtain ⟨n, rfl⟩ : ∃ m, n = m + 1 := ⟨n - 1, by omega⟩
    obtain ⟨a1, a2, a3, a4, -⟩ := attempt_state env s request
    have hrecvs := (send_packet_control env s request).1
    have h0 := hfirst 0 (by omega)
    rw [Nat.add_zero] at h0
    obtain ⟨s1, e1, e2, e3, e4, e5⟩ := ih n
      (FileSender.recv_packet_timeout env (FileSender.send_packet env s request false).1).1
      (by omega)
      (by rw [a1, show s.recvs + 1 + k = s.recvs + (k + 1) by omega]; exact htag)
      (fun j hj => by
        rw [a1, show s.recvs + 1 + j = s.recvs + (j + 1) by omega]
        exact hfirst (j + 1) (by omega))
    have hrec : FileSender.file_header_attempts env request n
        (FileSender.recv_packet_timeout env (FileSender.send_packet env s request false).1).1
        = (s1, true) := e1
    have hgoal : FileSender.file_header_attempts env request (n + 1) s = (s1, true) := by
      simp only [FileSender.file_header_attempts]
      rcases recv_packet_timeout_tag env (FileSender.send_packet env s request false).1 with
        ⟨-, h2⟩ | ⟨b, d, h1, -, h3⟩
      · rw [h2]; exact hrec
      · rw [hrecvs] at h1
        have hb : b ≠ FILE_HDR_ACK := fun hb => h0 (by rw [h1, hb])
        rw [h3]
        simp only [hb, if_false]
        exact hrec
    refine ⟨s1, hgoal, by rw [e2, a1]; omega, by rw [e3, a3]; omega, by rw [e4, a2], ?_⟩
    rw [e5, a4, a3, List.append_assoc]
    rfl

/-- The handshake loop fails after `n` requests when none of its `n` waits
yields the tag FILE_HDR_ACK. -/
theorem file_header_attempts_failure (env : SenderEnv) (request : List Nat) :
    ∀ (n : Nat) (s : SenderRun),
      (∀ j, j < n → env.tag (s.recvs + j) ≠ some FILE_HDR_ACK) →
      ∃ s1, FileSender.file_header_attempts env request n s = (s1, false) ∧
        s1.recvs = s.recvs + n ∧ s1.sendtos = s.sendtos + n ∧ s1.drops = s.drops ∧
        s1.events = s.events ++ request_events env request s.sendtos n := by
  intro n
  induction n with
  | zero =>
    intro s _
    exact ⟨s, rfl, rfl, rfl, rfl, by simp [request_events]⟩
  | succ n ih =>
    intro s hfirst
    obtain ⟨a1, a2, a3, a4, -⟩ := attempt_state env s request
    have hrecvs := (send_packet_control env s request).1
    have h0 := hfirst 0 (by omega)
    rw [Nat.add_zero] at h0
    obtain ⟨s1, e1, e2, e3, e4, e5⟩ := ih
      (FileSender.recv_packet_timeout env (FileSender.send_packet env s request false).1).1
      (fun j hj => by
        rw [a1, show s.recvs + 1 + j = s.recvs + (j + 1) by omega]
        exact hfirst (j + 1) (by omega))
    have hgoal : FileSender.file_header_attempts env request (n + 1) s = (s1, false) := by
      simp only [FileSender.file_header_attempts]
      rcases recv_packet_timeout_tag env (FileSender.send_packet env s request false).1 with
        ⟨-, h2⟩ | ⟨b, d, h1, -, h3⟩
      · rw [h2]; exact e1
      · rw [hrecvs] at h1
        have hb : b ≠ FILE_HDR_ACK := fun hb => h0 (by rw [h1, hb])
        rw [h3]
        simp only [hb, if_false]
        exact e1
    refine ⟨s1, hgoal, by rw [e2, a1]; omega, by rw [e3, a3]; omega, by rw [e4, a2], ?_⟩
    rw [e5, a4, a3, List.append_assoc]
    rfl

/-- The segment loop of `RecMissPacket::deserialize` on an array of a thousand
segments stays inside the array. -/
theorem rec_miss_deserialize_segments_total (buffer : List Nat) :
    ∀ (n i offset : Nat) (missing : List Segment), missing.length = MAX_MISSING_SEGMENTS →
      ∃ r, RecMissPacket.deserialize_segments buffer n i offset missing = .ok r := by
  intro n
  induction n with
  | zero => intro i offset missing _; exact ⟨_, rfl⟩
  | succ n ih =>
    intro i offset missing hlen
    unfold RecMissPacket.deserialize_segments
    by_cases h1 : i < MAX_MISSING_SEGMENTS
    · rw [if_pos h1]
      by_cases h2 : offset + 4 * 2 > buffer.length
      · rw [if_pos h2]; exact ⟨_, rfl⟩
      · rw [if_neg h2, if_pos (by rw [hlen]; exact h1)]
        exact ih _ _ _ (by rw [List.length_set]; exact hlen)
    · rw [if_neg h1]; exact ⟨_, rfl⟩

/-- `RecMissPacket::deserialize` into a fresh packet returns on every datagram. -/
theorem rec_miss_deserialize_total (buffer : List Nat) :
    ∃ x, RecMissPacket.deserialize RecMissPacket.init buffer = .ok x := by
  unfold RecMissPacket.deserialize
  simp only
  split
  · exact ⟨_, rfl⟩
  · split
    · exact ⟨_, rfl⟩
    · obtain ⟨r, hr⟩ := rec_miss_deserialize_segments_total buffer (read_le buffer 1 2) 0 3
        RecMissPacket.init.missing (List.length_replicate _ _)
      rw [hr, Outcome.bind_ok]
      split
      · exact ⟨_, rfl⟩
      · exact ⟨_, rfl⟩

/-- The IS_BLAST_OVER loop succeeds at the first wait that yields the tag
REC_MISS, with the packet `deserialize` leaves for that datagram, the request
having gone to `sendto` once per wait. -/
theorem blast_over_attempts_success (env : SenderEnv) (request : List Nat) :
    ∀ (k n : Nat) (s : SenderRun), k < n →
      env.tag (s.recvs + k) = some REC_MISS →
      (∀ j, j < k → env.tag (s.recvs + j) ≠ some REC_MISS) →
      ∃ s1 d x, env.recv (s.recvs + k) = some d ∧
        RecMissPacket.deserialize RecMissPacket.init (d.take MAX_UDP_PAYLOAD) = .ok x ∧
        FileSender.blast_over_attempts env request n s = .ok (s1, some x.2) ∧
        s1.recvs = s.recvs + (k + 1) ∧ s1.sendtos = s.sendtos + (k + 1) ∧
        s1.drops = s.drops ∧
        s1.events = s.events ++ request_events env request s.sendtos (k + 1) ∧
        s1.sender.file_records = s.sender.file_records := by
  intro k
  induction k with
  | zero =>
    intro n s hn htag _
    obtain ⟨n, rfl⟩ : ∃ m, n = m + 1 := ⟨n - 1, by omega⟩
    obtain ⟨a1, a2, a3, a4, a5⟩ := attempt_state env s request
    have hrecvs := (send_packet_control env s request).1
    simp only [FileSender.blast_over_attempts]
    rcases recv_packet_timeout_tag env (FileSender.send_packet env s request false).1 with
      ⟨h1, -⟩ | ⟨b, d, h1, h2, h3⟩
    · rw [hrecvs] at h1; rw [Nat.add_zero, h1] at htag; cases htag
    · rw [hrecvs] at h1 h2; rw [Nat.add_zero, h1] at htag
      cases htag
      obtain ⟨x, hx⟩ := rec_miss_deserialize_total (d.take MAX_UDP_PAYLOAD)
      rw [h3]
      simp only [if_true, hx, Outcome.bind_ok]
      exact ⟨_, d, x, h2, hx, rfl, a1, a3, a2, by rw [a4]; rfl, a5⟩
  | succ k ih =>
    intro n s hn htag hfirst
    obtain ⟨n, rfl⟩ : ∃ m, n = m + 1 := ⟨n - 1, by omega⟩
    obtain ⟨a1, a2, a3, a4, a5⟩ := attempt_state env s request
    have hrecvs := (send_packet_control env s request).1
    have h0 := hfirst 0 (by omega)
    rw [Nat.add_zero] at h0
    obtain ⟨s1, d, x, e0, ex, e1, e2, e3, e4, e5, e6⟩ := ih n
      (FileSender.recv_packet_timeout env (FileSender.send_packet env s request false).1).1
      (by omega)
      (by rw [a1, show s.recvs + 1 + k = s.recvs + (k + 1) by omega]; exact htag)
      (fun j hj => by
        rw [a1, show s.recvs + 1 + j = s.recvs + (j + 1) by omega]
        exact hfirst (j + 1) (by omega))
    have hgoal : FileSender.blast_over_attempts env request (n + 1) s = .ok (s1, some x.2) := by
      simp only [FileSender.blast_over_attempts]
      rcases recv_packet_timeout_tag env (FileSender.send_packet env s request false).1 with
        ⟨-, h2⟩ | ⟨b, d, h1, -, h3⟩
      · rw [h2]; exact e1
      · rw [hrecvs] at h1
        have hb : b ≠ REC_MISS := fun hb => h0 (by rw [h1, hb])
        rw [h3]
        simp only [hb, if_false]
        exact e1
    rw [a1, show s.recvs + 1 + k = s.recvs + (k + 1) by omega] at e0
    refine ⟨s1, d, x, e0, ex, hgoal, by rw [e2, a1]; omega, by rw [e3, a3]; omega,
      by rw [e4, a2], ?_, by rw [e6, a5]⟩
    rw [e5, a4, a3, List.append_assoc]
    rfl

/-- The IS_BLAST_OVER loop fails after `n` requests when none of its `n` waits
yields the tag REC_MISS. -/
theorem blast_over_attempts_failure (env : SenderEnv) (request : List Nat) :
    ∀ (n : Nat) (s : SenderRun),
      (∀ j, j < n → env.tag (s.recvs + j) ≠ some REC_MISS) →
      ∃ s1, FileSender.blast_over_attempts env request n s = .ok (s1, none) ∧
        s1.recvs = s.recvs + n ∧ s1.sendtos = s.sendtos + n ∧ s1.drops = s.drops ∧
        s1.events = s.events ++ request_events env request s.sendtos n := by
  intro n
  induction n with
  | zero =>
    intro s _
    exact ⟨s, rfl, rfl, rfl, rfl, by simp [request_events]⟩
  | succ n ih =>
    intro s hfirst
    obtain ⟨a1, a2, a3, a4, -⟩ := attempt_state env s request
    have hrecvs := (send_packet_control env s request).1
    have h0 := hfirst 0 (by omega)
    rw [Nat.add_zero] at h0
    obtain ⟨s1, e1, e2, e3, e4, e5⟩ := ih
      (FileSender.recv_packet_timeout env (FileSender.send_packet env s request false).1).1
      (fun j hj => by
        rw [a1, show s.recvs + 1 + j = s.recvs + (j + 1) by omega]
        exact hfirst (j + 1) (by omega))
    have hgoal : FileSender.blast_over_attempts env request (n + 1) s = .ok (s1, none) := by
      simp only [FileSender.blast_over_attempts]
      rcases recv_packet_timeout_tag env (FileSender.send_packet env s request false).1 with
        ⟨-, h2⟩ | ⟨b, d, h1, -, h3⟩
      · rw [h2]; exact e1
      · rw [hrecvs] at h1
        have hb : b ≠ REC_MISS := fun hb => h0 (by rw [h1, hb])
        rw [h3]
        simp only [hb, if_false]
        exact e1
    refine ⟨s1, hgoal, by rw [e2, a1]; omega, by rw [e3, a3]; omega, by rw [e4, a2], ?_⟩
    rw [e5, a4, a3, List.append_assoc]
    rfl

/-- C17: for every sequence of receive outcomes, `send_file_header` returns true
at the first of its waits that yields a datagram whose tag is FILE_HDR_ACK, and
`send_blast_over_and_wait` returns true at the first of its waits that yields a
datagram whose tag is REC_MISS, the request having been handed to `sendto` once
per wait so far and nothing else having been sent; when none of the first five
waits yields the awaited tag the turn returns false after exactly five requests
and five waits. -/
theorem bounded_retry (env : SenderEnv) (s : SenderRun) (start_rec end_rec : Nat) :
    (∀ k, k < 5 → env.tag (s.recvs + k) = some FILE_HDR_ACK →
      (∀ j, j < k → env.tag (s.recvs + j) ≠ some FILE_HDR_ACK) →
      ∃ s1, FileSender.send_file_header env s = (s1, true) ∧
        s1.recvs = s.recvs + (k + 1) ∧ s1.sendtos = s.sendtos + (k + 1) ∧
        s1.events = s.events ++ request_events env
          (s.sender.file_header.serialize.2.take s.sender.file_header.serialize.1)
          s.sendtos (k + 1)) ∧
    ((∀ j, j < 5 → env.tag (s.recvs + j) ≠ some FILE_HDR_ACK) →
      ∃ s1, FileSender.send_file_header env s = (s1, false) ∧
        s1.recvs = s.recvs + 5 ∧ s1.sendtos = s.sendtos + 5 ∧
        s1.events = s.events ++ request_events env
          (s.sender.file_header.serialize.2.take s.sender.file_header.serialize.1)
          s.sendtos 5) ∧
    (∀ k, k < 5 → env.tag (s.recvs + k) = some REC_MISS →
      (∀ j, j < k → env.tag (s.recvs + j) ≠ some REC_MISS) →
      ∃ s1 rec_miss,
        FileSender.send_blast_over_and_wait env s start_rec end_rec = .ok (s1, some rec_miss) ∧
        s1.recvs = s.recvs + (k + 1) ∧ s1.sendtos = s.sendtos + (k + 1) ∧
        s1.events = s.events ++ request_events env
          ((BlastOverPacket.mk2 start_rec end_rec).serialize.2.take
            (BlastOverPacket.mk2 start_rec end_rec).serialize.1)
          s.sendtos (k + 1)) ∧
    ((∀ j, j < 5 → env.tag (s.recvs + j) ≠ some REC_MISS) →
      ∃ s1, FileSender.send_blast_over_and_wait env s start_rec end_rec = .ok (s1, none) ∧
        s1.recvs = s.recvs + 5 ∧ s1.sendtos = s.sendtos + 5 ∧
        s1.events = s.events ++ request_events env
          ((BlastOverPacket.mk2 start_rec end_rec).serialize.2.take
            (BlastOverPacket.mk2 start_rec end_rec).serialize.1)
          s.sendtos 5) := by
  refine ⟨?_, ?_, ?_, ?_⟩
  · intro k hk htag hfirst
    obtain ⟨s1, e1, e2, e3, -, e5⟩ :=
      file_header_attempts_success env _ k 5 s hk htag hfirst
    exact ⟨s1, e1, e2, e3, e5⟩
  · intro hnone
    obtain ⟨s1, e1, e2, e3, -, e5⟩ := file_header_attempts_failure env _ 5 s hnone
    exact ⟨s1, e1, e2, e3, e5⟩
  · intro k hk htag hfirst
    obtain ⟨s1, d, x, -, -, e1, e2, e3, -, e5, -⟩ :=
      blast_over_attempts_success env _ k 5 s hk htag hfirst
    exact ⟨s1, x.2, e1, e2, e3, e5⟩
  · intro hnone
    obtain ⟨s1, e1, e2, e3, -, e5⟩ := blast_over_attempts_failure env _ 5 s hnone
    exact ⟨s1, e1, e2, e3, e5⟩

theorem bounded_retry_witness :
    ∃ s1 rec_miss,
      FileSender.send_blast_over_and_wait
          ⟨fun k => if k = 2 then some [5, 0, 0] else if k = 1 then some [2] else none,
            fun _ => 0, fun _ => false, fun _ => true⟩
          ⟨FileSender.init [116] 256 200, 0, 0, 0, []⟩ 1 1 = .ok (s1, some rec_miss) ∧
        s1.recvs = 0 + (2 + 1) ∧ s1.sendtos = 0 + (2 + 1) ∧
        s1.events = [] ++ request_events
          ⟨fun k => if k = 2 then some [5, 0, 0] else if k = 1 then some [2] else none,
            fun _ => 0, fun _ => false, fun _ => true⟩
          ((BlastOverPacket.mk2 1 1).serialize.2.take (BlastOverPacket.mk2 1 1).serialize.1)
          0 (2 + 1) :=
  (bounded_retry
    ⟨fun k => if k = 2 then some [5, 0, 0] else if k = 1 then some [2] else none,
      fun _ => 0, fun _ => false, fun _ => true⟩
    ⟨FileSender.init [116] 256 200, 0, 0, 0, []⟩ 1 1).2.2.1 2 (by decide) (by decide)
    (by decide)

set_option maxRecDepth 100000 in
/-- C12 (code at fault): a sender of one record of 256 bytes runs the cycle of
blast [1,1] and its first wait yields the one-byte datagram [5], a REC_MISS too
short to hold its segment count: `deserialize` returns 0, which
`send_blast_over_and_wait` does not look at, the fresh packet still says
num_missing = 0, the cycle ends with success after that single wait and
`run` moves its cursor past the blast. With the three-byte datagram [5, 1, 0],
which declares one segment and holds none, the datagram is taken as the answer
with num_missing = 1 and the pass of the cycle retransmits the default segment
(0,0), reading `file_records[0 - 1]`; the datagram [5, 233, 3], which declares
1001 segments, is taken as the answer with num_missing = 1001. -/
theorem blast_cycle_accepts_truncated_rec_miss :
    (FileSender.process_blast_cycle
        ⟨fun k => if k = 0 then some [5] else none, fun _ => 0, fun _ => false, fun _ => true⟩ 3
        ⟨{ FileSender.init [116] 256 200 with
           file_size := 256, total_records := 1, file_records := [List.replicate 256 7] },
          0, 0, 0, []⟩ 1 1).bind (fun r => .ok (r.2, r.1.recvs, r.1.sendtos))
      = .ok (true, 1, 2) ∧
    (FileSender.run_loop
        ⟨fun k => if k = 0 then some [5] else none, fun _ => 0, fun _ => false, fun _ => true⟩ 3 2
        ⟨{ FileSender.init [116] 256 200 with
           file_size := 256, total_records := 1, file_records := [List.replicate 256 7] },
          0, 0, 0, []⟩ 1).bind (fun r => .ok (r.2, r.1.recvs, r.1.sendtos))
      = .ok (true, 1, 2) ∧
    (FileSender.send_blast_over_and_wait
        ⟨fun k => if k = 0 then some [5, 1, 0] else none, fun _ => 0, fun _ => false,
          fun _ => true⟩
        ⟨{ FileSender.init [116] 256 200 with
           file_size := 256, total_records := 1, file_records := [List.replicate 256 7] },
          0, 0, 0, []⟩ 1 1).bind
        (fun r => .ok (r.2.map fun m => (m.num_missing, m.missing.take 1)))
      = .ok (some (1, [⟨0, 0⟩])) ∧
    FileSender.blast_cycle_round
        ⟨fun k => if k = 0 then some [5, 1, 0] else none, fun _ => 0, fun _ => false,
          fun _ => true⟩ 3
        ⟨{ FileSender.init [116] 256 200 with
           file_size := 256, total_records := 1, file_records := [List.replicate 256 7] },
          0, 0, 0, []⟩ 1 1
      = .fault ∧
    (FileSender.send_blast_over_and_wait
        ⟨fun k => if k = 0 then some [5, 233, 3] else none, fun _ => 0, fun _ => false,
          fun _ => true⟩
        ⟨{ FileSender.init [116] 256 200 with
           file_size := 256, total_records := 1, file_records := [List.replicate 256 7] },
          0, 0, 0, []⟩ 1 1).bind
        (fun r => .ok (r.2.map fun m => m.num_missing))
      = .ok (some 1001) := by
  decide

theorem blast_log_append (l1 l2 : List SenderEvent) :
    blast_log (l1 ++ l2) = blast_log l1 ++ blast_log l2 := by
  induction l1 with
  | nil => rfl
  | cons e rest ih => cases e <;> simp [blast_log, ih]

theorem datagram_log_append (l1 l2 : List SenderEvent) :
    datagram_log (l1 ++ l2) = datagram_log l1 ++ datagram_log l2 := by
  induction l1 with
  | nil => rfl
  | cons e rest ih => cases e <;> simp [datagram_log, ih]

theorem blast_log_request_events (env : SenderEnv) (request : List Nat) :
    ∀ (n k : Nat), blast_log (request_events env request k n) = [] := by
  intro n
  induction n with
  | zero => intro k; rfl
  | succ n ih => intro k; simp [request_events, blast_log, ih]

theorem datagram_log_request_events (env : SenderEnv) (request : List Nat) :
    ∀ (n k : Nat), datagram_log (request_events env request k n) = List.replicate n request := by
  intro n
  induction n with
  | zero => intro k; rfl
  | succ n ih => intro k; simp [request_events, datagram_log, ih, List.replicate_succ]

/-- A datagram handed to `send_packet` announces no blast, is the one datagram
added to those handed over, and leaves the records of the file alone. -/
theorem send_packet_log (env : SenderEnv) (s : SenderRun) (datagram : List Nat) (d : Bool) :
    blast_log (FileSender.send_packet env s datagram d).1.events = blast_log s.events ∧
    datagram_log (FileSender.send_packet env s datagram d).1.events
      = datagram_log s.events ++ [datagram] ∧
    (FileSender.send_packet env s datagram d).1.sender.file_records
      = s.sender.file_records := by
  unfold FileSender.send_packet
  cases d <;> cases hdrop : env.drop s.drops <;> cases hok : env.sendto_ok s.sendtos <;>
    simp [blast_log_append, blast_log, datagram_log_append, datagram_log]

/-- A DATA packet with its segment count inside the segment array is serialised
without reading outside the array. -/
theorem data_serialize_returns (p : DataPacket) (buffer_size : Nat)
    (hk : p.num_segments ≤ p.segments.length) :
    ∃ r, p.serialize buffer_size = .ok r := by
  by_cases hb : 2 + 8 * p.num_segments + p.data.length ≤ buffer_size
  · exact ⟨_, data_serialize_fits p buffer_size hk hb⟩
  · obtain ⟨o, ho⟩ := data_serialize_short p buffer_size hk (by omega)
    exact ⟨_, ho⟩

/-- The loop of `send_blast` over packets that can be serialised returns; it
announces no blast, hands over the datagrams of the packets in order and
leaves the records of the file alone. -/
theorem send_packets_log (env : SenderEnv) (is_retransmission : Bool) :
    ∀ (packets : List DataPacket) (s : SenderRun),
      (∀ p ∈ packets, p.num_segments ≤ p.segments.length) →
      ∃ s1 ds, FileSender.send_packets env is_retransmission packets s = .ok s1 ∧
        FileSender.blast_datagrams packets = .ok ds ∧
        blast_log s1.events = blast_log s.events ∧
        datagram_log s1.events = datagram_log s.events ++ ds ∧
        s1.sender.file_records = s.sender.file_records := by
  intro packets
  induction packets with
  | nil => intro s _; exact ⟨s, [], rfl, rfl, rfl, by simp, rfl⟩
  | cons p rest ih =>
    intro s hp
    obtain ⟨r, hr⟩ := data_serialize_returns p MAX_UDP_PAYLOAD (hp p (List.mem_cons_self _ _))
    have hrest : ∀ q ∈ rest, q.num_segments ≤ q.segments.length :=
      fun q hq => hp q (List.mem_cons_of_mem _ hq)
    obtain ⟨l1, l2, l3⟩ := send_packet_log env s (r.2.take r.1) true
    unfold FileSender.send_packets FileSender.blast_datagrams
    rw [hr, Outcome.bind_ok, Outcome.bind_ok]
    by_cases h0 : r.1 > 0
    · rw [if_pos h0]
      simp only [h0, if_true]
      split
      · obtain ⟨s1, ds, e1, e2, e3, e4, e5⟩ := ih
          { (FileSender.send_packet env s (r.2.take r.1) true).1 with
            sender := { (FileSender.send_packet env s (r.2.take r.1) true).1.sender with
              stats := { (FileSender.send_packet env s (r.2.take r.1) true).1.sender.stats with
                retransmissions :=
                  ((FileSender.send_packet env s (r.2.take r.1) true).1.sender.stats.retransmissions
                    + 1) % 4294967296 } } } hrest
        refine ⟨s1, r.2.take r.1 :: ds, e1, by rw [e2]; rfl, by rw [e3]; exact l1, ?_,
          by rw [e5]; exact l3⟩
        rw [e4]
        show datagram_log (FileSender.send_packet env s (r.2.take r.1) true).1.events ++ ds = _
        rw [l2, List.append_assoc]; rfl
      · obtain ⟨s1, ds, e1, e2, e3, e4, e5⟩ :=
          ih (FileSender.send_packet env s (r.2.take r.1) true).1 hrest
        refine ⟨s1, r.2.take r.1 :: ds, e1, by rw [e2]; rfl, by rw [e3]; exact l1, ?_,
          by rw [e5]; exact l3⟩
        rw [e4, l2, List.append_assoc]; rfl
    · rw [if_neg h0]
      simp only [h0, if_false]
      obtain ⟨s1, ds, e1, e2, e3, e4, e5⟩ := ih s hrest
      exact ⟨s1, ds, e1, by rw [e2]; rfl, e3, e4, e5⟩

/-- A call of `send_blast` for records the sender holds returns; it announces
that one blast, hands over the datagrams of the frames built for it and leaves
the records of the file alone. -/
theorem send_blast_log (env : SenderEnv) (fuel : Nat) (s : SenderRun) (a b : Nat) (r : Bool)
    (ha : 1 ≤ a) (hab : a ≤ b + 1) (hb : b ≤ s.sender.file_records.length)
    (h32 : b + 1 < 4294967296) (hfuel : (b + 1 - a + 15) / 16 < fuel) :
    ∃ s1, FileSender.send_blast env fuel s a b r = .ok s1 ∧
      blast_log s1.events = blast_log s.events ++ [(a, b, r)] ∧
      datagram_log s1.events = datagram_log s.events ++ s.sender.blast_frames fuel a b ∧
      s1.sender.file_records = s.sender.file_records := by
  have hpk := create_data_packets_eq s.sender a b fuel ha hab hb h32 hfuel
  have hspec := (data_packets_from_spec s.sender.file_records b ((b + 1 - a + 15) / 16) a
    (by omega) hab).2.1
  obtain ⟨s1, ds, e1, e2, e3, e4, e5⟩ := send_packets_log env r
    (data_packets_from s.sender.file_records b ((b + 1 - a + 15) / 16) a)
    { s with events := s.events ++ [SenderEvent.blast a b r] }
    (fun p hp => by
      obtain ⟨x, y, hxy, -⟩ := hspec p hp
      rw [hxy]
      show 1 ≤ (DataPacket.init.segments.set 0 ⟨x, y⟩).length
      rw [List.length_set]
      show 1 ≤ (List.replicate MAX_RECORDS_PER_PACKET (⟨0, 0⟩ : Segment)).length
      rw [List.length_replicate]
      decide)
  have hframes : s.sender.blast_frames fuel a b = ds := by
    unfold FileSender.blast_frames
    rw [hpk, Outcome.bind_ok, e2]
  refine ⟨s1, ?_, ?_, ?_, e5⟩
  · unfold FileSender.send_blast
    rw [hpk, Outcome.bind_ok]
    exact e1
  · rw [e3]
    show blast_log (s.events ++ [SenderEvent.blast a b r]) = _
    rw [blast_log_append]
    rfl
  · rw [e4, hframes]
    show datagram_log (s.events ++ [SenderEvent.blast a b r]) ++ ds = _
    rw [datagram_log_append]
    simp [datagram_log]

/-- The frames built for a blast depend on the sender through its records only. -/
theorem blast_frames_congr (fuel : Nat) (sd1 sd2 : FileSender) (a b : Nat)
    (h : sd1.file_records = sd2.file_records) :
    sd1.blast_frames fuel a b = sd2.blast_frames fuel a b := by
  unfold FileSender.blast_frames FileSender.create_data_packets
  rw [h]

/-- A call of `send_blast` for an empty range (its end below its start)
returns; it announces that blast, builds no frame and leaves the records of the
file alone. -/
theorem send_blast_log_empty (env : SenderEnv) (fuel : Nat) (s : SenderRun) (a b : Nat) (r : Bool)
    (hab : b < a) (hfuel : 0 < fuel) :
    ∃ s1, FileSender.send_blast env fuel s a b r = .ok s1 ∧
      blast_log s1.events = blast_log s.events ++ [(a, b, r)] ∧
      datagram_log s1.events = datagram_log s.events ++ s.sender.blast_frames fuel a b ∧
      s1.sender.file_records = s.sender.file_records := by
  obtain ⟨f, rfl⟩ : ∃ f, fuel = f + 1 := ⟨fuel - 1, by omega⟩
  have hpk : s.sender.create_data_packets (f + 1) a b = .ok [] := by
    unfold FileSender.create_data_packets FileSender.create_loop
    rw [if_neg (by omega)]
  have hframes : s.sender.blast_frames (f + 1) a b = [] := by
    unfold FileSender.blast_frames
    rw [hpk]
    rfl
  refine ⟨{ s with events := s.events ++ [SenderEvent.blast a b r] }, ?_, ?_, ?_, rfl⟩
  · unfold FileSender.send_blast
    rw [hpk]
    rfl
  · show blast_log (s.events ++ [SenderEvent.blast a b r]) = _
    rw [blast_log_append]
    rfl
  · rw [hframes]
    show datagram_log (s.events ++ [SenderEvent.blast a b r]) = _
    rw [datagram_log_append]
    simp [datagram_log]

/-- A call of `send_blast` for a range that is empty or lies inside the records
the sender holds returns; it announces that one blast, hands over the datagrams
of the frames built for it and leaves the records of the file alone. -/
theorem send_blast_log_held (env : SenderEnv) (fuel : Nat) (s : SenderRun) (a b : Nat) (r : Bool)
    (h : a ≤ b → 1 ≤ a ∧ b ≤ s.sender.file_records.length ∧ b + 1 < 4294967296)
    (hfuel : (s.sender.file_records.length + 15) / 16 < fuel) :
    ∃ s1, FileSender.send_blast env fuel s a b r = .ok s1 ∧
      blast_log s1.events = blast_log s.events ++ [(a, b, r)] ∧
      datagram_log s1.events = datagram_log s.events ++ s.sender.blast_frames fuel a b ∧
      s1.sender.file_records = s.sender.file_records := by
  by_cases hab : a ≤ b
  · obtain ⟨c1, c2, c3⟩ := h hab
    exact send_blast_log env fuel s a b r c1 (by omega) c2 c3 (by omega)
  · exact send_blast_log_empty env fuel s a b r (by omega) (by omega)

/-- The retransmission loop of `process_blast_cycle` over segments each of
which is empty or names records the sender holds returns; it announces one
blast per segment and hands over the frames built for each, in the order of the
segments. -/
theorem retransmit_log (env : SenderEnv) (fuel L : Nat) (rec_miss : RecMissPacket) :
    ∀ (n i : Nat) (s : SenderRun), i + n ≤ rec_miss.missing.length →
      s.sender.file_records.length = L → (L + 15) / 16 < fuel →
      (∀ sg ∈ (rec_miss.missing.drop i).take n, sg.start_record ≤ sg.end_record →
        1 ≤ sg.start_record ∧ sg.end_record ≤ L ∧ sg.end_record + 1 < 4294967296) →
      ∃ s1, FileSender.retransmit env fuel rec_miss n i s = .ok s1 ∧
        blast_log s1.events
          = blast_log s.events
            ++ ((rec_miss.missing.drop i).take n).map
                (fun sg => (sg.start_record, sg.end_record, true)) ∧
        datagram_log s1.events
          = datagram_log s.events
            ++ (((rec_miss.missing.drop i).take n).map
                (fun sg => s.sender.blast_frames fuel sg.start_record sg.end_record)).flatten ∧
        s1.sender.file_records = s.sender.file_records := by
  intro n
  induction n with
  | zero =>
    intro i s _ _ _ _
    exact ⟨s, rfl, by simp, by simp, rfl⟩
  | succ n ih =>
    intro i s hlen hL hfuel hsegs
    have hlt : i < rec_miss.missing.length := by omega
    have hg : rec_miss.missing.get? i = some (rec_miss.missing.get ⟨i, hlt⟩) := by
      rw [List.get?_eq_getElem?, List.getElem?_eq_getElem hlt]; rfl
    have hdrop : rec_miss.missing.drop i
        = rec_miss.missing.get ⟨i, hlt⟩ :: rec_miss.missing.drop (i + 1) := by
      rw [List.drop_eq_getElem_cons hlt]; rfl
    rw [hdrop, List.take_succ_cons] at hsegs ⊢
    obtain ⟨s1, e1, e2, e3, e4⟩ := send_blast_log_held env fuel s
      (rec_miss.missing.get ⟨i, hlt⟩).start_record (rec_miss.missing.get ⟨i, hlt⟩).end_record
      true (by rw [hL]; exact hsegs _ (List.mem_cons_self _ _)) (by rw [hL]; exact hfuel)
    obtain ⟨s2, f1, f2, f3, f4⟩ := ih (i + 1) s1 (by omega) (by rw [e4]; exact hL) hfuel
      (fun sg hsg => hsegs sg (List.mem_cons_of_mem _ hsg))
    have hcongr : ((rec_miss.missing.drop (i + 1)).take n).map
          (fun sg => s1.sender.blast_frames fuel sg.start_record sg.end_record)
        = ((rec_miss.missing.drop (i + 1)).take n).map
          (fun sg => s.sender.blast_frames fuel sg.start_record sg.end_record) :=
      List.map_congr_left (fun sg _ => blast_frames_congr fuel _ _ _ _ e4)
    refine ⟨s2, ?_, ?_, ?_, by rw [f4, e4]⟩
    · unfold FileSender.retransmit
      rw [hg]
      simp only [e1, Outcome.bind_ok]
      exact f1
    · rw [f2, e2, List.map_cons, List.append_assoc]
      rfl
    · rw [f3, e3, hcongr, List.map_cons, List.flatten_cons, List.append_assoc]

/-- The segment loop of `RecMissPacket::deserialize` keeps the length of the
segment array. -/
theorem rec_miss_deserialize_segments_length (buffer : List Nat) :
    ∀ (n i offset : Nat) (missing : List Segment) (r : Bool × Nat × List Segment),
      RecMissPacket.deserialize_segments buffer n i offset missing = .ok r →
      r.2.2.length = missing.length := by
  intro n
  induction n with
  | zero => intro i offset missing r h; cases h; rfl
  | succ n ih =>
    intro i offset missing r h
    unfold RecMissPacket.deserialize_segments at h
    split at h
    · split at h
      · cases h; rfl
      · split at h
        · rw [ih _ _ _ _ h, List.length_set]
        · cases h
    · cases h; rfl

/-- The packet `deserialize` leaves from a fresh one has its thousand segments. -/
theorem rec_miss_deserialize_length (buffer : List Nat) (x : Nat × RecMissPacket)
    (h : RecMissPacket.deserialize RecMissPacket.init buffer = .ok x) :
    x.2.missing.length = MAX_MISSING_SEGMENTS := by
  have hinit : RecMissPacket.init.missing.length = MAX_MISSING_SEGMENTS :=
    List.length_replicate _ _
  unfold RecMissPacket.deserialize at h
  simp only at h
  split at h
  · cases h; exact hinit
  · split at h
    · cases h; exact hinit
    · cases hr : RecMissPacket.deserialize_segments buffer (read_le buffer 1 2) 0 3
          RecMissPacket.init.missing with
      | fault => rw [hr] at h; cases h
      | noFuel => rw [hr] at h; cases h
      | ok r =>
        rw [hr, Outcome.bind_ok] at h
        have hl := rec_miss_deserialize_segments_length _ _ _ _ _ _ hr
        split at h <;> (cases h; rw [← hinit]; exact hl)

/-- The IS_BLAST_OVER loop returns whatever is received; it hands the request
to `send_packet` once per wait made, at least once when an attempt is allowed,
announces no blast, leaves the records of the file alone, and a packet it
returns has its thousand segments. -/
theorem blast_over_attempts_returns (env : SenderEnv) (request : List Nat) :
    ∀ (n : Nat) (s : SenderRun),
      ∃ r m, FileSender.blast_over_attempts env request n s = .ok r ∧
        m ≤ n ∧ (1 ≤ n → 1 ≤ m) ∧
        r.1.events = s.events ++ request_events env request s.sendtos m ∧
        r.1.sender.file_records = s.sender.file_records ∧
        ∀ rec_miss, r.2 = some rec_miss → rec_miss.missing.length = MAX_MISSING_SEGMENTS := by
  intro n
  induction n with
  | zero =>
    intro s
    exact ⟨(s, none), 0, rfl, le_refl _, fun h => absurd h (by decide), by simp [request_events],
      rfl, fun _ h => by cases h⟩
  | succ n ih =>
    intro s
    obtain ⟨a1, a2, a3, a4, a5⟩ := attempt_state env s request
    obtain ⟨r, m, e1, e2, -, e4, e5, e6⟩ := ih
      (FileSender.recv_packet_timeout env (FileSender.send_packet env s request false).1).1
    have hrec : ∃ r m, FileSender.blast_over_attempts env request n
          (FileSender.recv_packet_timeout env (FileSender.send_packet env s request false).1).1
          = .ok r ∧
        m ≤ n + 1 ∧ (1 ≤ n + 1 → 1 ≤ m) ∧
        r.1.events = s.events ++ request_events env request s.sendtos m ∧
        r.1.sender.file_records = s.sender.file_records ∧
        ∀ rec_miss, r.2 = some rec_miss → rec_miss.missing.length = MAX_MISSING_SEGMENTS := by
      refine ⟨r, m + 1, e1, by omega, fun _ => by omega, ?_, by rw [e5, a5], e6⟩
      rw [e4, a4, a3, List.append_assoc]
      rfl
    simp only [FileSender.blast_over_attempts]
    rcases recv_packet_timeout_tag env (FileSender.send_packet env s request false).1 with
      ⟨-, h2⟩ | ⟨b, d, -, -, h3⟩
    · rw [h2]; exact hrec
    · rw [h3]
      by_cases hb : b = REC_MISS
      · obtain ⟨x, hx⟩ := rec_miss_deserialize_total (d.take MAX_UDP_PAYLOAD)
        simp only [hb, if_true, hx, Outcome.bind_ok]
        refine ⟨_, 1, rfl, by omega, fun _ => le_refl _, by rw [a4]; rfl, a5, ?_⟩
        intro rec_miss hrm
        cases hrm
        exact rec_miss_deserialize_length _ x hx
      · simp only [hb, if_false]
        exact hrec

theorem pack_records_lt (file_records : List (List Nat)) (end_rec : Nat) :
    ∀ (k current_rec : Nat) (data : List Nat) (r : Nat × List Nat),
      FileSender.pack_records file_records end_rec k current_rec data = .ok r →
      current_rec < 4294967296 → r.1 < 4294967296 := by
  intro k
  induction k with
  | zero => intro c data r h hc; cases h; exact hc
  | succ k ih =>
    intro c data r h hc
    unfold FileSender.pack_records at h
    split at h
    · split at h
      · cases h
      · exact ih _ _ _ h (Nat.mod_lt _ (by decide))
    · cases h; exact hc

/-- The outer loop of `create_data_packets` does not return when the last
index of the range is 2^32 - 1: its 32-bit counter never passes it. -/
theorem create_loop_never_returns (file_records : List (List Nat)) :
    ∀ (fuel current_rec : Nat) (packets x : List DataPacket), current_rec < 4294967296 →
      FileSender.create_loop file_records 4294967295 fuel current_rec packets ≠ .ok x := by
  intro fuel
  induction fuel with
  | zero => intro c p x _ h; cases h
  | succ fuel ih =>
    intro c p x hc h
    unfold FileSender.create_loop at h
    rw [if_pos (by omega)] at h
    cases hp : FileSender.pack_records file_records 4294967295 MAX_RECORDS_PER_PACKET c [] with
    | fault => rw [hp] at h; cases h
    | noFuel => rw [hp] at h; cases h
    | ok r =>
      rw [hp, Outcome.bind_ok] at h
      exact ih _ _ _ (pack_records_lt _ _ _ _ _ _ hp hc) h

/-- A blast cycle that returns was run for a blast ending before 2^32 - 1. -/
theorem process_blast_cycle_end (env : SenderEnv) (fuel : Nat) (s : SenderRun) (a b : Nat)
    (x : SenderRun × Bool) (h : FileSender.process_blast_cycle env fuel s a b = .ok x)
    (ha : a < 4294967296) (hb : b < 4294967296) : b + 1 < 4294967296 := by
  by_contra hc
  have hb2 : b = 4294967295 := by omega
  subst hb2
  unfold FileSender.process_blast_cycle FileSender.send_blast
    FileSender.create_data_packets at h
  simp only at h
  cases hp : FileSender.create_loop s.sender.file_records 4294967295 fuel a [] with
  | fault => rw [hp] at h; cases h
  | noFuel => rw [hp] at h; cases h
  | ok pk => exact create_loop_never_returns _ _ _ _ _ ha hp

set_option maxRecDepth 100000 in
/-- A sender holding 2^32 - 1 records whose first wait yields the REC_MISS with
the one segment (2^32 - 1, 2^32 - 1): the wait returns that packet, and the
retransmission of the segment reads `file_records[2^32 - 1]`, past the end of
the vector. -/
theorem blast_cycle_round_last_index (file_records : List (List Nat))
    (hlen : file_records.length = 4294967295) (fuel : Nat) :
    (FileSender.send_blast_over_and_wait
        ⟨fun k => if k = 0 then some [5, 1, 0, 255, 255, 255, 255, 255, 255, 255, 255] else none,
          fun _ => 0, fun _ => false, fun _ => true⟩
        ⟨{ FileSender.init [116] 256 1000 with
           file_size := 1099511627520, total_records := 4294967295,
           file_records := file_records }, 0, 0, 0, []⟩ 1 1).bind
        (fun r => .ok (r.2.map fun m => (m.num_missing, m.missing.take m.num_missing)))
      = (Outcome.ok (some (1, [Segment.mk 4294967295 4294967295])) :
          Outcome (Option (Nat × List Segment))) ∧
    FileSender.blast_cycle_round
        ⟨fun k => if k = 0 then some [5, 1, 0, 255, 255, 255, 255, 255, 255, 255, 255] else none,
          fun _ => 0, fun _ => false, fun _ => true⟩ (fuel + 1)
        ⟨{ FileSender.init [116] 256 1000 with
           file_size := 1099511627520, total_records := 4294967295,
           file_records := file_records }, 0, 0, 0, []⟩ 1 1 = .fault := by
  obtain ⟨s1, d, x, hd, hx, hw, -, -, -, -, hfr⟩ := blast_over_attempts_success
    ⟨fun k => if k = 0 then some [5, 1, 0, 255, 255, 255, 255, 255, 255, 255, 255] else none,
      fun _ => 0, fun _ => false, fun _ => true⟩
    ((BlastOverPacket.mk2 1 1).serialize.2.take (BlastOverPacket.mk2 1 1).serialize.1) 0 5
    ⟨{ FileSender.init [116] 256 1000 with
       file_size := 1099511627520, total_records := 4294967295,
       file_records := file_records }, 0, 0, 0, []⟩ (by decide) rfl
    (fun j hj => absurd hj (Nat.not_lt_zero j))
  have hd2 : d = [5, 1, 0, 255, 255, 255, 255, 255, 255, 255, 255] := by
    simp at hd
    exact hd.symm
  subst hd2
  have hx2 : (RecMissPacket.deserialize RecMissPacket.init
        (([5, 1, 0, 255, 255, 255, 255, 255, 255, 255, 255] : List Nat).take MAX_UDP_PAYLOAD)).bind
        (fun y => .ok (y.2.num_missing, y.2.missing.take 1, y.2.missing.get? 0))
      = (Outcome.ok (1, [Segment.mk 4294967295 4294967295],
          some (Segment.mk 4294967295 4294967295)) :
          Outcome (Nat × List Segment × Option Segment)) := by decide
  rw [hx, Outcome.bind_ok] at hx2
  have hk : x.2.num_missing = 1 := congrArg (fun o => match o with
    | Outcome.ok v => v.1
    | _ => 0) hx2
  have htake : x.2.missing.take 1 = [Segment.mk 4294967295 4294967295] :=
    congrArg (fun o => match o with
    | Outcome.ok v => v.2.1
    | _ => []) hx2
  have hget : x.2.missing.get? 0 = some (Segment.mk 4294967295 4294967295) :=
    congrArg (fun o => match o with
    | Outcome.ok v => v.2.2
    | _ => none) hx2
  have hwait : FileSender.send_blast_over_and_wait
        ⟨fun k => if k = 0 then some [5, 1, 0, 255, 255, 255, 255, 255, 255, 255, 255] else none,
          fun _ => 0, fun _ => false, fun _ => true⟩
        ⟨{ FileSender.init [116] 256 1000 with
           file_size := 1099511627520, total_records := 4294967295,
           file_records := file_records }, 0, 0, 0, []⟩ 1 1 = .ok (s1, some x.2) := hw
  have hfr2 : s1.sender.file_records.length = 4294967295 := by rw [hfr]; exact hlen
  refine ⟨?_, ?_⟩
  · rw [hwait, Outcome.bind_ok]
    show Outcome.ok (some (x.2.num_missing, x.2.missing.take x.2.num_missing)) = _
    rw [hk, htake]
  · unfold FileSender.blast_cycle_round
    rw [hwait, Outcome.bind_ok]
    simp only [hk]
    rw [if_neg (by decide)]
    unfold FileSender.retransmit
    rw [hget]
    simp only
    unfold FileSender.send_blast FileSender.create_data_packets
    rw [create_loop_wraps _ hfr2 fuel []]
    rfl

set_option maxRecDepth 100000 in
/-- C16 (as stated, refuted): three senders in `process_blast_cycle` for the
blast [1,1] whose first wait is answered by a REC_MISS with one segment. A
sender holding one record of 256 bytes is answered with the segment (2,2), and
then with the segment (0,0); a sender holding 2^32 - 1 records is answered with
the segment (2^32 - 1, 2^32 - 1). Every time the wait returns the packet with
num_missing = 1 and that segment, and the pass neither builds the DATA frames
of the segment nor goes on to send IS_BLAST_OVER again: it reads
`file_records` outside the vector. -/
theorem blast_cycle_faults_on_unheld_segment :
    ((FileSender.send_blast_over_and_wait
          ⟨fun k => if k = 0 then some [5, 1, 0, 2, 0, 0, 0, 2, 0, 0, 0] else none,
            fun _ => 0, fun _ => false, fun _ => true⟩
          ⟨{ FileSender.init [116] 256 200 with
             file_size := 256, total_records := 1,
             file_records := [List.replicate 256 7] }, 0, 0, 0, []⟩ 1 1).bind
          (fun r => .ok (r.2.map fun m => (m.num_missing, m.missing.take m.num_missing)))
        = (Outcome.ok (some (1, [Segment.mk 2 2])) : Outcome (Option (Nat × List Segment))) ∧
      FileSender.blast_cycle_round
          ⟨fun k => if k = 0 then some [5, 1, 0, 2, 0, 0, 0, 2, 0, 0, 0] else none,
            fun _ => 0, fun _ => false, fun _ => true⟩ 3
          ⟨{ FileSender.init [116] 256 200 with
             file_size := 256, total_records := 1,
             file_records := [List.replicate 256 7] }, 0, 0, 0, []⟩ 1 1 = .fault) ∧
    ((FileSender.send_blast_over_and_wait
          ⟨fun k => if k = 0 then some [5, 1, 0, 0, 0, 0, 0, 0, 0, 0, 0] else none,
            fun _ => 0, fun _ => false, fun _ => true⟩
          ⟨{ FileSender.init [116] 256 200 with
             file_size := 256, total_records := 1,
             file_records := [List.replicate 256 7] }, 0, 0, 0, []⟩ 1 1).bind
          (fun r => .ok (r.2.map fun m => (m.num_missing, m.missing.take m.num_missing)))
        = (Outcome.ok (some (1, [Segment.mk 0 0])) : Outcome (Option (Nat × List Segment))) ∧
      FileSender.blast_cycle_round
          ⟨fun k => if k = 0 then some [5, 1, 0, 0, 0, 0, 0, 0, 0, 0, 0] else none,
            fun _ => 0, fun _ => false, fun _ => true⟩ 3
          ⟨{ FileSender.init [116] 256 200 with
             file_size := 256, total_records := 1,
             file_records := [List.replicate 256 7] }, 0, 0, 0, []⟩ 1 1 = .fault) ∧
    ((FileSender.send_blast_over_and_wait
          ⟨fun k => if k = 0 then some [5, 1, 0, 255, 255, 255, 255, 255, 255, 255, 255]
                    else none,
            fun _ => 0, fun _ => false, fun _ => true⟩
          ⟨{ FileSender.init [116] 256 1000 with
             file_size := 1099511627520, total_records := 4294967295,
             file_records := List.replicate 4294967295 (List.replicate 256 0) },
            0, 0, 0, []⟩ 1 1).bind
          (fun r => .ok (r.2.map fun m => (m.num_missing, m.missing.take m.num_missing)))
        = (Outcome.ok (some (1, [Segment.mk 4294967295 4294967295])) :
            Outcome (Option (Nat × List Segment))) ∧
      FileSender.blast_cycle_round
          ⟨fun k => if k = 0 then some [5, 1, 0, 255, 255, 255, 255, 255, 255, 255, 255]
                    else none,
            fun _ => 0, fun _ => false, fun _ => true⟩ 3
          ⟨{ FileSender.init [116] 256 1000 with
             file_size := 1099511627520, total_records := 4294967295,
             file_records := List.replicate 4294967295 (List.replicate 256 0) },
            0, 0, 0, []⟩ 1 1 = .fault) :=
  ⟨⟨by decide, by decide⟩, ⟨by decide, by decide⟩,
    blast_cycle_round_last_index _ (List.length_replicate _ _) 2⟩

/-- C16 (amended): one pass of the loop of `process_blast_cycle` for blast
[s,e] whose wait returned the REC_MISS `rec_miss`. With num_missing = 0 the
pass ends the cycle with success in the state the wait left, nothing more being
built or sent. With 0 < num_missing ≤ 1000 and every listed segment either
empty (start > end) or naming records the sender holds (1 ≤ start, end at most
the number of records held, end < 2^32 - 1), inside the blast or not, the pass
calls `send_blast` as a retransmission for exactly the first num_missing
segments in their order, hands over exactly the DATA frames built for them,
and the loop goes round again, its next action being to hand
IS_BLAST_OVER(s, e) to `send_packet`. When a cycle returns true in `run`, the
cursor of the loop becomes e + 1. -/
theorem blast_cycle_step (env : SenderEnv) (fuel : Nat) (s s1 : SenderRun)
    (start_rec end_rec : Nat) (rec_miss : RecMissPacket)
    (hwait : FileSender.send_blast_over_and_wait env s start_rec end_rec
      = .ok (s1, some rec_miss)) :
    (rec_miss.num_missing = 0 →
      FileSender.blast_cycle_round env fuel s start_rec end_rec = .ok (s1, some true) ∧
      ∀ rounds, FileSender.blast_cycle_loop env fuel start_rec end_rec (rounds + 1) s
        = .ok (s1, true)) ∧
    (0 < rec_miss.num_missing → rec_miss.num_missing ≤ 1000 →
      (s.sender.file_records.length + 15) / 16 < fuel →
      (∀ sg ∈ rec_miss.missing.take rec_miss.num_missing,
        sg.start_record ≤ sg.end_record →
          1 ≤ sg.start_record ∧ sg.end_record ≤ s.sender.file_records.length ∧
          sg.end_record + 1 < 4294967296) →
      ∃ s2, FileSender.blast_cycle_round env fuel s start_rec end_rec = .ok (s2, none) ∧
        blast_log s2.events
          = blast_log s1.events
            ++ (rec_miss.missing.take rec_miss.num_missing).map
                (fun sg => (sg.start_record, sg.end_record, true)) ∧
        datagram_log s2.events
          = datagram_log s1.events
            ++ ((rec_miss.missing.take rec_miss.num_missing).map
                (fun sg => s.sender.blast_frames fuel sg.start_record sg.end_record)).flatten ∧
        (∀ rounds, FileSender.blast_cycle_loop env fuel start_rec end_rec (rounds + 1) s
          = FileSender.blast_cycle_loop env fuel start_rec end_rec rounds s2) ∧
        ∃ r m, FileSender.send_blast_over_and_wait env s2 start_rec end_rec = .ok r ∧
          1 ≤ m ∧
          r.1.events = s2.events ++ request_events env
            ((BlastOverPacket.mk2 start_rec end_rec).serialize.2.take
              (BlastOverPacket.mk2 start_rec end_rec).serialize.1) s2.sendtos m) ∧
    (∀ (s0 s3 : SenderRun) (n current_rec : Nat),
      current_rec ≤ s0.sender.total_records → s0.sender.total_records < 4294967296 →
      FileSender.process_blast_cycle env fuel s0 current_rec
          (min ((current_rec + s0.sender.blast_size + 4294967296 - 1) % 4294967296)
            s0.sender.total_records) = .ok (s3, true) →
      FileSender.run_loop env fuel (n + 1) s0 current_rec
        = FileSender.run_loop env fuel n s3
            (min ((current_rec + s0.sender.blast_size + 4294967296 - 1) % 4294967296)
              s0.sender.total_records + 1)) := by
  obtain ⟨r0, m0, g1, -, -, -, g5, g6⟩ := blast_over_attempts_returns env
    ((BlastOverPacket.mk2 start_rec end_rec).serialize.2.take
      (BlastOverPacket.mk2 start_rec end_rec).serialize.1) 5 s
  have hr0 : r0 = (s1, some rec_miss) := by
    unfold FileSender.send_blast_over_and_wait at hwait
    rw [g1] at hwait
    cases hwait
    rfl
  subst hr0
  have hlen := g6 rec_miss rfl
  have hfr : s1.sender.file_records = s.sender.file_records := g5
  refine ⟨?_, ?_, ?_⟩
  · intro h0
    have hround : FileSender.blast_cycle_round env fuel s start_rec end_rec
        = .ok (s1, some true) := by
      unfold FileSender.blast_cycle_round
      rw [hwait, Outcome.bind_ok]
      simp only [h0, if_true]
    refine ⟨hround, fun rounds => ?_⟩
    unfold FileSender.blast_cycle_loop
    rw [hround, Outcome.bind_ok]
  · intro hpos hk hfuel hsegs
    obtain ⟨s2, e1, e2, e3, e4⟩ := retransmit_log env fuel s.sender.file_records.length rec_miss
      rec_miss.num_missing 0 s1 (by rw [hlen]; exact (by simpa [MAX_MISSING_SEGMENTS] using hk))
      (by rw [hfr]) hfuel (by simpa using hsegs)
    simp only [List.drop_zero] at e2 e3
    have hround : FileSender.blast_cycle_round env fuel s start_rec end_rec
        = .ok (s2, none) := by
      unfold FileSender.blast_cycle_round
      rw [hwait, Outcome.bind_ok]
      simp only [Nat.ne_of_gt hpos, if_false, e1, Outcome.bind_ok]
    have hcongr : (rec_miss.missing.take rec_miss.num_missing).map
          (fun sg => s1.sender.blast_frames fuel sg.start_record sg.end_record)
        = (rec_miss.missing.take rec_miss.num_missing).map
          (fun sg => s.sender.blast_frames fuel sg.start_record sg.end_record) :=
      List.map_congr_left (fun sg _ => blast_frames_congr fuel _ _ _ _ hfr)
    refine ⟨s2, hround, e2, by rw [e3, hcongr], fun rounds => ?_, ?_⟩
    · show FileSender.blast_cycle_loop env fuel start_rec end_rec (rounds + 1) s = _
      conv => lhs; unfold FileSender.blast_cycle_loop
      rw [hround, Outcome.bind_ok]
    · obtain ⟨r, m, k1, -, k3, k4, -, -⟩ := blast_over_attempts_returns env
        ((BlastOverPacket.mk2 start_rec end_rec).serialize.2.take
          (BlastOverPacket.mk2 start_rec end_rec).serialize.1) 5 s2
      exact ⟨r, m, k1, k3 (by decide), k4⟩
  · intro s0 s3 n current_rec hcur hT hcycle
    have hend := process_blast_cycle_end env fuel s0 current_rec _ _ hcycle (by omega)
      (Nat.lt_of_le_of_lt (Nat.min_le_right _ _) hT)
    conv => lhs; unfold FileSender.run_loop
    rw [if_pos hcur]
    simp only [hcycle, Outcome.bind_ok, Bool.true_eq_false, if_false]
    rw [Nat.mod_eq_of_lt hend]

set_option maxRecDepth 100000 in
/-- A sender holding two records of 256 bytes in the cycle of the blast [1,1],
answered with a REC_MISS that lists the segment (2,2), outside the blast, and
the empty segment (2,1). -/
theorem blast_cycle_step_witness :
    ∃ s2, FileSender.blast_cycle_round
        ⟨fun k => if k = 0 then some [5, 2, 0, 2, 0, 0, 0, 2, 0, 0, 0, 2, 0, 0, 0, 1, 0, 0, 0]
                  else none,
          fun _ => 0, fun _ => false, fun _ => true⟩ 3
        ⟨{ FileSender.init [116] 256 200 with
            file_size := 512, total_records := 2,
            file_records := [List.replicate 256 7, List.replicate 256 8] }, 0, 0, 0, []⟩ 1 1 = .ok (s2, none) ∧
      blast_log s2.events
        = blast_log (⟨{ FileSender.init [116] 256 200 with
            file_size := 512, total_records := 2,
            file_records := [List.replicate 256 7, List.replicate 256 8],
            stats := ⟨1, 0, 0, 0, 0⟩ }, 1, 0, 1,
          [SenderEvent.sendto [4, 1, 0, 0, 0, 1, 0, 0, 0] true]⟩ : SenderRun).events
          ++ ((({ type := 5, num_missing := 2, missing := ⟨2, 2⟩ :: ⟨2, 1⟩ :: List.replicate 998 ⟨0, 0⟩ } : RecMissPacket).missing.take 2).map
              (fun sg => (sg.start_record, sg.end_record, true))) ∧
      datagram_log s2.events
        = datagram_log (⟨{ FileSender.init [116] 256 200 with
            file_size := 512, total_records := 2,
            file_records := [List.replicate 256 7, List.replicate 256 8],
            stats := ⟨1, 0, 0, 0, 0⟩ }, 1, 0, 1,
          [SenderEvent.sendto [4, 1, 0, 0, 0, 1, 0, 0, 0] true]⟩ : SenderRun).events
          ++ ((({ type := 5, num_missing := 2, missing := ⟨2, 2⟩ :: ⟨2, 1⟩ :: List.replicate 998 ⟨0, 0⟩ } : RecMissPacket).missing.take 2).map
              (fun sg => FileSender.blast_frames 3
                (⟨{ FileSender.init [116] 256 200 with
            file_size := 512, total_records := 2,
            file_records := [List.replicate 256 7, List.replicate 256 8] }, 0, 0, 0, []⟩ : SenderRun).sender sg.start_record sg.end_record)).flatten ∧
      (∀ rounds, FileSender.blast_cycle_loop
          ⟨fun k => if k = 0 then some [5, 2, 0, 2, 0, 0, 0, 2, 0, 0, 0, 2, 0, 0, 0, 1, 0, 0, 0]
                  else none,
          fun _ => 0, fun _ => false, fun _ => true⟩ 3 1 1 (rounds + 1)
          ⟨{ FileSender.init [116] 256 200 with
            file_size := 512, total_records := 2,
            file_records := [List.replicate 256 7, List.replicate 256 8] }, 0, 0, 0, []⟩
        = FileSender.blast_cycle_loop
          ⟨fun k => if k = 0 then some [5, 2, 0, 2, 0, 0, 0, 2, 0, 0, 0, 2, 0, 0, 0, 1, 0, 0, 0]
                  else none,
          fun _ => 0, fun _ => false, fun _ => true⟩ 3 1 1 rounds s2) ∧
      ∃ r m, FileSender.send_blast_over_and_wait
          ⟨fun k => if k = 0 then some [5, 2, 0, 2, 0, 0, 0, 2, 0, 0, 0, 2, 0, 0, 0, 1, 0, 0, 0]
                  else none,
          fun _ => 0, fun _ => false, fun _ => true⟩ s2 1 1 = .ok r ∧
        1 ≤ m ∧
        r.1.events = s2.events ++ request_events
          ⟨fun k => if k = 0 then some [5, 2, 0, 2, 0, 0, 0, 2, 0, 0, 0, 2, 0, 0, 0, 1, 0, 0, 0]
                  else none,
          fun _ => 0, fun _ => false, fun _ => true⟩
          ((BlastOverPacket.mk2 1 1).serialize.2.take (BlastOverPacket.mk2 1 1).serialize.1)
          s2.sendtos m :=
  (blast_cycle_step
      ⟨fun k => if k = 0 then some [5, 2, 0, 2, 0, 0, 0, 2, 0, 0, 0, 2, 0, 0, 0, 1, 0, 0, 0]
                  else none,
          fun _ => 0, fun _ => false, fun _ => true⟩ 3
      ⟨{ FileSender.init [116] 256 200 with
            file_size := 512, total_records := 2,
            file_records := [List.replicate 256 7, List.replicate 256 8] }, 0, 0, 0, []⟩
      ⟨{ FileSender.init [116] 256 200 with
            file_size := 512, total_records := 2,
            file_records := [List.replicate 256 7, List.replicate 256 8],
            stats := ⟨1, 0, 0, 0, 0⟩ }, 1, 0, 1,
          [SenderEvent.sendto [4, 1, 0, 0, 0, 1, 0, 0, 0] true]⟩ 1 1
      { type := 5, num_missing := 2, missing := ⟨2, 2⟩ :: ⟨2, 1⟩ :: List.replicate 998 ⟨0, 0⟩ }
      (by decide)).2.1 (by decide) (by decide) (by decide) (by decide)

set_option maxRecDepth 100000 in
/-- C21 (code at fault): a sender of one record of 256 bytes runs with a loss
hook that drops nothing; the handshake is acknowledged, the first REC_MISS
lists the segment (1,1) and the second is empty. In the recovery round one DATA
datagram is handed to `sendto` and sent, and `run` ends with
retransmissions = 0. When instead the loss hook drops that one retransmitted
datagram and the next REC_MISS is empty, no DATA datagram is transmitted in a
recovery round and `run` ends with retransmissions = 1. -/
theorem retransmissions_counts_unsent :
    (FileSender.run
        ⟨fun k => if k = 0 then some [2]
                  else if k = 1 then some [5, 1, 0, 1, 0, 0, 0, 1, 0, 0, 0]
                  else if k = 2 then some [5, 0, 0] else none,
          fun _ => 0, fun _ => false, fun _ => true⟩ 3
        (FileSender.init [116] 256 200) (List.replicate 256 7)).bind
      (fun r => .ok (r.2, r.1.sender.stats)) = .ok (true, ⟨6, 2, 0, 0, 1⟩) ∧
    (FileSender.run
        ⟨fun k => if k = 0 then some [2]
                  else if k = 1 then some [5, 1, 0, 1, 0, 0, 0, 1, 0, 0, 0]
                  else if k = 2 then some [5, 0, 0] else none,
          fun _ => 0, fun _ => false, fun _ => true⟩ 3
        (FileSender.init [116] 256 200) (List.replicate 256 7)).bind
      (fun r => .ok (r.1.events.map SenderEvent.summary))
      = .ok [(2, 1, 0, true), (0, 1, 1, false), (2, 3, 0, true), (2, 4, 0, true),
             (0, 1, 1, true), (2, 3, 0, true), (2, 4, 0, true), (2, 6, 0, true)] ∧
    (FileSender.run
        ⟨fun k => if k = 0 then some [2]
                  else if k = 1 then some [5, 1, 0, 1, 0, 0, 0, 1, 0, 0, 0]
                  else if k = 2 then some [5, 0, 0] else none,
          fun _ => 0, fun k => decide (k = 1), fun _ => true⟩ 3
        (FileSender.init [116] 256 200) (List.replicate 256 7)).bind
      (fun r => .ok (r.2, r.1.sender.stats)) = .ok (true, ⟨5, 1, 1, 1, 1⟩) ∧
    (FileSender.run
        ⟨fun k => if k = 0 then some [2]
                  else if k = 1 then some [5, 1, 0, 1, 0, 0, 0, 1, 0, 0, 0]
                  else if k = 2 then some [5, 0, 0] else none,
          fun _ => 0, fun k => decide (k = 1), fun _ => true⟩ 3
        (FileSender.init [116] 256 200) (List.replicate 256 7)).bind
      (fun r => .ok (r.1.events.map SenderEvent.summary))
      = .ok [(2, 1, 0, true), (0, 1, 1, false), (2, 3, 0, true), (2, 4, 0, true),
             (0, 1, 1, true), (1, 3, 0, false), (2, 4, 0, true), (2, 6, 0, true)] := by
  decide

/-- The handshake loop never consults the loss hook and counts no lost
datagram. -/
theorem file_header_attempts_no_drop (env : SenderEnv) (request : List Nat) :
    ∀ (n : Nat) (s : SenderRun),
      (FileSender.file_header_attempts env request n s).1.drops = s.drops ∧
      (FileSender.file_header_attempts env request n s).1.sender.stats.total_packets_lost
        = s.sender.stats.total_packets_lost := by
  intro n
  induction n with
  | zero => intro s; exact ⟨rfl, rfl⟩
  | succ n ih =>
    intro s
    have hd : (FileSender.recv_packet_timeout env
        (FileSender.send_packet env s request false).1).1.drops = s.drops := by
      unfold FileSender.send_packet
      cases hok : env.sendto_ok s.sendtos <;> simp [FileSender.recv_packet_timeout, hok]
    have hl : (FileSender.recv_packet_timeout env
        (FileSender.send_packet env s request false).1).1.sender.stats.total_packets_lost
          = s.sender.stats.total_packets_lost := by
      unfold FileSender.send_packet
      cases hok : env.sendto_ok s.sendtos <;> simp [FileSender.recv_packet_timeout, hok]
    obtain ⟨i1, i2⟩ := ih
      (FileSender.recv_packet_timeout env (FileSender.send_packet env s request false).1).1
    simp only [FileSender.file_header_attempts]
    split
    · split
      · exact ⟨hd, hl⟩
      · exact ⟨by rw [i1, hd], by rw [i2, hl]⟩
    · exact ⟨by rw [i1, hd], by rw [i2, hl]⟩

/-- The IS_BLAST_OVER loop never consults the loss hook and counts no lost
datagram. -/
theorem blast_over_attempts_no_drop (env : SenderEnv) (request : List Nat) :
    ∀ (n : Nat) (s : SenderRun) (r : SenderRun × Option RecMissPacket),
      FileSender.blast_over_attempts env request n s = .ok r →
      r.1.drops = s.drops ∧
      r.1.sender.stats.total_packets_lost = s.sender.stats.total_packets_lost := by
  intro n
  induction n with
  | zero => intro s r h; cases h; exact ⟨rfl, rfl⟩
  | succ n ih =>
    intro s r h
    have hd : (FileSender.recv_packet_timeout env
        (FileSender.send_packet env s request false).1).1.drops = s.drops := by
      unfold FileSender.send_packet
      cases hok : env.sendto_ok s.sendtos <;> simp [FileSender.recv_packet_timeout, hok]
    have hl : (FileSender.recv_packet_timeout env
        (FileSender.send_packet env s request false).1).1.sender.stats.total_packets_lost
          = s.sender.stats.total_packets_lost := by
      unfold FileSender.send_packet
      cases hok : env.sendto_ok s.sendtos <;> simp [FileSender.recv_packet_timeout, hok]
    simp only [FileSender.blast_over_attempts] at h
    split at h
    · split at h
      · rename_i x _ _
        cases hx : RecMissPacket.deserialize RecMissPacket.init x.2 with
        | fault => rw [hx] at h; cases h
        | noFuel => rw [hx] at h; cases h
        | ok d =>
          rw [hx, Outcome.bind_ok] at h
          cases h
          exact ⟨hd, hl⟩
      · obtain ⟨i1, i2⟩ := ih _ _ h
        exact ⟨by rw [i1, hd], by rw [i2, hl]⟩
    · obtain ⟨i1, i2⟩ := ih _ _ h
      exact ⟨by rw [i1, hd], by rw [i2, hl]⟩

/-- C22 (as stated, refuted): the counters are 32-bit. A DATA datagram dropped
by the loss hook when total_packets_lost holds 2^32 - 1 leaves it at 0, and a
DATA datagram sent when total_packets_sent and total_data_packets_sent hold
2^32 - 1 leaves both at 0. -/
theorem send_packet_counter_wraps :
    (FileSender.send_packet ⟨fun _ => none, fun _ => 0, fun _ => true, fun _ => true⟩
        ⟨{ FileSender.init [116] 256 200 with stats := ⟨0, 0, 4294967295, 0, 0⟩ }, 0, 0, 0, []⟩
        [3, 0] true).1.sender.stats = ⟨0, 0, 0, 0, 0⟩ ∧
    (FileSender.send_packet ⟨fun _ => none, fun _ => 0, fun _ => false, fun _ => true⟩
        ⟨{ FileSender.init [116] 256 200 with
           stats := ⟨4294967295, 4294967295, 0, 0, 0⟩ }, 0, 0, 0, []⟩
        [3, 0] true).1.sender.stats = ⟨0, 0, 0, 0, 0⟩ := by
  decide

/-- C22 (amended): `send_packet` consults the loss hook only for a DATA
datagram. When the hook answers true the datagram is not handed to `sendto`,
total_packets_lost increases by 1 modulo 2^32 and the other counters are
unchanged. When a DATA datagram is sent, total_packets_sent and
total_data_packets_sent each increase by 1 modulo 2^32 and total_packets_lost
is unchanged. A control datagram is never dropped by the hook and, when sent,
increases total_packets_sent by 1 modulo 2^32 and nothing else. A failed
`sendto` changes no counter. Modulo 2^32 the increase is by exactly 1 for a
counter below 2^32 - 1. The control senders `send_file_header`,
`send_blast_over_and_wait` and `send_disconnect` never consult the hook. -/
theorem send_packet_counters (env : SenderEnv) (s : SenderRun) (datagram : List Nat) :
    ((FileSender.send_packet env s datagram false).1.drops = s.drops ∧
      (FileSender.send_packet env s datagram true).1.drops = s.drops + 1) ∧
    (env.drop s.drops = true →
      FileSender.send_packet env s datagram true
        = ({ s with
             drops := s.drops + 1,
             sender := { s.sender with
               stats := { s.sender.stats with
                 total_packets_lost :=
                   (s.sender.stats.total_packets_lost + 1) % 4294967296 } },
             events := s.events ++ [SenderEvent.lost datagram] }, false)) ∧
    (env.drop s.drops = false → env.sendto_ok s.sendtos = true →
      FileSender.send_packet env s datagram true
        = ({ s with
             drops := s.drops + 1, sendtos := s.sendtos + 1,
             sender := { s.sender with
               stats := { s.sender.stats with
                 total_packets_sent := (s.sender.stats.total_packets_sent + 1) % 4294967296,
                 total_data_packets_sent :=
                   (s.sender.stats.total_data_packets_sent + 1) % 4294967296 } },
             events := s.events ++ [SenderEvent.sendto datagram true] }, true)) ∧
    (env.sendto_ok s.sendtos = true →
      FileSender.send_packet env s datagram false
        = ({ s with
             sendtos := s.sendtos + 1,
             sender := { s.sender with
               stats := { s.sender.stats with
                 total_packets_sent :=
                   (s.sender.stats.total_packets_sent + 1) % 4294967296 } },
             events := s.events ++ [SenderEvent.sendto datagram true] }, true)) ∧
    (env.sendto_ok s.sendtos = false →
      FileSender.send_packet env s datagram false
        = ({ s with
             sendtos := s.sendtos + 1,
             events := s.events ++ [SenderEvent.sendto datagram false] }, false) ∧
      (env.drop s.drops = false →
        FileSender.send_packet env s datagram true
          = ({ s with
               drops := s.drops + 1, sendtos := s.sendtos + 1,
               events := s.events ++ [SenderEvent.sendto datagram false] }, false))) ∧
    (∀ c, c < 4294967295 → (c + 1) % 4294967296 = c + 1) ∧
    ((FileSender.send_file_header env s).1.drops = s.drops ∧
      (FileSender.send_disconnect env s).drops = s.drops ∧
      ∀ a b r, FileSender.send_blast_over_and_wait env s a b = .ok r → r.1.drops = s.drops) := by
  refine ⟨⟨?_, ?_⟩, ?_, ?_, ?_, ?_, ?_, ?_, ?_, ?_⟩
  · unfold FileSender.send_packet
    cases hok : env.sendto_ok s.sendtos <;> simp [hok]
  · unfold FileSender.send_packet
    cases hd : env.drop s.drops <;> cases hok : env.sendto_ok s.sendtos <;> simp [hd, hok]
  · intro hd
    unfold FileSender.send_packet
    simp [hd]
  · intro hd hok
    unfold FileSender.send_packet
    simp [hd, hok]
  · intro hok
    unfold FileSender.send_packet
    simp [hok]
  · intro hok
    refine ⟨?_, ?_⟩
    · unfold FileSender.send_packet
      simp [hok]
    · intro hd
      unfold FileSender.send_packet
      simp [hd, hok]
  · intro c hc
    omega
  · exact (file_header_attempts_no_drop env _ 5 s).1
  · unfold FileSender.send_disconnect FileSender.send_packet
    cases hok : env.sendto_ok s.sendtos <;> simp [hok]
  · intro a b r h
    exact (blast_over_attempts_no_drop env _ 5 s r h).1

theorem send_packet_counters_witness :
    FileSender.send_packet ⟨fun _ => none, fun _ => 0, fun _ => true, fun _ => true⟩
        ⟨FileSender.init [116] 256 200, 0, 0, 0, []⟩ [3, 0] true
      = ({ (⟨FileSender.init [116] 256 200, 0, 0, 0, []⟩ : SenderRun) with
           drops := 0 + 1,
           sender := { FileSender.init [116] 256 200 with
             stats := { (FileSender.init [116] 256 200).stats with
               total_packets_lost := (0 + 1) % 4294967296 } },
           events := [] ++ [SenderEvent.lost [3, 0]] }, false) :=
  (send_packet_counters ⟨fun _ => none, fun _ => 0, fun _ => true, fun _ => true⟩
    ⟨FileSender.init [116] 256 200, 0, 0, 0, []⟩ [3, 0]).2.1 rfl

theorem c_string_of_no_nul (name : List Nat) (h : ∀ c ∈ name, c ≠ 0) : c_string name = name := by
  unfold c_string
  rw [List.takeWhile_eq_self_iff]
  intro c hc
  simpa using h c hc

theorem c_string_append_zeros (l : List Nat) (n : Nat) (h : ∀ c ∈ l, c ≠ 0) :
    c_string (l ++ List.replicate (n + 1) 0) = l := by
  unfold c_string
  induction l with
  | nil => simp [List.replicate_succ, List.takeWhile]
  | cons a rest ih =>
    have ha : a ≠ 0 := h a (List.mem_cons_self _ _)
    simp only [List.cons_append, List.takeWhile_cons]
    have : (a != 0) = true := by simpa using ha
    rw [this]
    simp only [if_true]
    rw [ih (fun c hc => h c (List.mem_cons_of_mem _ hc))]

/-- C23: for an output filename without NUL bytes and a record size of 256, 512
or 1024, the filename field of the FILE_HDR that `send_file_header` sends has
256 bytes: the first min(len, 255) bytes of the name followed by zero bytes
only, so that byte 255 is 0; and `process_file_hdr`, given the datagram, takes
as output filename the name cut to its first 255 bytes. -/
theorem filename_field_round_trip (sd : FileSender) (st0 : FileReceiver)
    (hname : ∀ c ∈ sd.output_filename, c ≠ 0)
    (hR : sd.record_size = 256 ∨ sd.record_size = 512 ∨ sd.record_size = 1024) :
    sd.file_header.filename
      = sd.output_filename.take 255
        ++ List.replicate (256 - min sd.output_filename.length 255) 0 ∧
    sd.file_header.filename.length = 256 ∧
    sd.file_header.filename[255]? = some 0 ∧
    (sd.file_header.serialize.2.drop 15).take 256 = sd.file_header.filename ∧
    ∃ st out, st0.process_file_hdr sd.file_header.serialize.2 = .ok (st, out) ∧
      st.output_filename = sd.output_filename.take 255 := by
  have hfield : sd.file_header.filename
      = sd.output_filename.take 255
        ++ List.replicate (256 - min sd.output_filename.length 255) 0 := by
    show filename_field sd.output_filename = _
    unfold filename_field
    simp only [c_string_of_no_nul _ hname, MAX_FILENAME_LEN, List.length_take]
    rw [Nat.min_comm]
  have hlen : sd.file_header.filename.length = 256 := filename_field_length sd.output_filename
  obtain ⟨k, hk⟩ : ∃ k, 256 - min sd.output_filename.length 255 = k + 1 :=
    ⟨255 - min sd.output_filename.length 255, by omega⟩
  have htl : (sd.output_filename.take 255).length = min sd.output_filename.length 255 := by
    rw [List.length_take, Nat.min_comm]
  have h255 : sd.file_header.filename[255]? = some 0 := by
    rw [hfield, List.getElem?_append_right (by rw [htl]; omega), htl,
      List.getElem?_replicate_of_lt (by omega)]
  have e0 : sd.file_header.serialize.2
      = ([sd.file_header.type] ++ le_bytes 8 sd.file_header.file_size
          ++ le_bytes 2 sd.file_header.record_size
          ++ le_bytes 4 sd.file_header.blast_size) ++ sd.file_header.filename := by
    simp [FileHeaderPacket.serialize, ← hlen, MAX_FILENAME_LEN, List.append_assoc]
  have hdrop : (sd.file_header.serialize.2.drop 15).take 256 = sd.file_header.filename := by
    rw [e0, List.drop_left' (by simp [le_bytes_length]), ← hlen, List.take_length]
  have hrs : read_le sd.file_header.serialize.2 9 2 = sd.record_size := by
    have := read_le_at ([sd.file_header.type] ++ le_bytes 8 sd.file_header.file_size)
      (le_bytes 4 sd.file_header.blast_size ++ sd.file_header.filename) 2
      sd.file_header.record_size 9 (by simp [le_bytes_length])
      (by
        show sd.record_size < 256 ^ 2
        rcases hR with h | h | h <;> rw [h] <;> norm_num)
    rw [e0]
    simpa [List.append_assoc] using this
  have hR0 : sd.record_size ≠ 0 := by rcases hR with h | h | h <;> omega
  have hnul : sd.file_header.filename.all (fun c => c != 0) = false :=
    filename_field_has_nul sd.output_filename
  have hfn : (FileHeaderPacket.deserialize sd.file_header.serialize.2).2.filename
      = sd.file_header.filename := hdrop
  have hrec : (FileHeaderPacket.deserialize sd.file_header.serialize.2).2.record_size
      = sd.record_size := hrs
  refine ⟨hfield, hlen, h255, hdrop, ?_⟩
  unfold FileReceiver.process_file_hdr
  simp only [hfn, hrec, hnul, hR0, if_false, Bool.false_eq_true]
  refine ⟨_, _, rfl, ?_⟩
  show c_string sd.file_header.filename = _
  rw [hfield, hk]
  exact c_string_append_zeros _ k
    (fun c hc => hname c (List.mem_of_mem_take hc))

theorem filename_field_round_trip_witness :
    (FileSender.init [114, 46, 116, 120, 116] 256 200).file_header.filename
      = (FileSender.init [114, 46, 116, 120, 116] 256 200).output_filename.take 255
        ++ List.replicate
            (256 - min (FileSender.init [114, 46, 116, 120, 116] 256 200).output_filename.length
              255) 0 ∧
    (FileSender.init [114, 46, 116, 120, 116] 256 200).file_header.filename.length = 256 ∧
    (FileSender.init [114, 46, 116, 120, 116] 256 200).file_header.filename[255]? = some 0 ∧
    ((FileSender.init [114, 46, 116, 120, 116] 256 200).file_header.serialize.2.drop 15).take 256
      = (FileSender.init [114, 46, 116, 120, 116] 256 200).file_header.filename ∧
    ∃ st out, FileReceiver.init.process_file_hdr
        (FileSender.init [114, 46, 116, 120, 116] 256 200).file_header.serialize.2
        = .ok (st, out) ∧
      st.output_filename
        = (FileSender.init [114, 46, 116, 120, 116] 256 200).output_filename.take 255 :=
  filename_field_round_trip (FileSender.init [114, 46, 116, 120, 116] 256 200)
    FileReceiver.init (by decide) (Or.inl rfl)

/-- With all `n` segments inside the datagram and inside the segment array the
segment loop of `DataPacket::deserialize` reads them from their offsets. -/
theorem data_deserialize_segments_exact (buffer : List Nat) :
    ∀ (n i offset : Nat) (segments : List Segment), offset + 8 * n ≤ buffer.length →
      i + n ≤ segments.length →
      DataPacket.deserialize_segments buffer n i offset segments
        = .ok (true, offset + 8 * n,
            segments.take i
              ++ (List.range n).map
                  (fun j => ⟨read_le buffer (offset + 8 * j) 4,
                            read_le buffer (offset + 8 * j + 4) 4⟩)
              ++ segments.drop (i + n)) := by
  intro n
  induction n with
  | zero =>
    intro i offset segments _ _
    simp [DataPacket.deserialize_segments]
  | succ n ih =>
    intro i offset segments hlen hi
    have h1 : ¬ (offset + 4 * 2 > buffer.length) := by omega
    have h2 : i < segments.length := by omega
    simp only [DataPacket.deserialize_segments, h1, h2, if_false, if_true]
    rw [ih (i + 1) (offset + 4 + 4) _ (by omega) (by rw [List.length_set]; omega),
      take_set_succ _ _ _ h2, List.drop_set_of_lt _ _ (by omega), List.range_succ_eq_map,
      List.map_cons, List.map_map]
    have hmap : (List.range n).map
          (fun j => (⟨read_le buffer (offset + 4 + 4 + 8 * j) 4,
                      read_le buffer (offset + 4 + 4 + 8 * j + 4) 4⟩ : Segment))
        = (List.range n).map
          ((fun j => (⟨read_le buffer (offset + 8 * j) 4,
                       read_le buffer (offset + 8 * j + 4) 4⟩ : Segment)) ∘ Nat.succ) := by
      apply List.map_congr_left
      intro j _
      show _ = (⟨read_le buffer (offset + 8 * (j + 1)) 4,
                 read_le buffer (offset + 8 * (j + 1) + 4) 4⟩ : Segment)
      rw [show offset + 4 + 4 + 8 * j = offset + 8 * (j + 1) by omega]
    rw [hmap]
    simp only [Nat.mul_zero, Nat.add_zero, List.append_assoc, List.singleton_append]
    rw [show offset + 4 + 4 + 8 * n = offset + 8 * (n + 1) by omega,
      show i + 1 + n = i + (n + 1) by omega]

/-- When the declared segments do not all fit in the datagram and those that
fit stay inside the segment array, the segment loop takes the early
`return 0`. -/
theorem data_deserialize_segments_truncated (buffer : List Nat) :
    ∀ (n i offset : Nat) (segments : List Segment), offset ≤ buffer.length →
      buffer.length < offset + 8 * n → i + (buffer.length - offset) / 8 ≤ segments.length →
      ∃ o s, DataPacket.deserialize_segments buffer n i offset segments = .ok (false, o, s) := by
  intro n
  induction n with
  | zero => intro i offset segments h1 h2 _; omega
  | succ n ih =>
    intro i offset segments h1 h2 h3
    unfold DataPacket.deserialize_segments
    by_cases hc : offset + 4 * 2 > buffer.length
    · rw [if_pos hc]; exact ⟨_, _, rfl⟩
    · rw [if_neg hc, if_pos (by omega)]
      exact ih (i + 1) (offset + 4 + 4) _ (by omega) (by omega)
        (by rw [List.length_set]; omega)

set_option maxRecDepth 100000 in
/-- C24 (code at fault): `DataPacket::deserialize` into a fresh packet. A
buffer of fewer than 2 bytes gives 0; a buffer too short for the k segments its
second byte declares gives 0 as long as it has fewer than 138 bytes; with
k ≤ 16 and all k segments inside, the call returns the buffer length, the k
segments read from bytes 2..2+8k and the remaining bytes as data. With 17 or
more segments declared and 138 or more bytes the loop writes `segments[16]`,
outside the array of 16: for [3, 17] followed by 136 bytes (all 17 segments
inside) and for [3, 20] followed by 139 bytes (truncated). -/
theorem data_deserialize_truncation_check (buffer : List Nat) :
    (buffer.length < 2 → ∃ p, DataPacket.deserialize DataPacket.init buffer = .ok (0, p)) ∧
    (2 ≤ buffer.length → buffer.length < 2 + 8 * buffer.getD 1 0 → buffer.length < 138 →
      ∃ p, DataPacket.deserialize DataPacket.init buffer = .ok (0, p)) ∧
    (2 + 8 * buffer.getD 1 0 ≤ buffer.length → buffer.getD 1 0 ≤ 16 →
      DataPacket.deserialize DataPacket.init buffer
        = .ok (buffer.length,
            { type := buffer.getD 0 0,
              num_segments := buffer.getD 1 0,
              segments :=
                (List.range (buffer.getD 1 0)).map
                    (fun j => ⟨read_le buffer (2 + 8 * j) 4, read_le buffer (2 + 8 * j + 4) 4⟩)
                  ++ DataPacket.init.segments.drop (buffer.getD 1 0),
              data := buffer.drop (2 + 8 * buffer.getD 1 0) })) ∧
    DataPacket.deserialize DataPacket.init ([3, 17] ++ List.replicate 136 0) = .fault ∧
    ([3, 20] ++ List.replicate 139 0).length < 2 + 8 * 20 ∧
    DataPacket.deserialize DataPacket.init ([3, 20] ++ List.replicate 139 0) = .fault := by
  have hseg : DataPacket.init.segments.length = 16 := List.length_replicate _ _
  refine ⟨?_, ?_, ?_, by decide, by decide, by decide⟩
  · intro h
    unfold DataPacket.deserialize
    by_cases h0 : 0 + 1 > buffer.length
    · simp only [h0, if_true]; exact ⟨_, rfl⟩
    · have h1 : 1 + 1 > buffer.length := by omega
      simp only [h0, h1, if_false, if_true]; exact ⟨_, rfl⟩
  · intro h2 htr h138
    have h0 : ¬ (0 + 1 > buffer.length) := by omega
    have h1 : ¬ (1 + 1 > buffer.length) := by omega
    obtain ⟨o, sg, hs⟩ := data_deserialize_segments_truncated buffer (buffer.getD 1 0) 0 2
      DataPacket.init.segments h2 htr (by rw [hseg]; omega)
    unfold DataPacket.deserialize
    simp only [h0, h1, if_false, hs, Outcome.bind_ok, if_true]
    exact ⟨_, rfl⟩
  · intro hfit hk
    have h0 : ¬ (0 + 1 > buffer.length) := by omega
    have h1 : ¬ (1 + 1 > buffer.length) := by omega
    have hs := data_deserialize_segments_exact buffer (buffer.getD 1 0) 0 2
      DataPacket.init.segments hfit (by rw [hseg]; omega)
    simp only [List.take_zero, List.nil_append, Nat.zero_add] at hs
    unfold DataPacket.deserialize
    simp only [h0, h1, if_false, hs, Outcome.bind_ok, Bool.true_eq_false]
    by_cases hb : buffer.length > 2 + 8 * buffer.getD 1 0
    · rw [if_pos hb]
    · rw [if_neg hb]
      have hd : buffer.drop (2 + 8 * buffer.getD 1 0) = [] :=
        List.drop_eq_nil_of_le (by omega)
      rw [hd, show 2 + 8 * buffer.getD 1 0 = buffer.length by omega]
      rfl

set_option maxRecDepth 100000 in
/-- C27 (as stated, refuted): the receiver is sent a FILE_HDR whose filename
field holds `../x` (bytes 46, 46, 47, 120). `process_file_hdr` acknowledges it
and keeps the name as it is, and with the timestamp `20251029-9:50-PM` the path
opened by `write_file_to_disk` is `received_files/20251029-9:50-PM/../x`, with
the separator 47 after the timestamp directory. -/
theorem output_path_escapes_directory :
    (FileReceiver.init.process_file_hdr
        ({ FileHeaderPacket.init with
           file_size := 10, record_size := 256, blast_size := 200,
           filename := filename_field [46, 46, 47, 120] } : FileHeaderPacket).serialize.2).bind
      (fun r => .ok (r.2, r.1.output_filename,
        FileReceiver.full_output_path
          [50, 48, 50, 53, 49, 48, 50, 57, 45, 57, 58, 53, 48, 45, 80, 77] r.1))
      = .ok ([[2]], [46, 46, 47, 120],
          [114, 101, 99, 101, 105, 118, 101, 100, 95, 102, 105, 108, 101, 115, 47,
           50, 48, 50, 53, 49, 48, 50, 57, 45, 57, 58, 53, 48, 45, 80, 77,
           47, 46, 46, 47, 120]) := by
  decide

/-- C27 (amended): the receiver neither rejects nor changes a filename. For
every FILE_HDR datagram with a filename field that holds a NUL and a record
size other than 0, `process_file_hdr` acknowledges the header and takes as
output filename the bytes of the field before its first NUL, whatever they
are; the path opened by `write_file_to_disk` is `received_files/`, the
timestamp, `/` and those bytes, so every byte of the name, a path separator
included, is in the path after the timestamp directory. -/
theorem output_path_keeps_filename (st0 : FileReceiver) (buffer timestamp : List Nat)
    (hnul : (FileHeaderPacket.deserialize buffer).2.filename.all (fun c => c != 0) = false)
    (hR : (FileHeaderPacket.deserialize buffer).2.record_size ≠ 0) :
    ∃ st, st0.process_file_hdr buffer = .ok (st, [[2]]) ∧
      st.output_filename = c_string (FileHeaderPacket.deserialize buffer).2.filename ∧
      FileReceiver.full_output_path timestamp st
        = [114, 101, 99, 101, 105, 118, 101, 100, 95, 102, 105, 108, 101, 115, 47] ++ timestamp
            ++ [47] ++ c_string (FileHeaderPacket.deserialize buffer).2.filename ∧
      ∀ c ∈ c_string (FileHeaderPacket.deserialize buffer).2.filename,
        c ∈ (FileReceiver.full_output_path timestamp st).drop (15 + timestamp.length + 1) := by
  unfold FileReceiver.process_file_hdr
  simp only [hnul, hR, if_false, Bool.false_eq_true]
  refine ⟨_, rfl, rfl, rfl, ?_⟩
  intro c hc
  unfold FileReceiver.full_output_path
  simp only
  rw [List.drop_left' (by simp; omega)]
  exact hc

set_option maxRecDepth 100000 in
theorem output_path_keeps_filename_witness :
    ∃ st, FileReceiver.init.process_file_hdr
        ({ FileHeaderPacket.init with
           file_size := 10, record_size := 256, blast_size := 200,
           filename := filename_field [97, 92, 98] } : FileHeaderPacket).serialize.2
        = .ok (st, [[2]]) ∧
      st.output_filename
        = c_string (FileHeaderPacket.deserialize
            ({ FileHeaderPacket.init with
               file_size := 10, record_size := 256, blast_size := 200,
               filename := filename_field [97, 92, 98] } : FileHeaderPacket).serialize.2).2.filename ∧
      FileReceiver.full_output_path [49] st
        = [114, 101, 99, 101, 105, 118, 101, 100, 95, 102, 105, 108, 101, 115, 47] ++ [49]
            ++ [47] ++ c_string (FileHeaderPacket.deserialize
              ({ FileHeaderPacket.init with
                 file_size := 10, record_size := 256, blast_size := 200,
                 filename := filename_field [97, 92, 98] } : FileHeaderPacket).serialize.2).2.filename ∧
      ∀ c ∈ c_string (FileHeaderPacket.deserialize
            ({ FileHeaderPacket.init with
               file_size := 10, record_size := 256, blast_size := 200,
               filename := filename_field [97, 92, 98] } : FileHeaderPacket).serialize.2).2.filename,
        c ∈ (FileReceiver.full_output_path [49] st).drop (15 + [49].length + 1) :=
  output_path_keeps_filename FileReceiver.init _ [49] (by decide) (by decide)

theorem set_all_length {α : Type} :
    ∀ (ws : List (Nat × α)) (l : List α), (set_all l ws).length = l.length := by
  intro ws
  induction ws with
  | nil => intro l; rfl
  | cons w ws ih => intro l; simp [set_all, ih]

theorem set_all_append {α : Type} :
    ∀ (ws1 ws2 : List (Nat × α)) (l : List α),
      set_all l (ws1 ++ ws2) = set_all (set_all l ws1) ws2 := by
  intro ws1
  induction ws1 with
  | nil => intro ws2 l; rfl
  | cons w ws ih => intro ws2 l; simp [set_all, ih]

theorem apply_writes_append (ws1 ws2 : List (Nat × List Nat)) (st : FileReceiver) :
    apply_writes (ws1 ++ ws2) st = apply_writes ws2 (apply_writes ws1 st) := by
  simp [apply_writes, set_all_append]

theorem outcome_bind_assoc {α β γ : Type} (x : Outcome α) (f : α → Outcome β)
    (g : β → Outcome γ) : (x.bind f).bind g = x.bind (fun a => (f a).bind g) := by
  cases x <;> rfl

/-- The record loop of `process_data_packet` makes the stores of
`record_writes`. -/
theorem absorb_records_writes (data : List Nat) (end_rec : Nat) :
    ∀ (fuel : Nat) (st : FileReceiver) (rec off : Nat),
      FileReceiver.absorb_records data end_rec fuel st rec off
        = (record_writes data st.total_records st.record_size st.record_buffer.length
            st.received_records.length end_rec fuel rec off).bind
          fun r => .ok (apply_writes r.1 st, r.2) := by
  intro fuel
  induction fuel with
  | zero => intro st rec off; rfl
  | succ fuel ih =>
    intro st rec off
    unfold FileReceiver.absorb_records record_writes
    by_cases h1 : rec ≤ end_rec
    · rw [if_pos h1, if_pos h1]
      by_cases h2 : 1 ≤ rec ∧ rec ≤ st.total_records
      · rw [if_pos h2, if_pos h2]
        by_cases h3 : rec < st.record_buffer.length ∧ rec < st.received_records.length
            ∧ off + st.record_size ≤ data.length
        · rw [if_pos h3, if_pos h3, ih, outcome_bind_assoc]
          simp only [List.length_set, Outcome.bind_ok]
          rfl
        · rw [if_neg h3, if_neg h3]; rfl
      · rw [if_neg h2, if_neg h2]
        exact ih _ _ _
    · rw [if_neg h1, if_neg h1]; rfl

theorem apply_writes_fields (ws : List (Nat × List Nat)) (st : FileReceiver) :
    (apply_writes ws st).total_records = st.total_records ∧
    (apply_writes ws st).record_size = st.record_size ∧
    (apply_writes ws st).record_buffer.length = st.record_buffer.length ∧
    (apply_writes ws st).received_records.length = st.received_records.length :=
  ⟨rfl, rfl, set_all_length _ _, set_all_length _ _⟩

/-- The segment loop of `process_data_packet` makes the stores of
`segment_writes`. -/
theorem absorb_segments_writes (pkt : DataPacket) (fuel : Nat) :
    ∀ (n i : Nat) (st : FileReceiver) (off : Nat),
      FileReceiver.absorb_segments pkt fuel n i st off
        = (segment_writes pkt st.total_records st.record_size st.record_buffer.length
            st.received_records.length fuel n i off).bind
          fun ws => .ok (apply_writes ws st) := by
  intro n
  induction n with
  | zero => intro i st off; rfl
  | succ n ih =>
    intro i st off
    unfold FileReceiver.absorb_segments segment_writes
    cases hg : pkt.segments.get? i with
    | none => rfl
    | some sg =>
      simp only
      rw [absorb_records_writes]
      cases hr : record_writes pkt.data st.total_records st.record_size
          st.record_buffer.length st.received_records.length sg.end_record fuel
          sg.start_record off with
      | fault => rfl
      | noFuel => rfl
      | ok r =>
        simp only [Outcome.bind_ok]
        rw [ih]
        obtain ⟨f1, f2, f3, f4⟩ := apply_writes_fields r.1 st
        rw [f1, f2, f3, f4]
        cases hs : segment_writes pkt st.total_records st.record_size
            st.record_buffer.length st.received_records.length fuel n (i + 1) r.2 with
        | fault => rfl
        | noFuel => rfl
        | ok ws =>
          simp only [Outcome.bind_ok]
          rw [apply_writes_append]

/-- A store that a later store of the list overwrites does not count. -/
theorem set_all_of_overwritten {α : Type} (i : Nat) (v : α) :
    ∀ (ws : List (Nat × α)) (l : List α), (∃ w ∈ ws, w.1 = i) →
      set_all (l.set i v) ws = set_all l ws := by
  intro ws
  induction ws with
  | nil => intro l h; obtain ⟨w, hw, -⟩ := h; cases hw
  | cons w ws ih =>
    intro l h
    by_cases hw : w.1 = i
    · simp only [set_all]
      rw [← hw, List.set_set]
    · obtain ⟨x, hx, hxi⟩ := h
      have hx2 : x ∈ ws := by
        rcases List.mem_cons.mp hx with h1 | h1
        · rw [h1] at hxi; exact absurd hxi hw
        · exact h1
      simp only [set_all]
      rw [List.set_comm v w.2 l (Ne.symm hw)]
      exact ih _ ⟨x, hx2, hxi⟩

/-- A store at an index that the list does not touch can be made last. -/
theorem set_all_of_untouched {α : Type} (i : Nat) (v : α) :
    ∀ (ws : List (Nat × α)) (l : List α), (∀ w ∈ ws, w.1 ≠ i) →
      set_all (l.set i v) ws = (set_all l ws).set i v := by
  intro ws
  induction ws with
  | nil => intro l _; rfl
  | cons w ws ih =>
    intro l h
    have hw : w.1 ≠ i := h w (List.mem_cons_self _ _)
    simp only [set_all]
    rw [List.set_comm v w.2 l (Ne.symm hw)]
    exact ih _ (fun x hx => h x (List.mem_cons_of_mem _ hx))

/-- Making the stores of a list a second time changes nothing. -/
theorem set_all_idem {α : Type} :
    ∀ (ws : List (Nat × α)) (l : List α), set_all (set_all l ws) ws = set_all l ws := by
  intro ws
  induction ws with
  | nil => intro l; rfl
  | cons w ws ih =>
    intro l
    show set_all ((set_all (l.set w.1 w.2) ws).set w.1 w.2) ws = set_all (l.set w.1 w.2) ws
    by_cases h : ∃ x ∈ ws, x.1 = w.1
    · rw [set_all_of_overwritten w.1 w.2 ws _ h]
      exact ih _
    · have h2 : ∀ x ∈ ws, x.1 ≠ w.1 := fun x hx hxe => h ⟨x, hx, hxe⟩
      rw [set_all_of_untouched w.1 w.2 ws _ h2, ih,
        set_all_of_untouched w.1 w.2 ws l h2, List.set_set]

/-- Stores at disjoint indices can be made in either order. -/
theorem set_all_comm {α : Type} :
    ∀ (ws1 ws2 : List (Nat × α)) (l : List α),
      (∀ w1 ∈ ws1, ∀ w2 ∈ ws2, w2.1 ≠ w1.1) →
      set_all (set_all l ws1) ws2 = set_all (set_all l ws2) ws1 := by
  intro ws1
  induction ws1 with
  | nil => intro ws2 l _; rfl
  | cons w ws ih =>
    intro ws2 l h
    show set_all (set_all (l.set w.1 w.2) ws) ws2 = set_all ((set_all l ws2).set w.1 w.2) ws
    rw [ih ws2 _ (fun w1 hw1 => h w1 (List.mem_cons_of_mem _ hw1)),
      set_all_of_untouched w.1 w.2 ws2 l (fun x hx => h w (List.mem_cons_self _ _) x hx)]

theorem apply_writes_idem (ws : List (Nat × List Nat)) (st : FileReceiver) :
    apply_writes ws (apply_writes ws st) = apply_writes ws st := by
  simp only [apply_writes, set_all_idem]

theorem apply_writes_comm (ws1 ws2 : List (Nat × List Nat)) (st : FileReceiver)
    (h : ∀ w1 ∈ ws1, ∀ w2 ∈ ws2, w2.1 ≠ w1.1) :
    apply_writes ws2 (apply_writes ws1 st) = apply_writes ws1 (apply_writes ws2 st) := by
  simp only [apply_writes]
  rw [set_all_comm ws1 ws2 st.record_buffer h,
    set_all_comm (ws1.map fun w => (w.1, true)) (ws2.map fun w => (w.1, true))
      st.received_records (by
        intro w1 hw1 w2 hw2
        obtain ⟨a, ha, rfl⟩ := List.mem_map.mp hw1
        obtain ⟨b, hb, rfl⟩ := List.mem_map.mp hw2
        exact h a ha b hb)]

/-- `process_data_packet` makes the stores that the decoded packet gives for
the record count, the record size and the vector lengths of the receiver. -/
theorem process_data_packet_writes (fuel : Nat) (st : FileReceiver) (buffer : List Nat) :
    FileReceiver.process_data_packet fuel st buffer
      = (DataPacket.deserialize DataPacket.init buffer).bind fun r =>
          (segment_writes r.2 st.total_records st.record_size st.record_buffer.length
            st.received_records.length fuel r.2.num_segments 0 0).bind
            fun ws => .ok (apply_writes ws st) := by
  unfold FileReceiver.process_data_packet
  cases hd : DataPacket.deserialize DataPacket.init buffer with
  | fault => rfl
  | noFuel => rfl
  | ok r =>
    simp only [Outcome.bind_ok]
    exact absorb_segments_writes _ _ _ _ _ _

/-- A call of `process_data_packet` that returns made the stores of a list
that depends on the receiver through its record count, record size and vector
lengths only. -/
theorem process_data_packet_stores (fuel : Nat) (st st1 : FileReceiver) (buffer : List Nat)
    (h : FileReceiver.process_data_packet fuel st buffer = .ok st1) :
    ∃ r ws, DataPacket.deserialize DataPacket.init buffer = .ok r ∧
      segment_writes r.2 st.total_records st.record_size st.record_buffer.length
        st.received_records.length fuel r.2.num_segments 0 0 = .ok ws ∧
      st1 = apply_writes ws st := by
  rw [process_data_packet_writes] at h
  cases hd : DataPacket.deserialize DataPacket.init buffer with
  | fault => rw [hd] at h; cases h
  | noFuel => rw [hd] at h; cases h
  | ok r =>
    rw [hd, Outcome.bind_ok] at h
    cases hs : segment_writes r.2 st.total_records st.record_size st.record_buffer.length
        st.received_records.length fuel r.2.num_segments 0 0 with
    | fault => rw [hs] at h; cases h
    | noFuel => rw [hs] at h; cases h
    | ok ws =>
      rw [hs, Outcome.bind_ok] at h
      cases h
      exact ⟨r, ws, rfl, hs, rfl⟩

/-- C25: when `process_data_packet` returns on a DATA datagram, a second call on
the same datagram right after returns too and leaves the receiver as the first
call left it: the same bitmap, the same stored records. -/
theorem duplicate_delivery_idempotent (fuel : Nat) (st st1 : FileReceiver)
    (buffer : List Nat) (h : FileReceiver.process_data_packet fuel st buffer = .ok st1) :
    FileReceiver.process_data_packet fuel st1 buffer = .ok st1 ∧
    ∀ st2, FileReceiver.process_data_packet fuel st1 buffer = .ok st2 →
      st2.received_records = st1.received_records ∧ st2.record_buffer = st1.record_buffer := by
  obtain ⟨r, ws, hd, hs, hst⟩ := process_data_packet_stores fuel st st1 buffer h
  have hgoal : FileReceiver.process_data_packet fuel st1 buffer = .ok st1 := by
    rw [process_data_packet_writes, hd, Outcome.bind_ok, hst]
    obtain ⟨f1, f2, f3, f4⟩ := apply_writes_fields ws st
    rw [f1, f2, f3, f4, hs, Outcome.bind_ok, apply_writes_idem]
  refine ⟨hgoal, ?_⟩
  intro st2 h2
  rw [hgoal] at h2
  cases h2
  exact ⟨rfl, rfl⟩

set_option maxRecDepth 100000 in
theorem duplicate_delivery_idempotent_witness :
    FileReceiver.process_data_packet 3
        { FileReceiver.init with
          record_size := 2, total_records := 2,
          received_records := [false, true, true],
          record_buffer := [[], [8, 8], [9, 9]] }
        [3, 2, 1, 0, 0, 0, 2, 0, 0, 0, 1, 0, 0, 0, 1, 0, 0, 0, 7, 7, 9, 9, 8, 8]
      = .ok { FileReceiver.init with
              record_size := 2, total_records := 2,
              received_records := [false, true, true],
              record_buffer := [[], [8, 8], [9, 9]] } ∧
    ∀ st2, FileReceiver.process_data_packet 3
        { FileReceiver.init with
          record_size := 2, total_records := 2,
          received_records := [false, true, true],
          record_buffer := [[], [8, 8], [9, 9]] }
        [3, 2, 1, 0, 0, 0, 2, 0, 0, 0, 1, 0, 0, 0, 1, 0, 0, 0, 7, 7, 9, 9, 8, 8] = .ok st2 →
      st2.received_records
          = ({ FileReceiver.init with
               record_size := 2, total_records := 2,
               received_records := [false, true, true],
               record_buffer := [[], [8, 8], [9, 9]] } : FileReceiver).received_records ∧
        st2.record_buffer
          = ({ FileReceiver.init with
               record_size := 2, total_records := 2,
               received_records := [false, true, true],
               record_buffer := [[], [8, 8], [9, 9]] } : FileReceiver).record_buffer :=
  duplicate_delivery_idempotent 3
    { FileReceiver.init with
      record_size := 2, total_records := 2,
      received_records := [false, false, false],
      record_buffer := [[], [], []] }
    _ [3, 2, 1, 0, 0, 0, 2, 0, 0, 0, 1, 0, 0, 0, 1, 0, 0, 0, 7, 7, 9, 9, 8, 8] (by decide)

/-- The record loop does not return when the last index of the segment is
2^32 - 1: its 32-bit counter never passes it. -/
theorem record_writes_never_returns (data : List Nat) (T R nb nr : Nat) :
    ∀ (fuel rec off : Nat) (x : List (Nat × List Nat) × Nat), rec < 4294967296 →
      record_writes data T R nb nr 4294967295 fuel rec off ≠ .ok x := by
  intro fuel
  induction fuel with
  | zero => intro rec off x _ h; cases h
  | succ fuel ih =>
    intro rec off x hrec h
    have hmod : (rec + 1) % 4294967296 < 4294967296 := Nat.mod_lt _ (by decide)
    unfold record_writes at h
    rw [if_pos (by omega)] at h
    split at h
    · split at h
      · cases hr : record_writes data T R nb nr 4294967295 fuel ((rec + 1) % 4294967296)
            (off + R) with
        | fault => rw [hr] at h; cases h
        | noFuel => rw [hr] at h; cases h
        | ok y => exact ih _ _ _ hmod hr
      · cases h
    · exact ih _ _ _ hmod h

/-- C29 (code at fault): the record loop
`for (uint32_t rec = start; rec <= end; rec++)` of `process_data_packet` with
end = 2^32 - 1 never returns, whatever the receiver, the payload and the start:
with no record in range (total_records = 0) it runs on for every amount of fuel,
and a receiver set up for an empty file that gets the DATA datagram
[3, 1, 0, 0, 0, 0, 255, 255, 255, 255] (one segment, start 0, end 2^32 - 1)
never leaves `process_data_packet`. With start > end the loop returns at
once. -/
theorem absorb_records_runs_forever :
    (∀ (data : List Nat) (fuel : Nat) (st : FileReceiver) (rec off : Nat)
        (x : FileReceiver × Nat), rec < 4294967296 →
      FileReceiver.absorb_records data 4294967295 fuel st rec off ≠ .ok x) ∧
    (∀ (data : List Nat) (fuel : Nat) (st : FileReceiver) (rec off : Nat),
      rec < 4294967296 → st.total_records = 0 →
      FileReceiver.absorb_records data 4294967295 fuel st rec off = .noFuel) ∧
    (∀ fuel : Nat,
      FileReceiver.process_data_packet fuel
        { FileReceiver.init with
          record_size := 256, total_records := 0,
          received_records := [false], record_buffer := [[]] }
        [3, 1, 0, 0, 0, 0, 255, 255, 255, 255] = .noFuel) ∧
    (∀ (data : List Nat) (fuel : Nat) (st : FileReceiver) (rec off end_rec : Nat),
      end_rec < rec →
      FileReceiver.absorb_records data end_rec (fuel + 1) st rec off = .ok (st, off)) := by
  have hzero : ∀ (data : List Nat) (fuel : Nat) (st : FileReceiver) (rec off : Nat),
      rec < 4294967296 → st.total_records = 0 →
      FileReceiver.absorb_records data 4294967295 fuel st rec off = .noFuel := by
    intro data fuel
    induction fuel with
    | zero => intro st rec off _ _; rfl
    | succ fuel ih =>
      intro st rec off hrec hT
      unfold FileReceiver.absorb_records
      rw [if_pos (by omega), if_neg (by rw [hT]; omega)]
      exact ih _ _ _ (Nat.mod_lt _ (by decide)) hT
  refine ⟨?_, hzero, ?_, ?_⟩
  · intro data fuel st rec off x hrec h
    rw [absorb_records_writes] at h
    cases hr : record_writes data st.total_records st.record_size st.record_buffer.length
        st.received_records.length 4294967295 fuel rec off with
    | fault => rw [hr] at h; cases h
    | noFuel => rw [hr] at h; cases h
    | ok y => exact record_writes_never_returns _ _ _ _ _ _ _ _ _ hrec hr
  · intro fuel
    have hd : DataPacket.deserialize DataPacket.init [3, 1, 0, 0, 0, 0, 255, 255, 255, 255]
        = .ok (10, { DataPacket.init with
                     type := 3, num_segments := 1,
                     segments := DataPacket.init.segments.set 0 ⟨0, 4294967295⟩ }) := by
      decide
    unfold FileReceiver.process_data_packet
    rw [hd, Outcome.bind_ok]
    show FileReceiver.absorb_segments _ fuel 1 0 _ 0 = _
    unfold FileReceiver.absorb_segments
    have hg : (DataPacket.init.segments.set 0 ⟨0, 4294967295⟩).get? 0
        = some ⟨0, 4294967295⟩ := by decide
    simp only [hg]
    rw [hzero _ _ _ _ _ (by decide) rfl]
    rfl
  · intro data fuel st rec off end_rec h
    unfold FileReceiver.absorb_records
    rw [if_neg (by omega)]

/-- For a segment inside [1,T] and a payload long enough the record loop
returns, having stored at indices of the segment only. -/
theorem record_writes_in_range (data : List Nat) (T R nb nr end_rec : Nat)
    (heT : end_rec ≤ T) (h32 : T + 1 < 4294967296) (hnb : T < nb) (hnr : T < nr) :
    ∀ (n fuel rec off : Nat), 1 ≤ rec → rec + n = end_rec + 1 → off + n * R ≤ data.length →
      n < fuel →
      ∃ ws, record_writes data T R nb nr end_rec fuel rec off = .ok (ws, off + n * R) ∧
        ∀ w ∈ ws, rec ≤ w.1 ∧ w.1 ≤ end_rec := by
  intro n
  induction n with
  | zero =>
    intro fuel rec off _ hn _ hfuel
    obtain ⟨fuel, rfl⟩ : ∃ m, fuel = m + 1 := ⟨fuel - 1, by omega⟩
    refine ⟨[], ?_, fun w hw => by cases hw⟩
    unfold record_writes
    rw [if_neg (by omega)]
    simp
  | succ n ih =>
    intro fuel rec off hrec hn hoff hfuel
    obtain ⟨fuel, rfl⟩ : ∃ m, fuel = m + 1 := ⟨fuel - 1, by omega⟩
    have hmul : (n + 1) * R = n * R + R := Nat.succ_mul n R
    obtain ⟨ws, hws, hidx⟩ := ih fuel (rec + 1) (off + R) (by omega) (by omega)
      (by omega) (by omega)
    refine ⟨(rec, (data.drop off).take R) :: ws, ?_, ?_⟩
    · unfold record_writes
      rw [if_pos (by omega), if_pos ⟨hrec, by omega⟩,
        if_pos ⟨by omega, by omega, by omega⟩, Nat.mod_eq_of_lt (by omega), hws,
        Outcome.bind_ok]
      rw [show off + R + n * R = off + (n + 1) * R by omega]
    · intro w hw
      rcases List.mem_cons.mp hw with h | h
      · rw [h]; exact ⟨le_refl _, by omega⟩
      · obtain ⟨h1, h2⟩ := hidx w h
        exact ⟨by omega, h2⟩

/-- For segments inside [1,T] and a payload long enough the segment loop
returns, having stored at indices named by the segments only. -/
theorem segment_writes_in_range (pkt : DataPacket) (T R nb nr fuel : Nat)
    (h32 : T + 1 < 4294967296) (hnb : T < nb) (hnr : T < nr) (hfuel : T < fuel) :
    ∀ (n i off : Nat), i + n ≤ pkt.segments.length →
      (∀ sg ∈ (pkt.segments.drop i).take n,
        1 ≤ sg.start_record ∧ sg.start_record ≤ sg.end_record ∧ sg.end_record ≤ T) →
      off + segment_records ((pkt.segments.drop i).take n) * R ≤ pkt.data.length →
      ∃ ws, segment_writes pkt T R nb nr fuel n i off = .ok ws ∧
        ∀ w ∈ ws, ∃ sg ∈ (pkt.segments.drop i).take n,
          sg.start_record ≤ w.1 ∧ w.1 ≤ sg.end_record := by
  intro n
  induction n with
  | zero =>
    intro i off _ _ _
    exact ⟨[], rfl, fun w hw => by cases hw⟩
  | succ n ih =>
    intro i off hlen hsegs hdata
    have hlt : i < pkt.segments.length := by omega
    have hg : pkt.segments.get? i = some (pkt.segments.get ⟨i, hlt⟩) := by
      rw [List.get?_eq_getElem?, List.getElem?_eq_getElem hlt]; rfl
    have hdrop : pkt.segments.drop i
        = pkt.segments.get ⟨i, hlt⟩ :: pkt.segments.drop (i + 1) := by
      rw [List.drop_eq_getElem_cons hlt]; rfl
    rw [hdrop, List.take_succ_cons] at hsegs hdata ⊢
    obtain ⟨c1, c2, c3⟩ := hsegs _ (List.mem_cons_self _ _)
    have hsum : segment_records
          (pkt.segments.get ⟨i, hlt⟩ :: (pkt.segments.drop (i + 1)).take n) * R
        = ((pkt.segments.get ⟨i, hlt⟩).end_record + 1
            - (pkt.segments.get ⟨i, hlt⟩).start_record) * R
          + segment_records ((pkt.segments.drop (i + 1)).take n) * R := by
      show (_ + _) * R = _
      rw [Nat.add_mul]
    rw [hsum] at hdata
    obtain ⟨ws1, e1, e2⟩ := record_writes_in_range pkt.data T R nb nr
      (pkt.segments.get ⟨i, hlt⟩).end_record c3 h32 hnb hnr
      ((pkt.segments.get ⟨i, hlt⟩).end_record + 1 - (pkt.segments.get ⟨i, hlt⟩).start_record)
      fuel (pkt.segments.get ⟨i, hlt⟩).start_record off c1 (by omega) (by omega) (by omega)
    obtain ⟨ws2, f1, f2⟩ := ih (i + 1)
      (off + ((pkt.segments.get ⟨i, hlt⟩).end_record + 1
        - (pkt.segments.get ⟨i, hlt⟩).start_record) * R)
      (by omega) (fun sg hsg => hsegs sg (List.mem_cons_of_mem _ hsg)) (by omega)
    refine ⟨ws1 ++ ws2, ?_, ?_⟩
    · unfold segment_writes
      rw [hg]
      simp only [e1, Outcome.bind_ok, f1]
    · intro w hw
      rcases List.mem_append.mp hw with h | h
      · exact ⟨_, List.mem_cons_self _ _, e2 w h⟩
      · obtain ⟨sg, hsg, hw2⟩ := f2 w h
        exact ⟨sg, List.mem_cons_of_mem _ hsg, hw2⟩

/-- A DATA datagram with at most 16 segments inside [1,T] and a payload that
holds their records is absorbed by every receiver of T records of R bytes with
vectors of T + 1 entries: the stores made are those of one list, at indices
named by the segments. -/
theorem process_data_packet_well_formed (fuel T R : Nat) (l : List Segment) (data : List Nat)
    (h32 : T + 1 < 4294967296) (hfuel : T < fuel) (hl : l.length ≤ 16)
    (hseg : ∀ sg ∈ l, 1 ≤ sg.start_record ∧ sg.start_record ≤ sg.end_record ∧
      sg.end_record ≤ T)
    (hdata : segment_records l * R ≤ data.length) :
    ∃ ws, (∀ w ∈ ws, ∃ sg ∈ l, sg.start_record ≤ w.1 ∧ w.1 ≤ sg.end_record) ∧
      ∀ st : FileReceiver, st.total_records = T → st.record_size = R →
        st.record_buffer.length = T + 1 → st.received_records.length = T + 1 →
        FileReceiver.process_data_packet fuel st ([DATA, l.length] ++ segment_bytes l ++ data)
          = .ok (apply_writes ws st) := by
  have hinit : DataPacket.init.segments.length = 16 := List.length_replicate _ _
  have hdec := data_deserialize_frame DataPacket.init DATA l data
    (fun sg hsg => by obtain ⟨c1, c2, c3⟩ := hseg sg hsg; omega)
    (by rw [hinit]; exact hl)
  have hdata2 : (if data = [] then DataPacket.init.data else data) = data := by
    by_cases hd : data = []
    · rw [if_pos hd, hd]; rfl
    · rw [if_neg hd]
  rw [hdata2] at hdec
  have htake : ((l ++ DataPacket.init.segments.drop l.length).drop 0).take l.length = l := by
    rw [List.drop_zero, List.take_left']
    rfl
  obtain ⟨ws, e1, e2⟩ := segment_writes_in_range
    { type := DATA, num_segments := l.length,
      segments := l ++ DataPacket.init.segments.drop l.length, data := data }
    T R (T + 1) (T + 1) fuel h32 (by omega) (by omega) hfuel l.length 0 0
    (by simp only [List.length_append, List.length_drop, hinit]; omega)
    (by rw [htake]; exact hseg)
    (by rw [htake]; simpa using hdata)
  rw [htake] at e2
  refine ⟨ws, e2, ?_⟩
  intro st hT hR hnb hnr
  rw [process_data_packet_writes, hdec, Outcome.bind_ok, hT, hR, hnb, hnr]
  show (segment_writes _ T R (T + 1) (T + 1) fuel l.length 0 0).bind _ = _
  rw [e1, Outcome.bind_ok]

/-- C26: a receiver of T records with vectors of T + 1 entries and two DATA
datagrams, each with at most 16 segments inside [1,T] and a payload that holds
the records its segments name, no index being named by both. Each datagram is
absorbed by `process_data_packet`, in either order, and both orders leave the
same receiver: the same bitmap, the same stored records. -/
theorem arrival_order_independent (fuel T : Nat) (st : FileReceiver) (l1 l2 : List Segment)
    (d1 d2 : List Nat) (hT : st.total_records = T)
    (hnb : st.record_buffer.length = T + 1) (hnr : st.received_records.length = T + 1)
    (h32 : T + 1 < 4294967296) (hfuel : T < fuel)
    (hl1 : l1.length ≤ 16) (hl2 : l2.length ≤ 16)
    (hseg1 : ∀ sg ∈ l1, 1 ≤ sg.start_record ∧ sg.start_record ≤ sg.end_record ∧
      sg.end_record ≤ T)
    (hseg2 : ∀ sg ∈ l2, 1 ≤ sg.start_record ∧ sg.start_record ≤ sg.end_record ∧
      sg.end_record ≤ T)
    (hd1 : segment_records l1 * st.record_size ≤ d1.length)
    (hd2 : segment_records l2 * st.record_size ≤ d2.length)
    (hdisj : ∀ sg1 ∈ l1, ∀ sg2 ∈ l2, ∀ i : Nat,
      ¬ (sg1.start_record ≤ i ∧ i ≤ sg1.end_record ∧
         sg2.start_record ≤ i ∧ i ≤ sg2.end_record)) :
    ∃ s1 s2 s,
      FileReceiver.process_data_packet fuel st ([DATA, l1.length] ++ segment_bytes l1 ++ d1)
        = .ok s1 ∧
      FileReceiver.process_data_packet fuel st ([DATA, l2.length] ++ segment_bytes l2 ++ d2)
        = .ok s2 ∧
      FileReceiver.process_data_packet fuel s1 ([DATA, l2.length] ++ segment_bytes l2 ++ d2)
        = .ok s ∧
      FileReceiver.process_data_packet fuel s2 ([DATA, l1.length] ++ segment_bytes l1 ++ d1)
        = .ok s := by
  obtain ⟨ws1, i1, p1⟩ := process_data_packet_well_formed fuel T st.record_size l1 d1 h32 hfuel
    hl1 hseg1 hd1
  obtain ⟨ws2, i2, p2⟩ := process_data_packet_well_formed fuel T st.record_size l2 d2 h32 hfuel
    hl2 hseg2 hd2
  have hne : ∀ w1 ∈ ws1, ∀ w2 ∈ ws2, w2.1 ≠ w1.1 := by
    intro w1 hw1 w2 hw2 heq
    obtain ⟨sg1, hs1, a1, a2⟩ := i1 w1 hw1
    obtain ⟨sg2, hs2, b1, b2⟩ := i2 w2 hw2
    exact hdisj sg1 hs1 sg2 hs2 w1.1 ⟨a1, a2, by rw [← heq]; exact b1, by rw [← heq]; exact b2⟩
  obtain ⟨f1, f2, f3, f4⟩ := apply_writes_fields ws1 st
  obtain ⟨g1, g2, g3, g4⟩ := apply_writes_fields ws2 st
  refine ⟨apply_writes ws1 st, apply_writes ws2 st, apply_writes ws2 (apply_writes ws1 st),
    p1 st hT rfl hnb hnr, p2 st hT rfl hnb hnr,
    p2 _ (by rw [f1, hT]) f2 (by rw [f3, hnb]) (by rw [f4, hnr]), ?_⟩
  rw [apply_writes_comm ws1 ws2 st hne]
  exact p1 _ (by rw [g1, hT]) g2 (by rw [g3, hnb]) (by rw [g4, hnr])

theorem arrival_order_independent_witness :
    ∃ s1 s2 s,
      FileReceiver.process_data_packet 3
          { FileReceiver.init with
            record_size := 2, total_records := 2,
            received_records := [false, false, false], record_buffer := [[], [], []] }
          ([DATA, [(⟨1, 1⟩ : Segment)].length] ++ segment_bytes [⟨1, 1⟩] ++ [7, 7]) = .ok s1 ∧
      FileReceiver.process_data_packet 3
          { FileReceiver.init with
            record_size := 2, total_records := 2,
            received_records := [false, false, false], record_buffer := [[], [], []] }
          ([DATA, [(⟨2, 2⟩ : Segment)].length] ++ segment_bytes [⟨2, 2⟩] ++ [9, 9]) = .ok s2 ∧
      FileReceiver.process_data_packet 3 s1
          ([DATA, [(⟨2, 2⟩ : Segment)].length] ++ segment_bytes [⟨2, 2⟩] ++ [9, 9]) = .ok s ∧
      FileReceiver.process_data_packet 3 s2
          ([DATA, [(⟨1, 1⟩ : Segment)].length] ++ segment_bytes [⟨1, 1⟩] ++ [7, 7]) = .ok s :=
  arrival_order_independent 3 2
    { FileReceiver.init with
      record_size := 2, total_records := 2,
      received_records := [false, false, false], record_buffer := [[], [], []] }
    [⟨1, 1⟩] [⟨2, 2⟩] [7, 7] [9, 9] rfl rfl rfl (by decide) (by decide) (by decide)
    (by decide) (by decide) (by decide) (by decide) (by decide)
    (by
      intro sg1 h1 sg2 h2 i
      rw [List.mem_singleton] at h1 h2
      rw [h1, h2]
      intro h
      have ha : i ≤ 1 := h.2.1
      have hb : 2 ≤ i := h.2.2.1
      omega)

end BlastFT
